import Mathlib

/-!
Verification of the Go rules engine in TMtests/tmcode/board.py.

This file shallowly embeds the data model and operations of the engine
(players, points, strings of stones, the board with its incremental
Zobrist hash, moves, and the immutable game-state chain) as executable
Lean definitions translated from the Python source, and settles
the specification claims about them.

Conventions used throughout the embedding:
* Python dictionaries holding the grid are embedded as functions
  `Point → Option GoString`; `dict.get` with a missing key and a key
  stored with value `None` both embed as `none`.
* Python `frozenset` values become `Finset`; iteration order over a
  frozenset is unspecified in the source, and whenever the source
  iterates over one (string removal) the embedding iterates in the
  canonical sorted order, which is observationally equivalent because
  the loop body is order-independent on well-formed boards.
* Coordinates are `Nat`; the source uses Python ints, but every point
  the engine ever touches has coordinates at least 1, and the clipped
  neighbor computations agree on those.
* Machine integers: Python ints are unbounded and the hash codes are
  below 2^63, so `Nat` with `^^^` (bitwise xor) models them exactly.
-/

/-- Binary player enum of the source, with black moving first. -/
inductive Player where
  | black
  | white
deriving DecidableEq, Repr

/-- Total commutative opponent operation (`Player.other` in the source). -/
def Player.other : Player → Player
  | .black => .white
  | .white => .black

/-- Integer board coordinate pair, 1-indexed, structural equality
(`Point` namedtuple in the source). -/
structure Point where
  row : Nat
  col : Nat
deriving DecidableEq, Repr

/-- The four orthogonal neighbor candidates of a point, in the order the
source lists them (`Point.neighbors`). For points with `row = 0` or
`col = 0` the natural-number truncation differs from Python's negative
coordinates, but such points are never passed to this function by the
engine, and both versions are off-grid there. -/
def Point.neighbors (p : Point) : List Point :=
  [⟨p.row - 1, p.col⟩, ⟨p.row + 1, p.col⟩, ⟨p.row, p.col - 1⟩, ⟨p.row, p.col + 1⟩]

/-- Row 1 of the source HASH_CODE table for occupant None. -/
def hashRowN1 (c : Nat) : Nat :=
  match c with
  | 1 => 1162283130344086229
  | 2 => 7518112373655032120
  | 3 => 2192665781030413525
  | 4 => 1847120733389269001
  | 5 => 3908964902394744712
  | 6 => 8360033944632935714
  | 7 => 3791426452337650040
  | 8 => 502604448516505625
  | 9 => 6323223384925992932
  | 10 => 7049990080509731137
  | 11 => 7817041133220518196
  | 12 => 5277608133758487382
  | 13 => 8474469086119755766
  | 14 => 3448410960245003263
  | 15 => 1185742311336680131
  | 16 => 6919441994038514658
  | 17 => 50476040059329004
  | 18 => 7372372038296536774
  | 19 => 6735680132391266754
  | _ => 0

/-- Row 2 of the source HASH_CODE table for occupant None. -/
def hashRowN2 (c : Nat) : Nat :=
  match c with
  | 1 => 425550938533968597
  | 2 => 6733837831897796776
  | 3 => 3916916747746594259
  | 4 => 8468469829207274574
  | 5 => 3590496365677858416
  | 6 => 752817609747504584
  | 7 => 643149331309327222
  | 8 => 6182669472412284272
  | 9 => 3717782693796911672
  | 10 => 616829711339977432
  | 11 => 8798517287666174427
  | 12 => 7249105629625768445
  | 13 => 2632030050493346902
  | 14 => 5543033225106289220
  | 15 => 8778074437079014739
  | 16 => 3120961501700419031
  | 17 => 8859886747534092276
  | 18 => 1939650880831770366
  | 19 => 2464992479088604602
  | _ => 0

/-- Row 3 of the source HASH_CODE table for occupant None. -/
def hashRowN3 (c : Nat) : Nat :=
  match c with
  | 1 => 6087747361058355195
  | 2 => 5924242792793373190
  | 3 => 6184983275288484674
  | 4 => 5268660652633376782
  | 5 => 4073081094810813108
  | 6 => 4878558677301882975
  | 7 => 2214142910750917201
  | 8 => 242250494624690413
  | 9 => 5985524576340430436
  | 10 => 7753957062569755610
  | 11 => 660164440297922579
  | 12 => 5574696790739121068
  | 13 => 2221805376208431300
  | 14 => 6629875559741917338
  | 15 => 4920223170720074220
  | 16 => 316032151960652467
  | 17 => 1570942225796607387
  | 18 => 3506626677640716028
  | 19 => 7832481487860493418
  | _ => 0

/-- Row 4 of the source HASH_CODE table for occupant None. -/
def hashRowN4 (c : Nat) : Nat :=
  match c with
  | 1 => 2947575025986496867
  | 2 => 632662653649738599
  | 3 => 4302015312536709145
  | 4 => 1769205064058601661
  | 5 => 8617996794463444132
  | 6 => 4985392396127246697
  | 7 => 4570669962700358635
  | 8 => 6446930697755010159
  | 9 => 5972331757521479725
  | 10 => 4773020264925948324
  | 11 => 6255824161969928655
  | 12 => 4423892227930890741
  | 13 => 1517162043102037804
  | 14 => 5478386889508000756
  | 15 => 188719891687381432
  | 16 => 735999433971620521
  | 17 => 3163533493540073036
  | 18 => 1643213966945004164
  | 19 => 3305708450297178773
  | _ => 0

/-- Row 5 of the source HASH_CODE table for occupant None. -/
def hashRowN5 (c : Nat) : Nat :=
  match c with
  | 1 => 2737204252875704950
  | 2 => 5599434705550755910
  | 3 => 3210263398179775254
  | 4 => 4500705965429540854
  | 5 => 7750481426291227514
  | 6 => 704780243050880863
  | 7 => 4228791588451722887
  | 8 => 4899223177583611717
  | 9 => 4138274735400772092
  | 10 => 3032717060216287485
  | 11 => 1503184785706353977
  | 12 => 1843234806414383046
  | 13 => 5031498287427088842
  | 14 => 1059755887814275436
  | 15 => 5830002438987759238
  | 16 => 6033799285368865845
  | 17 => 3689128337057296126
  | 18 => 7432094628563955663
  | 19 => 2436007186267557889
  | _ => 0

/-- Row 6 of the source HASH_CODE table for occupant None. -/
def hashRowN6 (c : Nat) : Nat :=
  match c with
  | 1 => 2173738740408398051
  | 2 => 6735378889028663720
  | 3 => 3506708988234314627
  | 4 => 103245606218658763
  | 5 => 4028823181026344722
  | 6 => 5361000294010050572
  | 7 => 1081381896604169149
  | 8 => 3673371558846305164
  | 9 => 7674508529893311373
  | 10 => 4054250268845064350
  | 11 => 1258576642818705945
  | 12 => 4928133640267010676
  | 13 => 1765207215440327458
  | 14 => 7787789407683267450
  | 15 => 4061617085224837858
  | 16 => 7506245199034016750
  | 17 => 4573982426008141117
  | 18 => 7227274896047738310
  | 19 => 7863305715136839902
  | _ => 0

/-- Row 7 of the source HASH_CODE table for occupant None. -/
def hashRowN7 (c : Nat) : Nat :=
  match c with
  | 1 => 2725757763464984311
  | 2 => 4354699901935132798
  | 3 => 8567049715663851201
  | 4 => 8267011999572082525
  | 5 => 5305099660623033482
  | 6 => 8829056065103468599
  | 7 => 8111051732785336493
  | 8 => 1205117856153879602
  | 9 => 4457914814175493942
  | 10 => 5933503270835911249
  | 11 => 5658327829211244547
  | 12 => 5831620588092795762
  | 13 => 3029023304173039584
  | 14 => 4686443047156012063
  | 15 => 5139330220549730019
  | 16 => 2801621146940987454
  | 17 => 4744216321226893551
  | 18 => 5302128402373857496
  | 19 => 3569627370236803230
  | _ => 0

/-- Row 8 of the source HASH_CODE table for occupant None. -/
def hashRowN8 (c : Nat) : Nat :=
  match c with
  | 1 => 6418264982907873739
  | 2 => 3590504161512614767
  | 3 => 808032272768171566
  | 4 => 6191058364073799215
  | 5 => 2128302496285178785
  | 6 => 9070718934283950848
  | 7 => 4652623937964105991
  | 8 => 6737197663410065966
  | 9 => 7079725986128857343
  | 10 => 2693047555035266224
  | 11 => 9132476477694523755
  | 12 => 8415162379237983833
  | 13 => 6288088846874122253
  | 14 => 6666805614214122325
  | 15 => 3175374051180751572
  | 16 => 4668169880544807736
  | 17 => 3631157650453265381
  | 18 => 272118417501931852
  | 19 => 592003013716137921
  | _ => 0

/-- Row 9 of the source HASH_CODE table for occupant None. -/
def hashRowN9 (c : Nat) : Nat :=
  match c with
  | 1 => 1418275208935359053
  | 2 => 4105492608546461333
  | 3 => 6444569304270920908
  | 4 => 2399483855621787118
  | 5 => 7628372958342377135
  | 6 => 2579763795636246440
  | 7 => 7475374518737556414
  | 8 => 4350410455935396126
  | 9 => 1263398944645734255
  | 10 => 2217335637649232047
  | 11 => 1586452570977004825
  | 12 => 9070404760457435009
  | 13 => 7820613740441605108
  | 14 => 7545013395372940462
  | 15 => 3126407811618347685
  | 16 => 1844186529549204435
  | 17 => 6230509502829468742
  | 18 => 1089679889897704113
  | 19 => 8568064649494534007
  | _ => 0

/-- Row 10 of the source HASH_CODE table for occupant None. -/
def hashRowN10 (c : Nat) : Nat :=
  match c with
  | 1 => 1521638820106444324
  | 2 => 3274640314093324993
  | 3 => 5859115878970833882
  | 4 => 6002066814374149962
  | 5 => 5144996275038030066
  | 6 => 3454343484845737546
  | 7 => 5243742649440044608
  | 8 => 6782107044470542190
  | 9 => 5933599962134993673
  | 10 => 1486544174696197175
  | 11 => 6000893213128650841
  | 12 => 7253867059249992126
  | 13 => 5660607092689494996
  | 14 => 444423466051184955
  | 15 => 8686266622190965864
  | 16 => 1971825384778872947
  | 17 => 283073156001167599
  | 18 => 10764727266210374
  | 19 => 4664284582093560576
  | _ => 0

/-- Row 11 of the source HASH_CODE table for occupant None. -/
def hashRowN11 (c : Nat) : Nat :=
  match c with
  | 1 => 5348062519783152455
  | 2 => 5809864552148767385
  | 3 => 5802681260874260921
  | 4 => 7773519911872136726
  | 5 => 5633428494282673298
  | 6 => 2557333486793652741
  | 7 => 1560394352721174255
  | 8 => 7726002492454753637
  | 9 => 5852952203382004214
  | 10 => 4654797875985344042
  | 11 => 6100345448525787815
  | 12 => 1878420641764065625
  | 13 => 7597683476946674958
  | 14 => 5416712422844281075
  | 15 => 1465472523125987178
  | 16 => 5538593761321123038
  | 17 => 3849621019399972664
  | 18 => 8092462746193724428
  | 19 => 6855415231994608505
  | _ => 0

/-- Row 12 of the source HASH_CODE table for occupant None. -/
def hashRowN12 (c : Nat) : Nat :=
  match c with
  | 1 => 998266040215183433
  | 2 => 8447771965457565260
  | 3 => 5067502027298995866
  | 4 => 6424609509065218258
  | 5 => 2858776142792028668
  | 6 => 3700681629513930011
  | 7 => 6510987909775895608
  | 8 => 407580790861275507
  | 9 => 1982889657249375625
  | 10 => 8897828432946565039
  | 11 => 8897534589018663185
  | 12 => 5856998575319238055
  | 13 => 6469508109431937439
  | 14 => 4147588778267983249
  | 15 => 4605687578288735090
  | 16 => 8294404297648394263
  | 17 => 2035240250413259383
  | 18 => 1045910823761562679
  | 19 => 439033462800838100
  | _ => 0

/-- Row 13 of the source HASH_CODE table for occupant None. -/
def hashRowN13 (c : Nat) : Nat :=
  match c with
  | 1 => 1656143693882853038
  | 2 => 275073180837234040
  | 3 => 5298741549504263194
  | 4 => 1074759670397652237
  | 5 => 9153847317880510527
  | 6 => 9126015518336780980
  | 7 => 343357643687728789
  | 8 => 7218249684049571269
  | 9 => 5815441573982267917
  | 10 => 3211999501121372946
  | 11 => 2784160896006056703
  | 12 => 4791826719391770873
  | 13 => 2381145397860260949
  | 14 => 1877254066388823295
  | 15 => 9150964979341862880
  | 16 => 5825915384047667523
  | 17 => 403055848092342882
  | 18 => 6477104116260386124
  | 19 => 978750003773637313
  | _ => 0

/-- Row 14 of the source HASH_CODE table for occupant None. -/
def hashRowN14 (c : Nat) : Nat :=
  match c with
  | 1 => 7551828168849153751
  | 2 => 4291543908470633818
  | 3 => 5319213614676160611
  | 4 => 8065326951452886791
  | 5 => 7339347534036755011
  | 6 => 9127591636991004115
  | 7 => 1896388225362279120
  | 8 => 8488955562486628728
  | 9 => 5094885697468763828
  | 10 => 1853765541778675567
  | 11 => 8276276752242437094
  | 12 => 633211671489224297
  | 13 => 1455897010152965212
  | 14 => 45571391617678556
  | 15 => 7201995285566814564
  | 16 => 8398812954491651707
  | 17 => 2638364743456066939
  | 18 => 2763947302778301266
  | 19 => 5029224255005275855
  | _ => 0

/-- Row 15 of the source HASH_CODE table for occupant None. -/
def hashRowN15 (c : Nat) : Nat :=
  match c with
  | 1 => 3695814377337407650
  | 2 => 559440285168245620
  | 3 => 7958035312199534015
  | 4 => 8292626046000801061
  | 5 => 2768015215358729492
  | 6 => 190127789512067484
  | 7 => 6064717872149114589
  | 8 => 8889043158614408017
  | 9 => 3316941732766980859
  | 10 => 2856934085838021984
  | 11 => 1816577702794068821
  | 12 => 2519577279611409858
  | 13 => 152567039000779306
  | 14 => 1179731223239320298
  | 15 => 7158904931281848290
  | 16 => 7954312537263882514
  | 17 => 845639277023479984
  | 18 => 8326145418908984949
  | 19 => 1901824973311358564
  | _ => 0

/-- Row 16 of the source HASH_CODE table for occupant None. -/
def hashRowN16 (c : Nat) : Nat :=
  match c with
  | 1 => 63418289697342000
  | 2 => 7520279425792732521
  | 3 => 8045555575212985725
  | 4 => 138790162492422340
  | 5 => 2862051214406236770
  | 6 => 8736274202494929061
  | 7 => 4026482809138750750
  | 8 => 6696906349599937159
  | 9 => 7818293396446702093
  | 10 => 5699557428305720979
  | 11 => 2857371703149257273
  | 12 => 7108335889521371102
  | 13 => 2715422982171936936
  | 14 => 5664653410221961425
  | 15 => 2029722322765667601
  | 16 => 3742344294226756567
  | 17 => 4572375874718002489
  | 18 => 5499090110254866725
  | 19 => 5758216237824441823
  | _ => 0

/-- Row 17 of the source HASH_CODE table for occupant None. -/
def hashRowN17 (c : Nat) : Nat :=
  match c with
  | 1 => 8441806805330595190
  | 2 => 9020951479611472876
  | 3 => 1653321346115170208
  | 4 => 7499965069729015256
  | 5 => 3445427540165637015
  | 6 => 6934170705579076545
  | 7 => 1129257150414509625
  | 8 => 7780319767594628354
  | 9 => 7665243387305842563
  | 10 => 8591149540843297096
  | 11 => 4268100182799318292
  | 12 => 1017534715675133812
  | 13 => 4343761027723194683
  | 14 => 4714815619581536994
  | 15 => 6277652250742384738
  | 16 => 2519421800755257805
  | 17 => 7709325169544137820
  | 18 => 6473740237232049560
  | 19 => 2295316706164181841
  | _ => 0

/-- Row 18 of the source HASH_CODE table for occupant None. -/
def hashRowN18 (c : Nat) : Nat :=
  match c with
  | 1 => 2852527910458903125
  | 2 => 7959065854038660184
  | 3 => 671937270355112936
  | 4 => 4925390829841058751
  | 5 => 560938052143465936
  | 6 => 1418295625793656731
  | 7 => 1057828042802571687
  | 8 => 4048319218448622202
  | 9 => 5833846065435472931
  | 10 => 8831632376765181341
  | 11 => 6472562625815440134
  | 12 => 3118865153020698221
  | 13 => 9117650062772795788
  | 14 => 6712816502502173995
  | 15 => 498751852477083716
  | 16 => 5319379521180058988
  | 17 => 343773699873737702
  | 18 => 5602743241684595183
  | 19 => 3798746032546640743
  | _ => 0

/-- Row 19 of the source HASH_CODE table for occupant None. -/
def hashRowN19 (c : Nat) : Nat :=
  match c with
  | 1 => 3964565225046925932
  | 2 => 6317504246489826376
  | 3 => 4232524418025068419
  | 4 => 8354916097429750798
  | 5 => 2086877937836048353
  | 6 => 3702613267489725371
  | 7 => 8805848995628234819
  | 8 => 3873957112984296489
  | 9 => 728350317280396533
  | 10 => 5853392869762672561
  | 11 => 7914124506266617390
  | 12 => 3736516329573577537
  | 13 => 4659397407330573358
  | 14 => 5047170360332733135
  | 15 => 4117646698597337977
  | 16 => 4897576553623686965
  | 17 => 3653566787938539919
  | 18 => 6765637400696884466
  | 19 => 5029762135737944944
  | _ => 0

/-- Dispatch over rows of the source HASH_CODE table for occupant None. -/
def hashCodeN (p : Point) : Nat :=
  match p.row with
  | 1 => hashRowN1 p.col
  | 2 => hashRowN2 p.col
  | 3 => hashRowN3 p.col
  | 4 => hashRowN4 p.col
  | 5 => hashRowN5 p.col
  | 6 => hashRowN6 p.col
  | 7 => hashRowN7 p.col
  | 8 => hashRowN8 p.col
  | 9 => hashRowN9 p.col
  | 10 => hashRowN10 p.col
  | 11 => hashRowN11 p.col
  | 12 => hashRowN12 p.col
  | 13 => hashRowN13 p.col
  | 14 => hashRowN14 p.col
  | 15 => hashRowN15 p.col
  | 16 => hashRowN16 p.col
  | 17 => hashRowN17 p.col
  | 18 => hashRowN18 p.col
  | 19 => hashRowN19 p.col
  | _ => 0

/-- Row 1 of the source HASH_CODE table for occupant Player.black. -/
def hashRowB1 (c : Nat) : Nat :=
  match c with
  | 1 => 9138212341767108400
  | 2 => 2874921448747074414
  | 3 => 6225177836033993326
  | 4 => 2454414734780888641
  | 5 => 7238371430473055228
  | 6 => 6119666825129193576
  | 7 => 6873485917124616194
  | 8 => 4075646587300812859
  | 9 => 5752683057393766470
  | 10 => 4904279465046057899
  | 11 => 4330728823793108246
  | 12 => 9047883889504830320
  | 13 => 8893020774137184848
  | 14 => 6172799962719315759
  | 15 => 5352314391420658587
  | 16 => 2511133292311201071
  | 17 => 4527523903189713222
  | 18 => 4858938193392573849
  | 19 => 3312211730266320016
  | _ => 0

/-- Row 2 of the source HASH_CODE table for occupant Player.black. -/
def hashRowB2 (c : Nat) : Nat :=
  match c with
  | 1 => 5128200195365529303
  | 2 => 7800753780189699206
  | 3 => 51003230900314441
  | 4 => 6113952995570937523
  | 5 => 206488478257264029
  | 6 => 8240393740136323604
  | 7 => 8306176866168248484
  | 8 => 2256719865523669765
  | 9 => 5370642347967254292
  | 10 => 3788169609662872843
  | 11 => 7443790449831297901
  | 12 => 1098166101729740246
  | 13 => 7083380492849425895
  | 14 => 7534659441371070048
  | 15 => 2398236612404517846
  | 16 => 7006943602452129516
  | 17 => 7738981915817647516
  | 18 => 1484305791862344891
  | 19 => 4157331571939281870
  | _ => 0

/-- Row 3 of the source HASH_CODE table for occupant Player.black. -/
def hashRowB3 (c : Nat) : Nat :=
  match c with
  | 1 => 128773978795428337
  | 2 => 7715502696661100716
  | 3 => 979493286986678055
  | 4 => 4466706176615707705
  | 5 => 3463658293348187931
  | 6 => 5034731528983809640
  | 7 => 1324700614169022007
  | 8 => 4975772730167034295
  | 9 => 4111111989659988448
  | 10 => 1553131915113512580
  | 11 => 3836430885862708062
  | 12 => 4696858373576619084
  | 13 => 7702978967929618953
  | 14 => 2886270234539694348
  | 15 => 8495749428163139578
  | 16 => 4993354923634450486
  | 17 => 6023838934845960254
  | 18 => 6412913976696959838
  | 19 => 4638020777934901331
  | _ => 0

/-- Row 4 of the source HASH_CODE table for occupant Player.black. -/
def hashRowB4 (c : Nat) : Nat :=
  match c with
  | 1 => 493144256240060805
  | 2 => 711660639648901843
  | 3 => 2335639103709480305
  | 4 => 3158885905749811677
  | 5 => 8072645854836353988
  | 6 => 4364603943272475922
  | 7 => 6735979788777257512
  | 8 => 4391295938621086611
  | 9 => 7777839438475890763
  | 10 => 640842257028445703
  | 11 => 988108791873828552
  | 12 => 2701088664343997337
  | 13 => 1854042224055970142
  | 14 => 154560630651509824
  | 15 => 486957934699089169
  | 16 => 7417407732147354411
  | 17 => 5463923581676090438
  | 18 => 7354290050664722934
  | 19 => 2375595489514048666
  | _ => 0

/-- Row 5 of the source HASH_CODE table for occupant Player.black. -/
def hashRowB5 (c : Nat) : Nat :=
  match c with
  | 1 => 45755682013417362
  | 2 => 4520353922637165416
  | 3 => 6866887756097203626
  | 4 => 1401346350625414349
  | 5 => 5288039906940838687
  | 6 => 4788008647896209174
  | 7 => 2774668757564428307
  | 8 => 7674155147752244511
  | 9 => 8017803294189177068
  | 10 => 427174402822095331
  | 11 => 6014754819412753336
  | 12 => 6124913620496969696
  | 13 => 1878656205194279646
  | 14 => 4885264678529058948
  | 15 => 1288646529884954264
  | 16 => 5688407261925211040
  | 17 => 8143465936157355776
  | 18 => 3449926392232017533
  | 19 => 498831444427374025
  | _ => 0

/-- Row 6 of the source HASH_CODE table for occupant Player.black. -/
def hashRowB6 (c : Nat) : Nat :=
  match c with
  | 1 => 4665393076384757186
  | 2 => 3732820017173774764
  | 3 => 3276262309492553648
  | 4 => 1991687204280541397
  | 5 => 4858453628202175471
  | 6 => 7896274233846119175
  | 7 => 2455529750462961962
  | 8 => 5933384013872886148
  | 9 => 4261322875651242114
  | 10 => 1242743297552572613
  | 11 => 4634239272672743952
  | 12 => 583592917583633996
  | 13 => 7442303851232245378
  | 14 => 549496212425754972
  | 15 => 6315928519201369390
  | 16 => 4119025711383875550
  | 17 => 6423567854433706603
  | 18 => 570150522979623279
  | 19 => 8120928684476466013
  | _ => 0

/-- Row 7 of the source HASH_CODE table for occupant Player.black. -/
def hashRowB7 (c : Nat) : Nat :=
  match c with
  | 1 => 2132807973934839751
  | 2 => 7045003500559636445
  | 3 => 7336201546344200999
  | 4 => 4210531376017046692
  | 5 => 264918848526872470
  | 6 => 1468255622574496523
  | 7 => 3466897690214289977
  | 8 => 7640028311729648167
  | 9 => 2113677560585370194
  | 10 => 3739542004460774078
  | 11 => 6529398888785673905
  | 12 => 3310879154785341703
  | 13 => 5504273876145842072
  | 14 => 7235139171180801308
  | 15 => 843572316152719581
  | 16 => 5923455446620916512
  | 17 => 5038157195586834603
  | 18 => 1289989143109851764
  | 19 => 5734788842719031890
  | _ => 0

/-- Row 8 of the source HASH_CODE table for occupant Player.black. -/
def hashRowB8 (c : Nat) : Nat :=
  match c with
  | 1 => 3726460367447316962
  | 2 => 6737745783802557907
  | 3 => 373791415098530678
  | 4 => 1994504006615303205
  | 5 => 5202616071984915501
  | 6 => 1153127874599712090
  | 7 => 7882731175378018582
  | 8 => 3267323250994527221
  | 9 => 9167413862284557078
  | 10 => 4953917673219598393
  | 11 => 4039979718049572746
  | 12 => 7689841173881182646
  | 13 => 5124174808680703277
  | 14 => 2371243475260289454
  | 15 => 4633089288807487713
  | 16 => 1337783968789848297
  | 17 => 7912376285707166859
  | 18 => 3116175634508120705
  | 19 => 6552963506268994825
  | _ => 0

/-- Row 9 of the source HASH_CODE table for occupant Player.black. -/
def hashRowB9 (c : Nat) : Nat :=
  match c with
  | 1 => 332603946577160980
  | 2 => 2456324036341728622
  | 3 => 8405364911897534624
  | 4 => 2794022724871234260
  | 5 => 4764654009992320406
  | 6 => 9094604045432033153
  | 7 => 4190046680666963410
  | 8 => 1881456575971873987
  | 9 => 7074761764475804254
  | 10 => 5260049927323382627
  | 11 => 4022138289524765615
  | 12 => 6989013039269247631
  | 13 => 8929753920145660801
  | 14 => 7433816439134621272
  | 15 => 1409798412261681499
  | 16 => 1305219267461031490
  | 17 => 6074267757209423878
  | 18 => 5663930491463859110
  | 19 => 1812424030805242134
  | _ => 0

/-- Row 10 of the source HASH_CODE table for occupant Player.black. -/
def hashRowB10 (c : Nat) : Nat :=
  match c with
  | 1 => 5320093946376038785
  | 2 => 8653895836014833359
  | 3 => 8185523390051238509
  | 4 => 9052125320216351662
  | 5 => 5758566922435928709
  | 6 => 3503597216644304092
  | 7 => 933612205038060031
  | 8 => 6579542531325860684
  | 9 => 6196421710246618144
  | 10 => 4212288249208903214
  | 11 => 2526118690601747525
  | 12 => 6838034690572847128
  | 13 => 5215863743413950615
  | 14 => 2727989087262035896
  | 15 => 4626125606515150500
  | 16 => 1240935362270823923
  | 17 => 4920423938795260527
  | 18 => 649117595221133957
  | 19 => 1939998518153080863
  | _ => 0

/-- Row 11 of the source HASH_CODE table for occupant Player.black. -/
def hashRowB11 (c : Nat) : Nat :=
  match c with
  | 1 => 5996392361432254825
  | 2 => 7210131100602837507
  | 3 => 8686965080754872810
  | 4 => 586261577628141812
  | 5 => 3338252750426072785
  | 6 => 7328288244285524556
  | 7 => 1377490540295307177
  | 8 => 1231652342866699614
  | 9 => 285046196431026167
  | 10 => 7804680178556030651
  | 11 => 1915235819964278617
  | 12 => 6137310556075607284
  | 13 => 7076356306204632859
  | 14 => 6810585850200510265
  | 15 => 3394238421020544539
  | 16 => 7384937168207385976
  | 17 => 2195228292668049082
  | 18 => 4697807953211357257
  | 19 => 384020625329842017
  | _ => 0

/-- Row 12 of the source HASH_CODE table for occupant Player.black. -/
def hashRowB12 (c : Nat) : Nat :=
  match c with
  | 1 => 5464654337676894640
  | 2 => 8559262682736118878
  | 3 => 8109691821743492636
  | 4 => 924558142139415266
  | 5 => 3592624158473093074
  | 6 => 9161329144303995900
  | 7 => 8295072048558129887
  | 8 => 377240960993310941
  | 9 => 8471225795558223533
  | 10 => 4116651642558502485
  | 11 => 835955248229356043
  | 12 => 7006475030081690394
  | 13 => 5904330391822003401
  | 14 => 3511642388707940942
  | 15 => 9003978416941095284
  | 16 => 8769382189639842815
  | 17 => 3332491981310133841
  | 18 => 6153957221184064614
  | 19 => 6481474465169496417
  | _ => 0

/-- Row 13 of the source HASH_CODE table for occupant Player.black. -/
def hashRowB13 (c : Nat) : Nat :=
  match c with
  | 1 => 247278101578381892
  | 2 => 5192049507093795500
  | 3 => 8110135987716169336
  | 4 => 4430251706685945624
  | 5 => 2157577701866203459
  | 6 => 791283340431100062
  | 7 => 6255252026589550318
  | 8 => 2008718218582480587
  | 9 => 5534352345857055954
  | 10 => 5293683797810235119
  | 11 => 3193406078526993791
  | 12 => 6207666807461479134
  | 13 => 4681685013420754604
  | 14 => 1129946990074563131
  | 15 => 6514523517087165609
  | 16 => 2830195534957136697
  | 17 => 1184628281060168358
  | 18 => 8428325981815792159
  | 19 => 5267072736842939674
  | _ => 0

/-- Row 14 of the source HASH_CODE table for occupant Player.black. -/
def hashRowB14 (c : Nat) : Nat :=
  match c with
  | 1 => 3401118035834791741
  | 2 => 6062830291466411678
  | 3 => 4426389390046124101
  | 4 => 6987946368160679122
  | 5 => 9170736908319707667
  | 6 => 8553988984151679985
  | 7 => 3388393064217003987
  | 8 => 4430149526543853589
  | 9 => 3924875976814968297
  | 10 => 5157776988038317631
  | 11 => 1712434757353801480
  | 12 => 2423972347987555636
  | 13 => 5990676008476260550
  | 14 => 5891862584535141559
  | 15 => 1164434582398556396
  | 16 => 7158380753572660517
  | 17 => 4754547756158887302
  | 18 => 7982191564416298564
  | 19 => 8369981889629046893
  | _ => 0

/-- Row 15 of the source HASH_CODE table for occupant Player.black. -/
def hashRowB15 (c : Nat) : Nat :=
  match c with
  | 1 => 2824765415531952878
  | 2 => 2829198594161735723
  | 3 => 2744463086825769409
  | 4 => 499288175507925346
  | 5 => 1900476276820973409
  | 6 => 476506784555826453
  | 7 => 5025657037185572036
  | 8 => 1344241588881809433
  | 9 => 8693436778635940057
  | 10 => 8269178505160279305
  | 11 => 699628081286636611
  | 12 => 9098570826037071490
  | 13 => 6632833182873019743
  | 14 => 6417527581079112602
  | 15 => 3037990753756932057
  | 16 => 4853786914859126714
  | 17 => 3004498214503789471
  | 18 => 638223301657396582
  | 19 => 6025637348477202710
  | _ => 0

/-- Row 16 of the source HASH_CODE table for occupant Player.black. -/
def hashRowB16 (c : Nat) : Nat :=
  match c with
  | 1 => 6005308587574209253
  | 2 => 4678350554899237929
  | 3 => 1868134992371030578
  | 4 => 2965499348454622600
  | 5 => 7102132810509293011
  | 6 => 5238685826782945619
  | 7 => 1551452668457118015
  | 8 => 2796370176184006406
  | 9 => 7261741847385437316
  | 10 => 5526148479484615913
  | 11 => 6528548906295531905
  | 12 => 1698277204516027072
  | 13 => 5831441303878268071
  | 14 => 7523931257761030857
  | 15 => 8227181148418565161
  | 16 => 5830524854178236548
  | 17 => 1945206792180120307
  | 18 => 3180688156321952190
  | 19 => 8427133184213264711
  | _ => 0

/-- Row 17 of the source HASH_CODE table for occupant Player.black. -/
def hashRowB17 (c : Nat) : Nat :=
  match c with
  | 1 => 3697378558286727481
  | 2 => 7700376692920090830
  | 3 => 1987753975823026539
  | 4 => 4199189251700530595
  | 5 => 5995390733349708105
  | 6 => 7473924651035762130
  | 7 => 7837080304459486236
  | 8 => 1568939125443457874
  | 9 => 1152044929834717917
  | 10 => 4638878886562009810
  | 11 => 1107551630289505326
  | 12 => 2764196596402379721
  | 13 => 4587348376063515832
  | 14 => 6022180712585355373
  | 15 => 5572961275408903576
  | 16 => 6625995300496615026
  | 17 => 7834990150996276207
  | 18 => 7798500689966044709
  | 19 => 5343992794278052781
  | _ => 0

/-- Row 18 of the source HASH_CODE table for occupant Player.black. -/
def hashRowB18 (c : Nat) : Nat :=
  match c with
  | 1 => 5702351658945321848
  | 2 => 8287676777453109455
  | 3 => 2440766395808033752
  | 4 => 7116955615350911195
  | 5 => 4422934017122900805
  | 6 => 246971316675793814
  | 7 => 1245032227956452648
  | 8 => 4813958021549961218
  | 9 => 551230692104665915
  | 10 => 8956405856183023513
  | 11 => 789680811119095113
  | 12 => 5042376213925182208
  | 13 => 6848405432401399431
  | 14 => 2464790282343097352
  | 15 => 2410153702000293832
  | 16 => 2919319678259757914
  | 17 => 1182866646348208526
  | 18 => 4980560856299911210
  | 19 => 2501535748016108797
  | _ => 0

/-- Row 19 of the source HASH_CODE table for occupant Player.black. -/
def hashRowB19 (c : Nat) : Nat :=
  match c with
  | 1 => 3688682836876582637
  | 2 => 162041962383794032
  | 3 => 7405505712579410538
  | 4 => 2635692319009519358
  | 5 => 7626575161044796374
  | 6 => 9140224129698370101
  | 7 => 2346671883088990896
  | 8 => 8628502859474536349
  | 9 => 131683094041568791
  | 10 => 1086119019384209081
  | 11 => 990951296077837777
  | 12 => 9049982189695762597
  | 13 => 4017565196765571993
  | 14 => 8962575634273478093
  | 15 => 5660517384525053349
  | 16 => 5070388705121445392
  | 17 => 6102949954824408729
  | 18 => 7701640673264018069
  | 19 => 5697973289473310863
  | _ => 0

/-- Dispatch over rows of the source HASH_CODE table for occupant Player.black. -/
def hashCodeB (p : Point) : Nat :=
  match p.row with
  | 1 => hashRowB1 p.col
  | 2 => hashRowB2 p.col
  | 3 => hashRowB3 p.col
  | 4 => hashRowB4 p.col
  | 5 => hashRowB5 p.col
  | 6 => hashRowB6 p.col
  | 7 => hashRowB7 p.col
  | 8 => hashRowB8 p.col
  | 9 => hashRowB9 p.col
  | 10 => hashRowB10 p.col
  | 11 => hashRowB11 p.col
  | 12 => hashRowB12 p.col
  | 13 => hashRowB13 p.col
  | 14 => hashRowB14 p.col
  | 15 => hashRowB15 p.col
  | 16 => hashRowB16 p.col
  | 17 => hashRowB17 p.col
  | 18 => hashRowB18 p.col
  | 19 => hashRowB19 p.col
  | _ => 0

/-- Row 1 of the source HASH_CODE table for occupant Player.white. -/
def hashRowW1 (c : Nat) : Nat :=
  match c with
  | 1 => 450552737902997656
  | 2 => 70514938981617122
  | 3 => 6104895567594294390
  | 4 => 2663217514986023210
  | 5 => 9013577144830356870
  | 6 => 437997259908228553
  | 7 => 1060110416072616937
  | 8 => 5752403827836694698
  | 9 => 192342943234938291
  | 10 => 3897712267947759083
  | 11 => 725894760182374621
  | 12 => 1405997386190365186
  | 13 => 3583050097803867420
  | 14 => 1973570913837532184
  | 15 => 7633433129071983266
  | 16 => 7135654296981623221
  | 17 => 8137114813478478561
  | 18 => 8108883004580733510
  | 19 => 6755421024588510039
  | _ => 0

/-- Row 2 of the source HASH_CODE table for occupant Player.white. -/
def hashRowW2 (c : Nat) : Nat :=
  match c with
  | 1 => 6073791951166816759
  | 2 => 5836911720679622870
  | 3 => 6655615386933781681
  | 4 => 5432027850383420277
  | 5 => 3890989388601001121
  | 6 => 2341196014199144354
  | 7 => 6386607133951322576
  | 8 => 8600750506327155101
  | 9 => 284933760019036232
  | 10 => 302872583030009755
  | 11 => 6366389027096245012
  | 12 => 5140424914640626428
  | 13 => 1635919570268402621
  | 14 => 3085193996757281783
  | 15 => 6448820548392829030
  | 16 => 6450030375349199623
  | 17 => 2797389142094964696
  | 18 => 1562208742859527548
  | 19 => 4435688242100879287
  | _ => 0

/-- Row 3 of the source HASH_CODE table for occupant Player.white. -/
def hashRowW3 (c : Nat) : Nat :=
  match c with
  | 1 => 1928224379002316303
  | 2 => 3534442841526700391
  | 3 => 685808035345435482
  | 4 => 3844509763912163236
  | 5 => 4492431613437565044
  | 6 => 2999401364374348351
  | 7 => 5830469642816100506
  | 8 => 7041563746715310482
  | 9 => 1165528629593696508
  | 10 => 4656161018169441654
  | 11 => 1644076248725676727
  | 12 => 2081060695344672347
  | 13 => 1414144801376953814
  | 14 => 6879030072145051784
  | 15 => 1350770839549802911
  | 16 => 6129860202117392645
  | 17 => 5264287065200344518
  | 18 => 848484703119682044
  | 19 => 5194817635262925231
  | _ => 0

/-- Row 4 of the source HASH_CODE table for occupant Player.white. -/
def hashRowW4 (c : Nat) : Nat :=
  match c with
  | 1 => 8016693566715001875
  | 2 => 2807713682470261971
  | 3 => 2058990493928982477
  | 4 => 4793067796414384877
  | 5 => 7370756395561447043
  | 6 => 5147144461075642175
  | 7 => 3282837049564162517
  | 8 => 7287597299895215491
  | 9 => 5242836387948264263
  | 10 => 9004195578731335901
  | 11 => 2951762181610237031
  | 12 => 8732353907268095623
  | 13 => 6742887956340237555
  | 14 => 4404066432686545852
  | 15 => 2057791266926106560
  | 16 => 2509857767195124601
  | 17 => 6765616316094982686
  | 18 => 7076350285395167063
  | 19 => 1684172933344140340
  | _ => 0

/-- Row 5 of the source HASH_CODE table for occupant Player.white. -/
def hashRowW5 (c : Nat) : Nat :=
  match c with
  | 1 => 2302509291931860626
  | 2 => 6598878958612399771
  | 3 => 943686971525037407
  | 4 => 8157056091562970186
  | 5 => 4245425503966826362
  | 6 => 7551091912348209872
  | 7 => 5453858963060095122
  | 8 => 2241553938596892377
  | 9 => 7911091455170764999
  | 10 => 6496324631361835147
  | 11 => 4318322752777694598
  | 12 => 8276772214055243633
  | 13 => 7711543025327770976
  | 14 => 8783983991599995930
  | 15 => 5914879578018647330
  | 16 => 586171509497279273
  | 17 => 5342253943796373149
  | 18 => 3605333286424796991
  | 19 => 449966740782410926
  | _ => 0

/-- Row 6 of the source HASH_CODE table for occupant Player.white. -/
def hashRowW6 (c : Nat) : Nat :=
  match c with
  | 1 => 2536489705870206263
  | 2 => 5379435586985576322
  | 3 => 645566108644451420
  | 4 => 1384206078352061712
  | 5 => 4682576323032814039
  | 6 => 4463399506589439901
  | 7 => 2115695100901481136
  | 8 => 8715197248349724823
  | 9 => 7620529671196095025
  | 10 => 8019922257716118745
  | 11 => 3872234285932796133
  | 12 => 6295627042831919907
  | 13 => 7400782461534852568
  | 14 => 25556843019032285
  | 15 => 5243228597679734601
  | 16 => 384547999513417796
  | 17 => 8463631954049272644
  | 18 => 5202607222514309671
  | 19 => 8752084410343898720
  | _ => 0

/-- Row 7 of the source HASH_CODE table for occupant Player.white. -/
def hashRowW7 (c : Nat) : Nat :=
  match c with
  | 1 => 7442226016731511235
  | 2 => 4493194887590566491
  | 3 => 5039789966781813683
  | 4 => 8512226392565163366
  | 5 => 6859778237660826564
  | 6 => 2278579396347714375
  | 7 => 9154213988004818228
  | 8 => 8315897391576062890
  | 9 => 3484047555951895872
  | 10 => 6744100637413056020
  | 11 => 5271496303956840432
  | 12 => 8614792809531091536
  | 13 => 1855344039548726968
  | 14 => 2303536185274333106
  | 15 => 5530693685903566296
  | 16 => 2219076344047400233
  | 17 => 1845660578636719935
  | 18 => 7924824851619329812
  | 19 => 3685000032210373900
  | _ => 0

/-- Row 8 of the source HASH_CODE table for occupant Player.white. -/
def hashRowW8 (c : Nat) : Nat :=
  match c with
  | 1 => 7542397498544597971
  | 2 => 4846566052296042342
  | 3 => 2658078847849035002
  | 4 => 2234339176323322741
  | 5 => 8438857553468806897
  | 6 => 3598188494696337539
  | 7 => 1275913977002097144
  | 8 => 180519266395437990
  | 9 => 3580456999751900917
  | 10 => 5342335254264005610
  | 11 => 4402961578569043804
  | 12 => 806081900131147748
  | 13 => 6596992103676294895
  | 14 => 6232015089852024804
  | 15 => 4653800971740985106
  | 16 => 9092241543865760803
  | 17 => 4478024833819478573
  | 18 => 9181234785725282257
  | 19 => 6769493853608350726
  | _ => 0

/-- Row 9 of the source HASH_CODE table for occupant Player.white. -/
def hashRowW9 (c : Nat) : Nat :=
  match c with
  | 1 => 6660495066308467726
  | 2 => 3736866397813927958
  | 3 => 4906928737313095627
  | 4 => 1581837394846677449
  | 5 => 7542901296226671868
  | 6 => 3668129583279350159
  | 7 => 2395463540609400721
  | 8 => 2976365119932553950
  | 9 => 5042257350876402528
  | 10 => 3151958695483557785
  | 11 => 6350036201756837499
  | 12 => 8988015420288719113
  | 13 => 2944996824568337071
  | 14 => 5023261232538793736
  | 15 => 4857047763242438625
  | 16 => 2197931088739006754
  | 17 => 3551568090532648168
  | 18 => 8938931903050159289
  | 19 => 1423244571802272411
  | _ => 0

/-- Row 10 of the source HASH_CODE table for occupant Player.white. -/
def hashRowW10 (c : Nat) : Nat :=
  match c with
  | 1 => 8058052970492933669
  | 2 => 5679340943863721795
  | 3 => 4615248644304962457
  | 4 => 4210194132027736262
  | 5 => 1653634319987509444
  | 6 => 3354988246339305403
  | 7 => 6790016243096917378
  | 8 => 8724103071131668421
  | 9 => 3008556409768438945
  | 10 => 7918519988377072445
  | 11 => 330592007937867773
  | 12 => 4075411952484225146
  | 13 => 1247474538405952572
  | 14 => 7268290769033195062
  | 15 => 6581291367246891400
  | 16 => 3504018170463589085
  | 17 => 3702102821474615764
  | 18 => 2588110298780108191
  | 19 => 4427007428091790253
  | _ => 0

/-- Row 11 of the source HASH_CODE table for occupant Player.white. -/
def hashRowW11 (c : Nat) : Nat :=
  match c with
  | 1 => 4422578214905101422
  | 2 => 5868362121548963462
  | 3 => 2485054442760459904
  | 4 => 5881695887327119569
  | 5 => 6126999987325839737
  | 6 => 6174063470268583759
  | 7 => 2367385626131998382
  | 8 => 3761737736053096007
  | 9 => 6557081050594727387
  | 10 => 6675617189426752806
  | 11 => 9191984496891122238
  | 12 => 2420925702589935557
  | 13 => 3394937759238788993
  | 14 => 5353788091350909232
  | 15 => 7924173482485228708
  | 16 => 6713483607315196923
  | 17 => 4244984086681678539
  | 18 => 2216286540540928267
  | 19 => 3644274131863034297
  | _ => 0

/-- Row 12 of the source HASH_CODE table for occupant Player.white. -/
def hashRowW12 (c : Nat) : Nat :=
  match c with
  | 1 => 8258236414019485276
  | 2 => 6136999892594372064
  | 3 => 7115711312243220712
  | 4 => 3875408167823154717
  | 5 => 1749602571513763862
  | 6 => 4014126085449648120
  | 7 => 4722284033964037165
  | 8 => 5332553753533207458
  | 9 => 2685712622984157564
  | 10 => 5497820928006536147
  | 11 => 6649611640528669463
  | 12 => 4305234555713021441
  | 13 => 5122779117758642967
  | 14 => 8639687657969852123
  | 15 => 1006408344912000908
  | 16 => 65086622567418587
  | 17 => 7990595090759962176
  | 18 => 627042695898267284
  | 19 => 6125386700356467221
  | _ => 0

/-- Row 13 of the source HASH_CODE table for occupant Player.white. -/
def hashRowW13 (c : Nat) : Nat :=
  match c with
  | 1 => 4759096882029768646
  | 2 => 8233932480584390371
  | 3 => 6251427400749291356
  | 4 => 1689834731999885385
  | 5 => 1726522497041541857
  | 6 => 8726409939392712790
  | 7 => 6010197514708794231
  | 8 => 7292689293357601532
  | 9 => 1009847422559103932
  | 10 => 5644170193541080142
  | 11 => 402509365431834653
  | 12 => 5307511360769591647
  | 13 => 4943565317851368354
  | 14 => 5781552052665213792
  | 15 => 1274889244461580649
  | 16 => 8472333163318175708
  | 17 => 4513080377490388901
  | 18 => 8659702572306915125
  | 19 => 7449402229013560656
  | _ => 0

/-- Row 14 of the source HASH_CODE table for occupant Player.white. -/
def hashRowW14 (c : Nat) : Nat :=
  match c with
  | 1 => 5777405478278921707
  | 2 => 4225406681215218852
  | 3 => 8649037890261688365
  | 4 => 3020437074238876203
  | 5 => 8157716472308239765
  | 6 => 3595760737797885503
  | 7 => 5982924053750156430
  | 8 => 589358262895497862
  | 9 => 4942665333157821234
  | 10 => 8894139698979471552
  | 11 => 4430875325437008132
  | 12 => 4982003464785248113
  | 13 => 5948555690484532858
  | 14 => 1655958229996472327
  | 15 => 9137252823921928857
  | 16 => 2919600128219603548
  | 17 => 3683865529495517349
  | 18 => 5724108146299245994
  | 19 => 2106229158156248332
  | _ => 0

/-- Row 15 of the source HASH_CODE table for occupant Player.white. -/
def hashRowW15 (c : Nat) : Nat :=
  match c with
  | 1 => 4304376583012719009
  | 2 => 3681073675191092315
  | 3 => 1307789817599072517
  | 4 => 2767303834909169069
  | 5 => 6000617549740611128
  | 6 => 7841992253484654488
  | 7 => 1593025057691383167
  | 8 => 7436388024531754317
  | 9 => 4222451007888114449
  | 10 => 2708925433670574812
  | 11 => 4774438318290499046
  | 12 => 4525792468928396876
  | 13 => 8296968868767209078
  | 14 => 2735412218078816203
  | 15 => 2575142184971188782
  | 16 => 871491622534020517
  | 17 => 7475105201999176790
  | 18 => 7870543091117240104
  | 19 => 6021279260637212889
  | _ => 0

/-- Row 16 of the source HASH_CODE table for occupant Player.white. -/
def hashRowW16 (c : Nat) : Nat :=
  match c with
  | 1 => 141815923476575382
  | 2 => 99914903149182931
  | 3 => 4877324281340396360
  | 4 => 2120530813701809613
  | 5 => 6716795891908952129
  | 6 => 5754571568307836913
  | 7 => 7606007004673553992
  | 8 => 3367545440607911013
  | 9 => 1431062183305205963
  | 10 => 8432838145730234481
  | 11 => 8952441312316475632
  | 12 => 3992252510507940498
  | 13 => 5294265204337034868
  | 14 => 2572398946643828712
  | 15 => 5087635102086817660
  | 16 => 7899644578742902204
  | 17 => 4012542965825901256
  | 18 => 1743586980736794016
  | 19 => 6114165880103072183
  | _ => 0

/-- Row 17 of the source HASH_CODE table for occupant Player.white. -/
def hashRowW17 (c : Nat) : Nat :=
  match c with
  | 1 => 1479509984884809730
  | 2 => 1096357954505791250
  | 3 => 7166715719772757904
  | 4 => 7500622874895058204
  | 5 => 3148744511271582542
  | 6 => 6181740879394888348
  | 7 => 6630742848769860547
  | 8 => 7539696692589538778
  | 9 => 1356966134381737991
  | 10 => 823236778883739009
  | 11 => 7891156526586667863
  | 12 => 7814498804558769025
  | 13 => 3098880685670063124
  | 14 => 4624313891953312417
  | 15 => 4556636261634728459
  | 16 => 3766529353827289747
  | 17 => 5146084843107956917
  | 18 => 979728246686254105
  | 19 => 5617537198351198193
  | _ => 0

/-- Row 18 of the source HASH_CODE table for occupant Player.white. -/
def hashRowW18 (c : Nat) : Nat :=
  match c with
  | 1 => 2307312766262434562
  | 2 => 4575724552813277813
  | 3 => 7118047060049340747
  | 4 => 5794584278517411516
  | 5 => 2429545316433048310
  | 6 => 6406334685921997221
  | 7 => 4577549140829242055
  | 8 => 8959053605228008149
  | 9 => 7067879093010925380
  | 10 => 898017337068290183
  | 11 => 8007624127553370205
  | 12 => 6304712403596414542
  | 13 => 6609680246615401929
  | 14 => 6741159888686121927
  | 15 => 9077127464663422150
  | 16 => 6879386338666367958
  | 17 => 4357043470635359147
  | 18 => 1366448322011038711
  | 19 => 8000730661503177215
  | _ => 0

/-- Row 19 of the source HASH_CODE table for occupant Player.white. -/
def hashRowW19 (c : Nat) : Nat :=
  match c with
  | 1 => 2933345924569920095
  | 2 => 4101094869868032024
  | 3 => 7309562979137683430
  | 4 => 1008847460848132416
  | 5 => 803042858960679504
  | 6 => 3586524001457867376
  | 7 => 6349683170997670037
  | 8 => 1973407973971264790
  | 9 => 6052634543723987111
  | 10 => 2219690733961592219
  | 11 => 3187824147999054400
  | 12 => 7798002030810868572
  | 13 => 2141579299272985618
  | 14 => 4296311445796021255
  | 15 => 338807852370812433
  | 16 => 2769952719111012473
  | 17 => 5491214004620863874
  | 18 => 8991707637069145211
  | 19 => 8026543586373257731
  | _ => 0

/-- Dispatch over rows of the source HASH_CODE table for occupant Player.white. -/
def hashCodeW (p : Point) : Nat :=
  match p.row with
  | 1 => hashRowW1 p.col
  | 2 => hashRowW2 p.col
  | 3 => hashRowW3 p.col
  | 4 => hashRowW4 p.col
  | 5 => hashRowW5 p.col
  | 6 => hashRowW6 p.col
  | 7 => hashRowW7 p.col
  | 8 => hashRowW8 p.col
  | 9 => hashRowW9 p.col
  | 10 => hashRowW10 p.col
  | 11 => hashRowW11 p.col
  | 12 => hashRowW12 p.col
  | 13 => hashRowW13 p.col
  | 14 => hashRowW14 p.col
  | 15 => hashRowW15 p.col
  | 16 => hashRowW16 p.col
  | 17 => hashRowW17 p.col
  | 18 => hashRowW18 p.col
  | 19 => hashRowW19 p.col
  | _ => 0
/-- Combined lookup of the source's `HASH_CODE` table, keyed by a point
and an occupant (`none` for an empty point). Keys outside the 19x19
table return 0; the engine never looks those up. -/
def HASH_CODE (p : Point) (occ : Option Player) : Nat :=
  match occ with
  | none => hashCodeN p
  | some .black => hashCodeB p
  | some .white => hashCodeW p

/-- The source's `EMPTY_BOARD` baseline hash constant. -/
def EMPTY_BOARD : Nat := 3127802437738363466

/-- All points of an `rows x cols` board in the row-major order the
scoring loop of the source visits them. -/
def all_points_list (rows cols : Nat) : List Point :=
  (List.range rows).flatMap (fun r => (List.range cols).map (fun c => ⟨r + 1, c + 1⟩))

/-- A string (connected group) of same-colored stones with its liberty
set, exactly the `GoString` class of the source. -/
structure GoString where
  color : Player
  stones : Finset Point
  liberties : Finset Point
deriving DecidableEq

/-- Number of liberties of a string (`num_liberties` property). -/
def GoString.num_liberties (s : GoString) : Nat := s.liberties.card

/-- Remove one point from the liberty set (`without_liberty`). -/
def GoString.without_liberty (s : GoString) (p : Point) : GoString :=
  ⟨s.color, s.stones, s.liberties.erase p⟩

/-- Add one point to the liberty set (`with_liberty`). -/
def GoString.with_liberty (s : GoString) (p : Point) : GoString :=
  ⟨s.color, s.stones, insert p s.liberties⟩

/-- Merge two same-colored strings (`merged_with`): union the stones,
union the liberties, and drop the combined stones from the liberties.
The source asserts the colors agree; the embedding keeps the first
color, which matches whenever that precondition holds. -/
def GoString.merged_with (s t : GoString) : GoString :=
  ⟨s.color, s.stones ∪ t.stones, (s.liberties ∪ t.liberties) \ (s.stones ∪ t.stones)⟩

/-- The Go board: fixed dimensions, the grid mapping each point to the
string occupying it, and the incrementally maintained Zobrist hash
(`Board` class). The per-dimension neighbor table of the source is a
pure function of the dimensions and is embedded as `neighbor_list`. -/
structure Board where
  num_rows : Nat
  num_cols : Nat
  grid : Point → Option GoString
  hash : Nat

/-- A freshly constructed board (`Board.__init__`): empty grid, hash
seeded with the empty-board constant. -/
def Board.empty (num_rows num_cols : Nat) : Board :=
  ⟨num_rows, num_cols, fun _ => none, EMPTY_BOARD⟩

/-- On-grid test (`is_on_grid`). -/
def Board.is_on_grid (b : Board) (p : Point) : Bool :=
  1 ≤ p.row && p.row ≤ b.num_rows && 1 ≤ p.col && p.col ≤ b.num_cols

/-- The cached neighbor table entry for a point: the orthogonal
neighbors clipped to the board (`init_neighbor_table`). -/
def Board.neighbor_list (b : Board) (p : Point) : List Point :=
  p.neighbors.filter b.is_on_grid

/-- Occupant color of a point, or `none` (`Board.get`). -/
def Board.get (b : Board) (p : Point) : Option Player :=
  (b.grid p).map GoString.color

/-- String occupying a point, or `none` (`Board.get_go_string`). -/
def Board.get_go_string (b : Board) (p : Point) : Option GoString :=
  b.grid p

/-- The Zobrist hash accessor (`zobrist_hash`). -/
def Board.zobrist_hash (b : Board) : Nat := b.hash

/-- Write a string value over every point of its stone set
(`_replace_string`). -/
def Board.replace_string (b : Board) (new_string : GoString) : Board :=
  { b with grid := fun pt => if pt ∈ new_string.stones then some new_string else b.grid pt }

/-- The neighbor loop of one `_remove_string` iteration: give the freed
point back as a liberty to every neighboring string other than the one
being removed. -/
def Board.restore_liberties (b : Board) (s : GoString) (pt : Point) : Board :=
  (b.neighbor_list pt).foldl (fun bc n =>
    match bc.grid n with
    | none => bc
    | some t => if t = s then bc else bc.replace_string (t.with_liberty pt)) b

/-- One iteration of the stone loop of `_remove_string`: restore the
liberties around the freed point, then clear the grid cell and update
the hash. -/
def Board.remove_stone_step (b : Board) (s : GoString) (pt : Point) : Board :=
  { b.restore_liberties s pt with
    grid := fun q => if q = pt then none else (b.restore_liberties s pt).grid q,
    hash := (b.restore_liberties s pt).hash
      ^^^ HASH_CODE pt (some s.color) ^^^ HASH_CODE pt none }

/-- Remove a captured string (`_remove_string`). The source iterates
over the frozenset of stones in unspecified order; the embedding
iterates in row-major board order, which visits exactly the stones of
the string since every stored stone lies on the grid. -/
def Board.remove_string (b : Board) (s : GoString) : Board :=
  ((all_points_list b.num_rows b.num_cols).filter (fun pt => decide (pt ∈ s.stones))).foldl
    (fun bc pt => bc.remove_stone_step s pt) b

/-- The neighbor-classification loop of `place_stone`, one predicate at
a time: collect the distinct neighbor strings satisfying `keep`, in
first-encounter order, deduplicating by value as the source's `not in`
does through `GoString.__eq__`. -/
def Board.collect_adjacent (b : Board) (point : Point) (keep : GoString → Bool) :
    List GoString :=
  (b.neighbor_list point).foldl (fun acc n =>
    match b.grid n with
    | none => acc
    | some s => if keep s then (if s ∈ acc then acc else acc ++ [s]) else acc) []

/-- The `adjacent_same_color` list of `place_stone`. -/
def Board.adjacent_same_color (b : Board) (player : Player) (point : Point) :
    List GoString :=
  b.collect_adjacent point (fun s => s.color == player)

/-- The `adjacent_opposite_color` list of `place_stone`. -/
def Board.adjacent_opposite_color (b : Board) (player : Player) (point : Point) :
    List GoString :=
  b.collect_adjacent point (fun s => s.color != player)

/-- The `liberties` list of `place_stone`: the empty neighbors of the
played point. -/
def Board.liberty_neighbors (b : Board) (point : Point) : List Point :=
  (b.neighbor_list point).filter (fun n => (b.grid n).isNone)

/-- The `new_string` of `place_stone`: the single new stone with its
empty-neighbor liberties, merged with every adjacent same-color string. -/
def Board.new_string (b : Board) (player : Player) (point : Point) : GoString :=
  (b.adjacent_same_color player point).foldl GoString.merged_with
    ⟨player, {point}, (b.liberty_neighbors point).toFinset⟩

/-- The middle section of `place_stone`: write the merged string over
all its stones and update the hash for the newly occupied point. -/
def Board.merge_board (b : Board) (player : Player) (point : Point) : Board :=
  { b with
    grid := fun q => if q ∈ (b.new_string player point).stones
      then some (b.new_string player point) else b.grid q,
    hash := b.hash ^^^ HASH_CODE point none ^^^ HASH_CODE point (some player) }

/-- Stone placement (`place_stone`): classify the neighbors of the
played point, build and write the merged string, update the hash, and
then shrink or remove each adjacent opposite-color string in
first-encounter order. The source asserts the point is on-grid and
empty before doing any of this; those asserts are modeled as the
preconditions of `ReachedBoard` and `GameState.apply_move_checked`. -/
def Board.place_stone (b : Board) (player : Player) (point : Point) : Board :=
  (b.adjacent_opposite_color player point).foldl (fun bc s =>
    if (s.without_liberty point).num_liberties ≠ 0 then
      bc.replace_string (s.without_liberty point)
    else
      bc.remove_string s) (b.merge_board player point)

/-- Self-capture test (`is_self_capture`): false as soon as some
neighbor is empty or some adjacent enemy string is in atari (would be
captured); otherwise true iff every adjacent friendly string has
exactly one liberty. The embedding folds the source's early-return
loop into the equivalent boolean combination. -/
def Board.is_self_capture (b : Board) (player : Player) (point : Point) : Bool :=
  let nbrs := b.neighbor_list point
  if nbrs.any (fun n => (b.grid n).isNone) then false
  else if nbrs.any (fun n =>
      match b.grid n with
      | some t => (t.color != player) && (t.num_liberties == 1)
      | none => false) then false
  else (nbrs.filterMap (fun n =>
      match b.grid n with
      | some t => if t.color = player then some t else none
      | none => none)).all (fun t => t.num_liberties == 1)

/-- Capture pre-test (`will_capture`): some adjacent enemy string has
exactly one liberty. -/
def Board.will_capture (b : Board) (player : Player) (point : Point) : Bool :=
  (b.neighbor_list point).any (fun n =>
    match b.grid n with
    | some t => (t.color != player) && (t.num_liberties == 1)
    | none => false)
/-- Move variant of the source: a play at a point, a pass, or a
resignation (`Move.play`, `Move.pass_turn`, `Move.resign`). -/
inductive Move where
  | play (point : Point)
  | pass_turn
  | resign
deriving DecidableEq

/-- Tag test `is_play`. -/
def Move.is_play : Move → Bool
  | .play _ => true
  | _ => false

/-- Tag test `is_pass`. -/
def Move.is_pass : Move → Bool
  | .pass_turn => true
  | _ => false

/-- Tag test `is_resign`. -/
def Move.is_resign : Move → Bool
  | .resign => true
  | _ => false

/-- Fuel-driven binary digit sum. The fuel only bounds the recursion
depth; `n` halves at every step, so fuel `n` is always enough. -/
def popcount_aux : Nat → Nat → Nat
  | 0, _ => 0
  | _ + 1, 0 => 0
  | fuel + 1, n + 1 => popcount_aux fuel ((n + 1) / 2) + (n + 1) % 2

/-- Number of 1 bits in the binary expansion of `n`, the
`bin(n).count(1)` of the source. -/
def popcount (n : Nat) : Nat := popcount_aux n n

/-- The Thue-Morse mover schedule (`get_tm_sequence`): entry `n` is the
parity of the binary digit sum of `n`. -/
def get_tm_sequence (length : Nat) : List Nat :=
  (List.range length).map (fun n => popcount n % 2)

/-- An immutable node of the game history (`GameState`):
the current board, the player to move, the optional parent state, the
accumulated set of prior (mover, board hash) situations, the move that
produced this state, and the optional Thue-Morse limit and turn index.
The source stores `previous_states` as a frozenset; the embedding uses
the list of inserted pairs, whose membership relation is the same.
`turn_count` is an attribute only assigned when the override condition
holds in `__init__`, embedded as an `Option`. -/
inductive GameState where
  | mk (board : Board) (next_player : Player) (previous_state : Option GameState)
       (previous_states : List (Player × Nat)) (last_move : Option Move)
       (ThueMorse : Option Nat) (turn_count : Option Nat)

/-- Current board of a state. -/
def GameState.board : GameState → Board
  | .mk b _ _ _ _ _ _ => b

/-- Player to move. -/
def GameState.next_player : GameState → Player
  | .mk _ np _ _ _ _ _ => np

/-- Parent state, if any. -/
def GameState.previous_state : GameState → Option GameState
  | .mk _ _ pr _ _ _ _ => pr

/-- Accumulated prior situations for superko detection. -/
def GameState.previous_states : GameState → List (Player × Nat)
  | .mk _ _ _ ps _ _ _ => ps

/-- The move that produced this state (`none` for a root). -/
def GameState.last_move : GameState → Option Move
  | .mk _ _ _ _ lm _ _ => lm

/-- The Thue-Morse turn-override limit, if the game has one. -/
def GameState.ThueMorse : GameState → Option Nat
  | .mk _ _ _ _ _ tm _ => tm

/-- The turn index, present exactly while the override is active. -/
def GameState.turn_count : GameState → Option Nat
  | .mk _ _ _ _ _ _ tc => tc

/-- The truthiness test `self.ThueMorse and self.ThueMorse > turn_count`
of `GameState.__init__`. A present limit with an absent turn count
would raise in the source and never occurs through the engine API; the
embedding treats it as inactive. -/
def tm_active : Option Nat → Option Nat → Bool
  | some L, some k => (L != 0) && (k < L)
  | _, _ => false

/-- The `GameState.__init__` constructor logic: accumulate the parent
situation into `previous_states`, and, while the Thue-Morse override is
active, replace the incoming next player by the one the parity
sequence forces and record the turn index. -/
def mk_game_state (board : Board) (next_player : Player) (previous : Option GameState)
    (move : Option Move) (ThueMorse : Option Nat) (turn_count : Option Nat) : GameState :=
  let prev_set : List (Player × Nat) :=
    match previous with
    | none => []
    | some pr => (pr.next_player, pr.board.hash) :: pr.previous_states
  if tm_active ThueMorse turn_count then
    let L := ThueMorse.getD 0
    let k := turn_count.getD 0
    let np := if (get_tm_sequence L).getD k 0 == 0 then Player.black else Player.white
    .mk board np previous prev_set move ThueMorse turn_count
  else
    .mk board next_player previous prev_set move ThueMorse none

/-- The total state transition of `apply_move`: place the stone for a
play (the board is copied, never shared), keep the board for a pass or
resignation, and hand the Thue-Morse bookkeeping to the child while the
turn index has not reached the limit. The source performs no legality
or terminality check here; `apply_move_checked` models the only ways
the source call can raise. -/
def GameState.apply_move (s : GameState) (move : Move) : GameState :=
  let next_board :=
    match move with
    | .play p => s.board.place_stone s.next_player p
    | _ => s.board
  match s.ThueMorse with
  | some L =>
    if L ≠ 0 then
      match s.turn_count with
      | some k =>
        if k + 1 ≠ L then
          mk_game_state next_board s.next_player.other (some s) (some move) (some L) (some (k + 1))
        else
          mk_game_state next_board s.next_player.other (some s) (some move) none none
      | none =>
        mk_game_state next_board s.next_player.other (some s) (some move) none none
    else mk_game_state next_board s.next_player.other (some s) (some move) none none
  | none => mk_game_state next_board s.next_player.other (some s) (some move) none none

/-- Error outcome of a raising `apply_move` call in the source: either
a `place_stone` assertion (off-grid or occupied point) or the missing
`turn_count` attribute. `IllegalMoveError` is defined in the source
but never raised. -/
inductive ApplyError where
  | assertion_failed
  | missing_turn_count
deriving DecidableEq

/-- True when `apply_move` would not touch a missing `turn_count`
attribute: either no Thue-Morse limit, a falsy one, or a present turn
index. -/
def GameState.tm_attrs_ok (s : GameState) : Bool :=
  match s.ThueMorse with
  | some L => (L == 0) || s.turn_count.isSome
  | none => true

/-- The observable behavior of calling `apply_move` in the source: it
raises only through `place_stone`'s asserts (a play at an off-grid or
occupied point) or through the missing `turn_count` attribute, and
otherwise returns the unchecked transition. In particular it performs
no `is_valid_move` or `is_over` check of its own. -/
def GameState.apply_move_checked (s : GameState) (move : Move) : Except ApplyError GameState :=
  match move with
  | .play p =>
    if !(s.board.is_on_grid p) || (s.board.grid p).isSome then .error .assertion_failed
    else if !s.tm_attrs_ok then .error .missing_turn_count
    else .ok (s.apply_move move)
  | _ =>
    if !s.tm_attrs_ok then .error .missing_turn_count
    else .ok (s.apply_move move)

/-- Root-state construction of `new_game` (the board part; the komi
global written by `new_game` is modeled separately by
`new_game_komi`). A truthy Thue-Morse limit starts the override at
turn index 0. -/
def GameState.new_game (board_size : Nat) (ThueMorse : Option Nat) : GameState :=
  let board := Board.empty board_size board_size
  match ThueMorse with
  | some L =>
    if L ≠ 0 then mk_game_state board Player.black none none (some L) (some 0)
    else mk_game_state board Player.black none none none none
  | none => mk_game_state board Player.black none none none none

/-- Self-capture test lifted to moves (`is_move_self_capture`). -/
def GameState.is_move_self_capture (s : GameState) (player : Player) (move : Move) : Bool :=
  match move with
  | .play p => s.board.is_self_capture player p
  | _ => false

/-- Positional superko test (`does_move_violate_ko`): only a play that
captures is simulated; the simulated next situation (opponent to move,
resulting board hash) is rejected when it already occurred. -/
def GameState.does_move_violate_ko (s : GameState) (player : Player) (move : Move) : Bool :=
  match move with
  | .play p =>
    if !(s.board.will_capture player p) then false
    else
      let next_board := s.board.place_stone player p
      decide ((player.other, next_board.hash) ∈ s.previous_states)
  | _ => false

/-- Terminality test (`is_over`): the last move resigns, or the last
two moves are both passes. A state with a present last move but no
parent cannot be produced by the engine API (the source would raise
there); the embedding returns false for it. -/
def GameState.is_over (s : GameState) : Bool :=
  match s.last_move with
  | none => false
  | some m =>
    if m.is_resign then true
    else
      match s.previous_state with
      | none => false
      | some pr =>
        match pr.last_move with
        | none => false
        | some m2 => m.is_pass && m2.is_pass

/-- Legality test (`is_valid_move`): nothing is legal after the game is
over; passes and resignations are always legal; a play must land on an
empty point, not be a self-capture, and not violate superko. -/
def GameState.is_valid_move (s : GameState) (move : Move) : Bool :=
  if s.is_over then false
  else
    match move with
    | .pass_turn => true
    | .resign => true
    | .play p =>
      (s.board.get p).isNone
        && !(s.is_move_self_capture s.next_player move)
        && !(s.does_move_violate_ko s.next_player move)
/-- Status value stored in the territory map of the source: the player
occupying a stone point, a territory marker, or dame. -/
inductive TerrStatus where
  | occupied (p : Player)
  | territory_b
  | territory_w
  | dame
deriving DecidableEq

/-- One neighbor block of `_collect_region`: if the neighbor is
on-grid and holds the region value, recurse and merge the returned
points, borders and visited set; if it is on-grid with a different
value, record that value as a border; off-grid neighbors are skipped. -/
def region_step (b : Board) (here : Option Player)
    (rec : Point → Finset Point → List Point × Finset (Option Player) × Finset Point)
    (n : Point) (a : List Point × Finset (Option Player) × Finset Point) :
    List Point × Finset (Option Player) × Finset Point :=
  if b.is_on_grid n then
    if b.get n = here then
      let r := rec n a.2.2
      (a.1 ++ r.1, a.2.1 ∪ r.2.1, r.2.2)
    else (a.1, insert (b.get n) a.2.1, a.2.2)
  else a

/-- Recursive region flood fill (`_collect_region`): starting from a
point, collect the maximal connected set of points whose `get` value
equals the start's, together with the set of differing neighbor values
seen along the border, threading the visited set exactly as the
source's shared `visited` dict, processing the four neighbor
candidates in the source's order. The fuel argument only bounds the
recursion depth: every recursive call happens on an unvisited on-grid
point after the current point was inserted, so any fuel at least the
number of unvisited on-grid points gives the untruncated result. The
source checks `visited` at entry and on-grid before recursing; the
embedding folds both into the entry guard, which is equivalent because
every call site passes an on-grid point. -/
def collect_region (b : Board) : Nat → Point → Finset Point →
    List Point × Finset (Option Player) × Finset Point
  | 0, _, visited => ([], ∅, visited)
  | fuel + 1, p, visited =>
    if !(b.is_on_grid p) || p ∈ visited then ([], ∅, visited)
    else
      let here := b.get p
      region_step b here (collect_region b fuel) ⟨p.row, p.col + 1⟩
        (region_step b here (collect_region b fuel) ⟨p.row, p.col - 1⟩
          (region_step b here (collect_region b fuel) ⟨p.row + 1, p.col⟩
            (region_step b here (collect_region b fuel) ⟨p.row - 1, p.col⟩
              ([p], ∅, insert p visited))))

/-- Classification of one collected empty region (`evaluate_territory`
body): a single bordering value makes territory for that color (the
source writes `territory_b` exactly for a black border and `territory_w`
otherwise), anything else is dame. -/
def territory_fill (borders : Finset (Option Player)) : TerrStatus :=
  if borders.card = 1 then
    if some Player.black ∈ borders then .territory_b else .territory_w
  else .dame

/-- The status map built by `evaluate_territory`: visit the points in
row-major order, skip points already classified, record stones, and
flood-fill each new empty region, classifying all its points at once.
The source stores the map in a dict keyed by points; the embedding
appends to an association list, and no key is ever appended twice. -/
def evaluate_territory_status (b : Board) : List (Point × TerrStatus) :=
  (all_points_list b.num_rows b.num_cols).foldl (fun status p =>
    if (status.lookup p).isSome then status
    else
      match b.get p with
      | some c => status ++ [(p, .occupied c)]
      | none =>
        let r := collect_region b (b.num_rows * b.num_cols) p ∅
        status ++ r.1.map (fun q => (q, territory_fill r.2.1))) []

/-- Aggregated territory counts (the `Territory` class). -/
structure Territory where
  num_black_territory : Nat
  num_white_territory : Nat
  num_black_stones : Nat
  num_white_stones : Nat
  num_dame : Nat
  dame_points : List Point
deriving DecidableEq

/-- Fold the status map into counts, as `Territory.__init__` does. -/
def Territory.of_status (l : List (Point × TerrStatus)) : Territory :=
  l.foldl (fun t e =>
    match e.2 with
    | .occupied .black => { t with num_black_stones := t.num_black_stones + 1 }
    | .occupied .white => { t with num_white_stones := t.num_white_stones + 1 }
    | .territory_b => { t with num_black_territory := t.num_black_territory + 1 }
    | .territory_w => { t with num_white_territory := t.num_white_territory + 1 }
    | .dame => { t with num_dame := t.num_dame + 1, dame_points := t.dame_points ++ [e.1] })
    ⟨0, 0, 0, 0, 0, []⟩

/-- Territory evaluation (`evaluate_territory`). -/
def evaluate_territory (b : Board) : Territory :=
  .of_status (evaluate_territory_status b)

/-- Final score record (`GameResult` namedtuple): black points, white
points, and the komi added to white. Scores are natural counts and the
komi a rational, which models the source's exact float values. -/
structure GameResult where
  b : Nat
  w : Nat
  komi : ℚ
deriving DecidableEq

/-- Winner string of a result (`GameResult.winner`). -/
def GameResult.winner (g : GameResult) : String :=
  if (g.b : ℚ) > (g.w : ℚ) + g.komi then "Black" else "White"

/-- Winning margin of a result (`GameResult.winning_margin`). -/
def GameResult.winning_margin (g : GameResult) : ℚ :=
  |(g.b : ℚ) - ((g.w : ℚ) + g.komi)|

/-- Area scoring of a state (`compute_game_result`): stones plus
territory for each side, with the supplied komi. -/
def compute_game_result (s : GameState) (komi : ℚ) : GameResult :=
  let t := evaluate_territory s.board
  ⟨t.num_black_territory + t.num_black_stones,
   t.num_white_territory + t.num_white_stones, komi⟩

/-- The two shapes `GameState.result` can return in the source: the
bare winning player after a resignation, or the
(winner, margin, komi) tuple of a scored game. -/
inductive ResultVal where
  | winner_by_resign (p : Player)
  | scored (winner : String) (margin : ℚ) (komi : ℚ)
deriving DecidableEq

/-- The komi argument accepted by `new_game`: the string default marker
or a number. The source's falsy values (`None`, `0`, `0.0`) all set the
global to 0, which coincides with `value 0`. -/
inductive KomiArg where
  | default_komi
  | value (q : ℚ)
deriving DecidableEq

/-- The komi value `new_game` writes into the process-global `KOMI`
variable: 0 for a falsy argument, a table keyed on the first board
dimension for the default marker, otherwise the argument itself. -/
def new_game_komi (board_rows : Nat) : KomiArg → ℚ
  | .value q => q
  | .default_komi =>
    if board_rows = 9 then 11 / 2
    else if board_rows = 13 then 13 / 2
    else 15 / 2

/-- The full effect of `new_game` on (state, global komi): it builds the
root state and unconditionally overwrites the process-global komi, so
the previous global value is discarded. -/
def new_game_global (board_size : Nat) (komi : KomiArg) (ThueMorse : Option Nat)
    (_old_komi : ℚ) : GameState × ℚ :=
  (GameState.new_game board_size ThueMorse, new_game_komi board_size komi)

/-- Result of a finished game (`GameState.result`): `none` while the
game is running (the source returns `None`), the next player after a
resignation, and otherwise the scored result computed with the
process-global komi, which is passed explicitly here. -/
def GameState.result (s : GameState) (komi_global : ℚ) : Option ResultVal :=
  if !s.is_over then none
  else
    match s.last_move with
    | some .resign => some (.winner_by_resign s.next_player)
    | _ =>
      let gr := compute_game_result s komi_global
      some (.scored gr.winner gr.winning_margin komi_global)
/-- Boards producible by a sequence of `place_stone` calls whose
preconditions (the source's asserts: on-grid, empty destination) hold. -/
inductive ReachedBoard (rows cols : Nat) : Board → Prop where
  | init : ReachedBoard rows cols (Board.empty rows cols)
  | step (b : Board) (player : Player) (p : Point) :
      ReachedBoard rows cols b → b.is_on_grid p = true → b.grid p = none →
      ReachedBoard rows cols (b.place_stone player p)

/-- Contribution of one grid cell to the configuration hash: the xor of
the empty code and the occupant code for an occupied point, 0 for an
empty point. -/
def cell_code (b : Board) (q : Point) : Nat :=
  match b.grid q with
  | none => 0
  | some s => HASH_CODE q none ^^^ HASH_CODE q (some s.color)

/-- Configuration hash of a board computed from scratch: xor of the
cell contributions over all points of the grid. -/
def config_hash (b : Board) : Nat :=
  (all_points_list b.num_rows b.num_cols).foldl (fun a q => a ^^^ cell_code b q) 0

/-- Contribution of one grid cell under the formula the specification
claims: only the occupant code of an occupied point. -/
def occupant_code (b : Board) (q : Point) : Nat :=
  match b.grid q with
  | none => 0
  | some s => HASH_CODE q (some s.color)

/-- The position hash as the specification's hash-invariant sentence
literally describes it: the empty-board constant xored with the
per-point-occupant codes of exactly the occupied points. -/
def claimed_position_hash (b : Board) : Nat :=
  EMPTY_BOARD ^^^
    (all_points_list b.num_rows b.num_cols).foldl (fun a q => a ^^^ occupant_code b q) 0

/-- The cell contribution to the configuration hash depends only on the
occupant color of the cell. -/
def get_code (q : Point) : Option Player → Nat
  | none => 0
  | some c => HASH_CODE q none ^^^ HASH_CODE q (some c)

/-- The master hash invariant: the stored incremental hash equals the
empty-board constant xored with the from-scratch configuration hash. -/
def hash_ok (b : Board) : Prop :=
  b.hash = EMPTY_BOARD ^^^ config_hash b

/-- Intermediate shape of the grid while `_remove_string` is clearing
the stones of `s`: relative to the board `b0` the removal started from,
the processed stones `P` are cleared, the unprocessed stones still hold
`s`, and every other occupied cell holds a consistent variant of its
original string with the same color and stones and at least the
original liberties. -/
def removal_inv (b0 : Board) (s : GoString) (P : Finset Point) (b : Board) : Prop :=
  b.num_rows = b0.num_rows ∧ b.num_cols = b0.num_cols ∧
  (∀ q ∈ P, q ∈ s.stones) ∧
  (∀ q ∈ P, b.grid q = none) ∧
  (∀ q ∈ s.stones, q ∉ P → b.grid q = some s) ∧
  (∀ q t', q ∉ s.stones → b.grid q = some t' →
     ∃ t0, b0.grid q = some t0 ∧ t'.color = t0.color ∧ t'.stones = t0.stones ∧
       t0.liberties ⊆ t'.liberties ∧ q ∈ t'.stones ∧
       (∀ r ∈ t'.stones, r ∉ s.stones) ∧ (∀ r ∈ t'.stones, b.grid r = some t')) ∧
  (∀ q, q ∉ s.stones → b0.grid q = none → b.grid q = none) ∧
  (∀ q, q ∉ s.stones → (b0.grid q).isSome = true → (b.grid q).isSome = true) ∧
  (∀ q t0, q ∉ s.stones → b0.grid q = some t0 →
     (∀ x ∈ t0.stones, ∀ m ∈ b0.neighbor_list x, m ∉ s.stones) → b.grid q = some t0)

/-- Separation of one string from its same-colored surroundings: every
same-colored string adjacent to one of its stones is the string itself. -/
def string_sep (b : Board) (s : GoString) : Prop :=
  ∀ x ∈ s.stones, ∀ n ∈ b.neighbor_list x, ∀ t, b.grid n = some t →
    t.color = s.color → t = s

/-- Grid consistency invariant of the data model: every stored string
sits on-grid, contains its own cell, and occupies exactly the cells of
its stone set. -/
def Board.grid_wf (b : Board) : Prop :=
  ∀ q s, b.grid q = some s →
    b.is_on_grid q = true ∧ q ∈ s.stones ∧ ∀ r ∈ s.stones, b.grid r = some s

/-- Separation invariant of the data model: two same-colored strings
are never adjacent without having been merged, i.e. any same-colored
string found next to a stone of a stored string is that string itself. -/
def Board.sep_wf (b : Board) : Prop :=
  ∀ q s, b.grid q = some s →
    ∀ x ∈ s.stones, ∀ n ∈ b.neighbor_list x, ∀ t, b.grid n = some t →
      t.color = s.color → t = s

/-- Liberty exactness invariant of the data model: the liberty set of a
stored string is exactly the set of on-grid empty points adjacent to
one of its stones. -/
def Board.lib_wf (b : Board) : Prop :=
  ∀ q s, b.grid q = some s →
    ∀ n : Point, n ∈ s.liberties ↔
      (b.is_on_grid n = true ∧ b.grid n = none ∧ ∃ x ∈ s.stones, n ∈ x.neighbors)

/-- Semantic "the play captures nothing": no occupied cell of the board
becomes empty when the stone is placed. -/
def captures_nothing (b : Board) (player : Player) (p : Point) : Prop :=
  ∀ q, (b.grid q).isSome = true → ((b.place_stone player p).grid q).isSome = true

/-- Semantic "the play leaves the placing (merged) group without
liberties": after the placement the string occupying the played point
has an empty liberty set. -/
def leaves_no_liberty (b : Board) (player : Player) (p : Point) : Prop :=
  ∃ s, (b.place_stone player p).grid p = some s ∧ s.liberties = ∅

/-- Adjacency step inside one flood-fill region: two on-grid points,
orthogonal neighbors, both holding the region's `get` value. -/
def region_adj (b : Board) (here : Option Player) (x y : Point) : Prop :=
  b.is_on_grid x = true ∧ b.is_on_grid y = true ∧ y ∈ x.neighbors ∧
    b.get x = here ∧ b.get y = here

/-- Reachability through a region while avoiding a visited set. -/
def region_reach_avoid (b : Board) (here : Option Player) (visited : Finset Point)
    (x y : Point) : Prop :=
  Relation.ReflTransGen (fun u v => region_adj b here u v ∧ u ∉ visited ∧ v ∉ visited) x y

/-- Connectivity of empty points (the maximal empty regions of the
specification are the classes of this relation). -/
def empty_conn (b : Board) (x y : Point) : Prop :=
  region_reach_avoid b none ∅ x y

/-- The set of stone colors bordering the empty region of a point. -/
def region_border_colors (b : Board) (p : Point) : Set Player :=
  { c | ∃ q, empty_conn b p q ∧ ∃ n ∈ q.neighbors, b.is_on_grid n = true ∧ b.get n = some c }

/-- Status assigned to a point by the territory evaluation. -/
def status_of (b : Board) (p : Point) : Option TerrStatus :=
  (evaluate_territory_status b).lookup p

/-- The on-grid points of a board as a finite set. -/
def grid_points (b : Board) : Finset Point :=
  (all_points_list b.num_rows b.num_cols).toFinset

/-- Iterated `apply_move` along a move list (the turn sequence of one
game). -/
def trace_state (s0 : GameState) (ms : List Move) : GameState :=
  ms.foldl GameState.apply_move s0

/-- A nine-move 3x3 game exercising the superko gap: black gives up two
stones, recaptures one, and then refills the second point without
capturing, recreating the situation that stood before white's capture. -/
def cycGame0 : GameState := GameState.new_game 3 none

/-- Position after black 1-2. -/
def cycGame1 : GameState := cycGame0.apply_move (.play ⟨1, 2⟩)

/-- Position after white 2-2. -/
def cycGame2 : GameState := cycGame1.apply_move (.play ⟨2, 2⟩)

/-- Position after black 2-1. -/
def cycGame3 : GameState := cycGame2.apply_move (.play ⟨2, 1⟩)

/-- Position after white 2-3. -/
def cycGame4 : GameState := cycGame3.apply_move (.play ⟨2, 3⟩)

/-- Position after black 1-3: the situation white's next capture is
taken from. -/
def cycGame5 : GameState := cycGame4.apply_move (.play ⟨1, 3⟩)

/-- Position after white 1-1, capturing the two black stones 1-2, 1-3. -/
def cycGame6 : GameState := cycGame5.apply_move (.play ⟨1, 1⟩)

/-- Position after black 1-2, recapturing the white stone 1-1. -/
def cycGame7 : GameState := cycGame6.apply_move (.play ⟨1, 2⟩)

/-- Position after white passes. -/
def cycGame8 : GameState := cycGame7.apply_move .pass_turn

/-- The repetition-completing, non-capturing black play at 1-3. -/
def cycMove : Move := .play ⟨1, 3⟩

/-- A 3x3 game reaching a plain single-stone ko: black 1-1 is captured
by white 2-1 and black's immediate recapture at 1-1 would repeat. -/
def koGame0 : GameState := GameState.new_game 3 none

/-- Position after black 1-1. -/
def koGame1 : GameState := koGame0.apply_move (.play ⟨1, 1⟩)

/-- Position after white 1-2. -/
def koGame2 : GameState := koGame1.apply_move (.play ⟨1, 2⟩)

/-- Position after black 2-2. -/
def koGame3 : GameState := koGame2.apply_move (.play ⟨2, 2⟩)

/-- Position after white passes. -/
def koGame4 : GameState := koGame3.apply_move .pass_turn

/-- Position after black 3-1: the ko shape is complete, white to move. -/
def koGame5 : GameState := koGame4.apply_move (.play ⟨3, 1⟩)

/-- Position after white 2-1, capturing black 1-1: black's recapture at
1-1 would recreate the previous situation. -/
def koGame6 : GameState := koGame5.apply_move (.play ⟨2, 1⟩)

/-- A terminal state by immediate resignation on a fresh 9x9 game. -/
def resignState : GameState := (GameState.new_game 9 none).apply_move .resign

/-- A Thue-Morse game with limit 4 in which white, the forced mover of
turn 1, resigns. -/
def tmResign0 : GameState := GameState.new_game 5 (some 4)

/-- Position after black (the forced mover of turn 0) passes. -/
def tmResign1 : GameState := tmResign0.apply_move .pass_turn

/-- Position after white resigns; the forced mover of turn 2 is white
again, so the resigner is also the player to move next. -/
def tmResign2 : GameState := tmResign1.apply_move .resign

/-- A 2x2 game ended by two consecutive passes, for scoring claims. -/
def doublePass0 : GameState := GameState.new_game 2 none

/-- Position after black passes. -/
def doublePass1 : GameState := doublePass0.apply_move .pass_turn

/-- Position after white also passes: the game is over. -/
def doublePass2 : GameState := doublePass1.apply_move .pass_turn

/-- Two placement orders for the same two-stone 2x2 configuration, for
the hash order-independence claim. -/
def orderBoardA : Board :=
  ((Board.empty 2 2).place_stone .black ⟨1, 1⟩).place_stone .white ⟨2, 2⟩

/-- The same two stones placed in the opposite order. -/
def orderBoardB : Board :=
  ((Board.empty 2 2).place_stone .white ⟨2, 2⟩).place_stone .black ⟨1, 1⟩

/-- One black stone on an empty 9x9 board, the counterexample input for
the claimed occupant-code-only hash formula. -/
def oneStoneBoard : Board := (Board.empty 9 9).place_stone .black ⟨1, 1⟩

/-- Five passes, a concrete move list for the Thue-Morse schedule
witness. -/
def tmMoves : List Move := List.replicate 5 .pass_turn

/-- The capture phase of `place_stone` as a standalone fold over the
adjacent opposite-color strings, for the invariant proofs. -/
def capture_fold (point : Point) (l : List GoString) (bc : Board) : Board :=
  l.foldl (fun bc s =>
    if (s.without_liberty point).num_liberties ≠ 0 then
      bc.replace_string (s.without_liberty point)
    else
      bc.remove_string s) bc

/-- Specification of one `collect_region` call that passes the entry
guard: the returned visited set is the entry set plus the collected
points, the start is collected, every collected point is reachable from
the start through the region avoiding the entry visited set, the
collected set is closed under same-valued on-grid neighbors up to the
returned visited set, and the returned borders are exactly the
differing values of on-grid neighbors of collected points. -/
def collect_region_ok (b : Board) (p : Point) (V : Finset Point)
    (r : List Point × Finset (Option Player) × Finset Point) : Prop :=
  r.2.2 = V ∪ r.1.toFinset ∧
  p ∈ r.1 ∧
  (∀ q ∈ r.1, region_reach_avoid b (b.get p) V p q) ∧
  (∀ x ∈ r.1, ∀ m ∈ x.neighbors, b.is_on_grid m = true → b.get m = b.get p →
    m ∈ r.2.2) ∧
  (∀ v ∈ r.2.1, ∃ x ∈ r.1, ∃ m ∈ x.neighbors, b.is_on_grid m = true ∧
    b.get m = v ∧ v ≠ b.get p) ∧
  (∀ x ∈ r.1, ∀ m ∈ x.neighbors, b.is_on_grid m = true → b.get m ≠ b.get p →
    b.get m ∈ r.2.1)
theorem mk_game_state_board (board : Board) (np : Player) (prev : Option GameState)
    (move : Option Move) (tm tc : Option Nat) :
    (mk_game_state board np prev move tm tc).board = board := by
  unfold mk_game_state
  by_cases h : tm_active tm tc = true <;> simp [h, GameState.board]

theorem mk_game_state_last_move (board : Board) (np : Player) (prev : Option GameState)
    (move : Option Move) (tm tc : Option Nat) :
    (mk_game_state board np prev move tm tc).last_move = move := by
  unfold mk_game_state
  by_cases h : tm_active tm tc = true <;> simp [h, GameState.last_move]

theorem mk_game_state_previous_state (board : Board) (np : Player) (prev : Option GameState)
    (move : Option Move) (tm tc : Option Nat) :
    (mk_game_state board np prev move tm tc).previous_state = prev := by
  unfold mk_game_state
  by_cases h : tm_active tm tc = true <;> simp [h, GameState.previous_state]

theorem mk_game_state_ThueMorse (board : Board) (np : Player) (prev : Option GameState)
    (move : Option Move) (tm tc : Option Nat) :
    (mk_game_state board np prev move tm tc).ThueMorse = tm := by
  unfold mk_game_state
  by_cases h : tm_active tm tc = true <;> simp [h, GameState.ThueMorse]

theorem mk_game_state_turn_count (board : Board) (np : Player) (prev : Option GameState)
    (move : Option Move) (tm tc : Option Nat) :
    (mk_game_state board np prev move tm tc).turn_count =
      (if tm_active tm tc then tc else none) := by
  unfold mk_game_state
  by_cases h : tm_active tm tc = true <;> simp [h, GameState.turn_count]

theorem mk_game_state_next_player (board : Board) (np : Player) (prev : Option GameState)
    (move : Option Move) (tm tc : Option Nat) :
    (mk_game_state board np prev move tm tc).next_player =
      (if tm_active tm tc then
        (if (get_tm_sequence (tm.getD 0)).getD (tc.getD 0) 0 == 0
         then Player.black else Player.white)
       else np) := by
  unfold mk_game_state
  by_cases h : tm_active tm tc = true <;> simp [h, GameState.next_player]

theorem mk_game_state_previous_states (board : Board) (np : Player) (prev : Option GameState)
    (move : Option Move) (tm tc : Option Nat) :
    (mk_game_state board np prev move tm tc).previous_states =
      (match prev with
       | none => []
       | some pr => (pr.next_player, pr.board.hash) :: pr.previous_states) := by
  unfold mk_game_state
  cases prev <;> by_cases h : tm_active tm tc = true <;> simp [h, GameState.previous_states]

theorem apply_move_last_move (s : GameState) (m : Move) :
    (s.apply_move m).last_move = some m := by
  unfold GameState.apply_move
  split <;> (try split) <;> (try split) <;> (try split) <;> (try split) <;>
    simp [mk_game_state_last_move]

theorem apply_move_previous_state (s : GameState) (m : Move) :
    (s.apply_move m).previous_state = some s := by
  unfold GameState.apply_move
  split <;> (try split) <;> (try split) <;> (try split) <;> (try split) <;>
    simp [mk_game_state_previous_state]

theorem apply_move_previous_states (s : GameState) (m : Move) :
    (s.apply_move m).previous_states =
      (s.next_player, s.board.hash) :: s.previous_states := by
  unfold GameState.apply_move
  split <;> (try split) <;> (try split) <;> (try split) <;> (try split) <;>
    simp [mk_game_state_previous_states]

theorem apply_move_board_play (s : GameState) (p : Point) :
    (s.apply_move (.play p)).board = s.board.place_stone s.next_player p := by
  unfold GameState.apply_move
  split <;> (try split) <;> (try split) <;> (try split) <;> (try split) <;>
    simp_all [mk_game_state_board]

/-- C1: on a terminal state every move is invalid; on a running state a
pass and a resignation are always valid, and a play at an on-grid
point is valid exactly when the point is empty, the play is not a
self-capture for the player to move, and it does not violate the
engine's positional-superko test. (The on-grid hypothesis reflects
that the source indexes its neighbor table and would raise on an
off-grid play.) -/
theorem c1_is_valid_move_characterization (s : GameState) (p : Point)
    (hp : s.board.is_on_grid p = true) :
    (s.is_over = true → ∀ m : Move, s.is_valid_move m = false) ∧
    (s.is_over = false →
      s.is_valid_move .pass_turn = true ∧ s.is_valid_move .resign = true ∧
      (s.is_valid_move (.play p) = true ↔
        (s.board.get p = none ∧
         s.is_move_self_capture s.next_player (.play p) = false ∧
         s.does_move_violate_ko s.next_player (.play p) = false))) := by
  constructor
  · intro h m
    simp [GameState.is_valid_move, h]
  · intro h
    refine ⟨by simp [GameState.is_valid_move, h], by simp [GameState.is_valid_move, h], ?_⟩
    simp [GameState.is_valid_move, h, Bool.and_eq_true, Bool.not_eq_true',
      Option.isNone_iff_eq_none, and_assoc]

/-- C1 witness: the characterization instantiated on the fresh 3x3 game
and the point 1-1. -/
theorem c1_witness :
    (cycGame0.is_over = true → ∀ m : Move, cycGame0.is_valid_move m = false) ∧
    (cycGame0.is_over = false →
      cycGame0.is_valid_move .pass_turn = true ∧ cycGame0.is_valid_move .resign = true ∧
      (cycGame0.is_valid_move (.play ⟨1, 1⟩) = true ↔
        (cycGame0.board.get ⟨1, 1⟩ = none ∧
         cycGame0.is_move_self_capture cycGame0.next_player (.play ⟨1, 1⟩) = false ∧
         cycGame0.does_move_violate_ko cycGame0.next_player (.play ⟨1, 1⟩) = false))) :=
  c1_is_valid_move_characterization cycGame0 ⟨1, 1⟩ (by decide)

/-- C9: a state (with the parent pointer every engine-built non-root
state has) is terminal exactly when its last move is a resignation or
its last two moves are both passes; in particular a lone first pass,
or a pass preceded by a play, does not end the game. -/
theorem c9_is_over_iff (s : GameState)
    (h : s.last_move.isSome = true → s.previous_state.isSome = true) :
    s.is_over = true ↔
      (s.last_move = some Move.resign ∨
       (s.last_move = some Move.pass_turn ∧
        ∃ pr, s.previous_state = some pr ∧ pr.last_move = some Move.pass_turn)) := by
  rcases hlm : s.last_move with _ | m
  · simp [GameState.is_over, hlm]
  · rcases hpr : s.previous_state with _ | pr
    · have hps := h (by simp [hlm])
      simp [hpr] at hps
    · rcases hm2 : pr.last_move with _ | m2
      · cases m <;>
          simp [GameState.is_over, hlm, hpr, hm2, Move.is_resign, Move.is_pass]
      · cases m <;> cases m2 <;>
          simp [GameState.is_over, hlm, hpr, hm2, Move.is_resign, Move.is_pass]

/-- C9 witness: the characterization instantiated on the
one-pass state, whose game is accordingly not over. -/
theorem c9_witness :
    (doublePass1.is_over = true ↔
      (doublePass1.last_move = some Move.resign ∨
       (doublePass1.last_move = some Move.pass_turn ∧
        ∃ pr, doublePass1.previous_state = some pr ∧
          pr.last_move = some Move.pass_turn))) ∧
    doublePass1.is_over = false :=
  ⟨c9_is_over_iff doublePass1 (by decide), by decide⟩
/-- C3 counterexample: the state reached by an immediate resignation is
terminal and rejects a pass in `is_valid_move`, yet `apply_move`
succeeds on it without any error — the source performs no terminal or
legality check, so the claimed `IllegalStateError` / `InvalidMoveError`
failures do not exist. -/
theorem c3_counterexample :
    resignState.is_over = true ∧
    resignState.is_valid_move .pass_turn = false ∧
    resignState.apply_move_checked .pass_turn =
      .ok (resignState.apply_move .pass_turn) := by
  exact ⟨by decide, by decide, rfl⟩

/-- C3 amended: `apply_move` applies every move unconditionally; the
only failing calls are the ones on which `place_stone`'s asserts fire
(a play at an off-grid or occupied point) or the missing `turn_count`
attribute would be read. In particular every pass, resignation, or
play at an empty on-grid point is applied silently, regardless of
`is_over` and `is_valid_move`; `IllegalMoveError` is never raised. -/
theorem c3_amended (s : GameState) (m : Move)
    (hattr : s.tm_attrs_ok = true)
    (hplay : ∀ p, m = .play p → s.board.is_on_grid p = true ∧ s.board.grid p = none) :
    s.apply_move_checked m = .ok (s.apply_move m) := by
  cases m with
  | play p =>
    obtain ⟨h1, h2⟩ := hplay p rfl
    simp [GameState.apply_move_checked, h1, h2, hattr]
  | pass_turn => simp [GameState.apply_move_checked, hattr]
  | resign => simp [GameState.apply_move_checked, hattr]

/-- C3 witness: the amended statement instantiated on the terminal
resignation state and a pass: the invalid move is applied without an
error. -/
theorem c3_witness :
    resignState.apply_move_checked .resign =
      .ok (resignState.apply_move .resign) :=
  c3_amended resignState .resign (by decide) (by intro p hp; cases hp)

/-- C7 counterexample: in the Thue-Morse game with limit 4 in which
white (the forced mover of turn 1) resigns, the forced mover of turn 2
is white again, so `result` reports the resigner — not the resigner's
opponent — as the winner. -/
theorem c7_counterexample :
    tmResign1.next_player = Player.white ∧
    tmResign2.result 0 = some (.winner_by_resign Player.white) ∧
    tmResign2.result 0 ≠ some (.winner_by_resign tmResign1.next_player.other) := by
  refine ⟨by decide, by decide, ?_⟩
  decide

/-- C7 amended: a state produced by a resignation is terminal and its
`result` returns the player to move next as the winner; when the game
has no Thue-Morse override, that player is the opponent of the
resigner, but an active override chooses the forced mover instead,
which can be the resigner. -/
theorem c7_amended (parent : GameState) (komi : ℚ) :
    (parent.apply_move .resign).result komi =
      some (.winner_by_resign (parent.apply_move .resign).next_player) ∧
    (parent.ThueMorse = none →
      (parent.apply_move .resign).next_player = parent.next_player.other) := by
  constructor
  · have hlm := apply_move_last_move parent .resign
    have hover : (parent.apply_move .resign).is_over = true := by
      unfold GameState.is_over
      rw [hlm]
      simp [Move.is_resign]
    unfold GameState.result
    rw [hover, hlm]
    rfl
  · intro htm
    unfold GameState.apply_move
    rw [htm]
    simp [mk_game_state_next_player, tm_active]

/-- C7 witness: the amended statement instantiated on the plain 2x2
game: after black resigns at once the winner is white, black's
opponent. -/
theorem c7_witness :
    (doublePass0.apply_move .resign).result 0 =
      some (.winner_by_resign (doublePass0.apply_move .resign).next_player) ∧
    (doublePass0.ThueMorse = none →
      (doublePass0.apply_move .resign).next_player =
        doublePass0.next_player.other) :=
  c7_amended doublePass0 0

/-- C10: on a terminal non-resignation state, `result` scores with
whatever komi the most recent `new_game` call wrote into the process
global, regardless of the komi the state's own game was created with:
the reported winner, margin and komi all come from the second game's
argument, and the global written by `new_game` does not depend on the
previously stored global. -/
theorem c10_komi_global (s : GameState) (hterm : s.is_over = true)
    (hres : s.last_move ≠ some Move.resign)
    (bs : Nat) (k : ℚ) (tm : Option Nat) (g g' : ℚ) :
    s.result (new_game_global bs (.value k) tm g).2 =
      some (.scored (compute_game_result s k).winner
        (compute_game_result s k).winning_margin k) ∧
    (new_game_global bs (.value k) tm g).2 = (new_game_global bs (.value k) tm g').2 := by
  constructor
  · have hk : (new_game_global bs (.value k) tm g).2 = k := rfl
    rw [hk]
    unfold GameState.result
    rw [hterm]
    rcases hlm : s.last_move with _ | m
    · rfl
    · cases m with
      | play q => rfl
      | pass_turn => rfl
      | resign => exact absurd hlm hres
  · rfl

/-- C10 witness: the double-pass 2x2 game was created with the default
komi, yet after a later `new_game` writes komi 100 its result is
scored with 100. -/
theorem c10_witness :
    doublePass2.result (new_game_global 9 (.value 100) none (11 / 2)).2 =
      some (.scored (compute_game_result doublePass2 100).winner
        (compute_game_result doublePass2 100).winning_margin 100) ∧
    (new_game_global 9 (.value 100) none (11 / 2)).2 =
      (new_game_global 9 (.value 100) none 0).2 :=
  c10_komi_global doublePass2 (by decide) (by decide) 9 100 none (11 / 2) 0

/-- C2 counterexample: a nine-move legal 3x3 game in which the final
black play at 1-3 does not capture, so the superko simulation is
skipped, and `is_valid_move` accepts it even though the situation it
creates (white to move, the board black just rebuilt) is already in the
state's accumulated history. -/
theorem c2_counterexample :
    cycGame0.is_valid_move (.play ⟨1, 2⟩) = true ∧
    cycGame1.is_valid_move (.play ⟨2, 2⟩) = true ∧
    cycGame2.is_valid_move (.play ⟨2, 1⟩) = true ∧
    cycGame3.is_valid_move (.play ⟨2, 3⟩) = true ∧
    cycGame4.is_valid_move (.play ⟨1, 3⟩) = true ∧
    cycGame5.is_valid_move (.play ⟨1, 1⟩) = true ∧
    cycGame6.is_valid_move (.play ⟨1, 2⟩) = true ∧
    cycGame7.is_valid_move .pass_turn = true ∧
    cycGame8.board.will_capture cycGame8.next_player ⟨1, 3⟩ = false ∧
    (cycGame8.next_player.other,
      (cycGame8.board.place_stone cycGame8.next_player ⟨1, 3⟩).hash)
      ∈ cycGame8.previous_states ∧
    cycGame8.is_valid_move cycMove = true := by
  refine ⟨?_, ?_, ?_, ?_, ?_, ?_, ?_, ?_, ?_, ?_, ?_⟩ <;> decide

/-- C2 amended: the superko rejection does hold for capturing plays:
whenever the play would capture (so the pre-filter lets the simulation
run) and the simulated situation is already recorded, `is_valid_move`
returns false. A non-capturing play can recreate a recorded situation
and still be accepted, as the counterexample shows. -/
theorem c2_amended (s : GameState) (p : Point)
    (hcap : s.board.will_capture s.next_player p = true)
    (hmem : (s.next_player.other, (s.board.place_stone s.next_player p).hash)
      ∈ s.previous_states) :
    s.is_valid_move (.play p) = false := by
  have hko : s.does_move_violate_ko s.next_player (.play p) = true := by
    unfold GameState.does_move_violate_ko
    simp [hcap, hmem]
  unfold GameState.is_valid_move
  split
  · rfl
  · simp [hko]

/-- C2 amended witness: in the plain single-stone ko position, black's
immediate recapture at 1-1 captures, recreates the prior situation,
and is rejected. -/
theorem c2_amended_witness :
    koGame6.is_valid_move (.play ⟨1, 1⟩) = false :=
  c2_amended koGame6 ⟨1, 1⟩ (by decide) (by decide)
theorem tm_sequence_getD (L k : Nat) (h : k < L) :
    (get_tm_sequence L)[k]?.getD 0 = popcount k % 2 := by
  unfold get_tm_sequence
  simp [List.getElem?_map, List.getElem?_range, h]

theorem tm_active_some (L k : Nat) (hL : L ≠ 0) (hk : k < L) :
    tm_active (some L) (some k) = true := by
  simp [tm_active, hL, hk]

theorem apply_move_tm_step (s : GameState) (m : Move) (L k : Nat)
    (htm : s.ThueMorse = some L) (hL0 : L ≠ 0) (htc : s.turn_count = some k)
    (hk : k + 1 < L) :
    (s.apply_move m).ThueMorse = some L ∧
    (s.apply_move m).turn_count = some (k + 1) ∧
    (s.apply_move m).next_player =
      (if popcount (k + 1) % 2 = 0 then Player.black else Player.white) := by
  unfold GameState.apply_move
  rw [htm, htc]
  simp only [hL0, Nat.ne_of_lt hk, if_neg, if_pos, ne_eq, not_false_eq_true,
    ite_true, ite_false]
  refine ⟨mk_game_state_ThueMorse .., ?_, ?_⟩
  · rw [mk_game_state_turn_count, if_pos (tm_active_some L (k + 1) hL0 hk)]
  · rw [mk_game_state_next_player, if_pos (tm_active_some L (k + 1) hL0 hk)]
    simp [tm_sequence_getD L (k + 1) hk]

theorem apply_move_tm_last (s : GameState) (m : Move) (L k : Nat)
    (htm : s.ThueMorse = some L) (hL0 : L ≠ 0) (htc : s.turn_count = some k)
    (hk : k + 1 = L) :
    (s.apply_move m).ThueMorse = none ∧
    (s.apply_move m).next_player = s.next_player.other := by
  unfold GameState.apply_move
  rw [htm, htc]
  simp only [hL0, hk, ne_eq, not_false_eq_true, ite_true, not_true_eq_false,
    ite_false]
  constructor
  · exact mk_game_state_ThueMorse ..
  · rw [mk_game_state_next_player, if_neg]
    simp [tm_active]

theorem apply_move_tm_none (s : GameState) (m : Move)
    (htm : s.ThueMorse = none) :
    (s.apply_move m).ThueMorse = none ∧
    (s.apply_move m).next_player = s.next_player.other := by
  unfold GameState.apply_move
  rw [htm]
  constructor
  · exact mk_game_state_ThueMorse ..
  · rw [mk_game_state_next_player, if_neg]
    simp [tm_active]

theorem trace_state_take_succ (s0 : GameState) (ms : List Move) (n : Nat)
    (h : n < ms.length) :
    trace_state s0 (ms.take (n + 1)) =
      (trace_state s0 (ms.take n)).apply_move (ms.get ⟨n, h⟩) := by
  unfold trace_state
  rw [List.take_succ]
  rw [List.getElem?_eq_getElem h]
  rw [Option.toList_some]
  rw [List.foldl_append]
  rw [List.foldl_cons, List.foldl_nil]
  rfl

theorem trace_tm_invariant (bs L : Nat) (hL : 1 ≤ L) (ms : List Move) :
    ∀ n, n ≤ ms.length →
      ((n < L →
          (trace_state (GameState.new_game bs (some L)) (ms.take n)).ThueMorse = some L ∧
          (trace_state (GameState.new_game bs (some L)) (ms.take n)).turn_count = some n ∧
          (trace_state (GameState.new_game bs (some L)) (ms.take n)).next_player =
            (if popcount n % 2 = 0 then Player.black else Player.white)) ∧
       (L ≤ n →
          (trace_state (GameState.new_game bs (some L)) (ms.take n)).ThueMorse = none)) := by
  have hL0 : L ≠ 0 := Nat.one_le_iff_ne_zero.mp hL
  have hng : GameState.new_game bs (some L) =
      mk_game_state (Board.empty bs bs) Player.black none none (some L) (some 0) := by
    unfold GameState.new_game
    simp [hL0]
  intro n
  induction n with
  | zero =>
    intro _
    constructor
    · intro h0
      unfold trace_state
      simp only [List.take_zero, List.foldl_nil, hng]
      refine ⟨mk_game_state_ThueMorse .., ?_, ?_⟩
      · rw [mk_game_state_turn_count, if_pos (tm_active_some L 0 hL0 h0)]
      · rw [mk_game_state_next_player, if_pos (tm_active_some L 0 hL0 h0)]
        simp [tm_sequence_getD L 0 h0, popcount, popcount_aux]
    · intro h0
      omega
  | succ n ih =>
    intro hlen
    have hlen' : n ≤ ms.length := Nat.le_of_succ_le hlen
    have hstep := trace_state_take_succ (GameState.new_game bs (some L)) ms n
      (Nat.lt_of_succ_le hlen)
    by_cases hnL : n < L
    · obtain ⟨htm, htc, _⟩ := (ih hlen').1 hnL
      by_cases hsucc : n + 1 < L
      · obtain ⟨h1, h2, h3⟩ := apply_move_tm_step _
          (ms.get ⟨n, Nat.lt_of_succ_le hlen⟩) L n htm hL0 htc hsucc
        rw [hstep]
        exact ⟨fun _ => ⟨h1, h2, h3⟩, fun habs => by omega⟩
      · have heq : n + 1 = L := by omega
        obtain ⟨h1, _⟩ := apply_move_tm_last _
          (ms.get ⟨n, Nat.lt_of_succ_le hlen⟩) L n htm hL0 htc heq
        rw [hstep]
        exact ⟨fun habs => by omega, fun _ => h1⟩
    · have htm := (ih hlen').2 (Nat.le_of_not_lt hnL)
      obtain ⟨h1, _⟩ := apply_move_tm_none _
        (ms.get ⟨n, Nat.lt_of_succ_le hlen⟩) htm
      rw [hstep]
      exact ⟨fun habs => by omega, fun _ => h1⟩

/-- C6: in a game created with turn-override limit `L ≥ 1`, whatever
moves are applied, the player who moves at turn index `n < L` is black
exactly when the binary digit sum of `n` is even (so for `L = 4` the
movers of turns 0,1,2,3 are black, white, white, black), and from the
moment the turn index reaches `L` the mover alternates strictly from
whichever player the sequence last assigned. -/
theorem c6_thue_morse_schedule (bs L : Nat) (hL : 1 ≤ L) (ms : List Move) (n : Nat) :
    (n < L → n ≤ ms.length →
      (trace_state (GameState.new_game bs (some L)) (ms.take n)).next_player =
        (if popcount n % 2 = 0 then Player.black else Player.white)) ∧
    (L ≤ n + 1 → n + 1 ≤ ms.length →
      (trace_state (GameState.new_game bs (some L)) (ms.take (n + 1))).next_player =
        ((trace_state (GameState.new_game bs (some L)) (ms.take n)).next_player).other) := by
  have hL0 : L ≠ 0 := Nat.one_le_iff_ne_zero.mp hL
  constructor
  · intro hn hlen
    exact ((trace_tm_invariant bs L hL ms n hlen).1 hn).2.2
  · intro hLn hlen
    have hlen' : n ≤ ms.length := Nat.le_of_succ_le hlen
    have hstep := trace_state_take_succ (GameState.new_game bs (some L)) ms n
      (Nat.lt_of_succ_le hlen)
    by_cases hnL : n < L
    · have heq : n + 1 = L := by omega
      obtain ⟨htm, htc, _⟩ := (trace_tm_invariant bs L hL ms n hlen').1 hnL
      obtain ⟨_, h2⟩ := apply_move_tm_last _
        (ms.get ⟨n, Nat.lt_of_succ_le hlen⟩) L n htm hL0 htc heq
      rw [hstep]
      exact h2
    · have htm := (trace_tm_invariant bs L hL ms n hlen').2 (Nat.le_of_not_lt hnL)
      obtain ⟨_, h2⟩ := apply_move_tm_none _
        (ms.get ⟨n, Nat.lt_of_succ_le hlen⟩) htm
      rw [hstep]
      exact h2

/-- C6 witness: with limit 4 and five passes, the mover of turn 2 is
white (digit sum of 2 is odd) and the mover of turn 4 is the opponent
of the mover of turn 3. -/
theorem c6_witness :
    (trace_state (GameState.new_game 5 (some 4)) (tmMoves.take 2)).next_player =
      (if popcount 2 % 2 = 0 then Player.black else Player.white) ∧
    (trace_state (GameState.new_game 5 (some 4)) (tmMoves.take 4)).next_player =
      ((trace_state (GameState.new_game 5 (some 4)) (tmMoves.take 3)).next_player).other :=
  ⟨(c6_thue_morse_schedule 5 4 (by decide) tmMoves 2).1 (by decide) (by decide),
   (c6_thue_morse_schedule 5 4 (by decide) tmMoves 3).2 (by decide) (by decide)⟩
theorem nat_xor_left_comm (a b c : Nat) : a ^^^ (b ^^^ c) = b ^^^ (a ^^^ c) := by
  rw [← Nat.xor_assoc, Nat.xor_comm a b, Nat.xor_assoc]

theorem nat_xor_cancel_left (a b : Nat) : a ^^^ (a ^^^ b) = b := by
  rw [← Nat.xor_assoc, Nat.xor_self, Nat.zero_xor]

theorem foldl_xor_shift (f : Point → Nat) (l : List Point) (a : Nat) :
    l.foldl (fun acc q => acc ^^^ f q) a = a ^^^ l.foldl (fun acc q => acc ^^^ f q) 0 := by
  induction l generalizing a with
  | nil => simp
  | cons x xs ih =>
    simp only [List.foldl_cons]
    rw [ih (a ^^^ f x), ih (0 ^^^ f x)]
    simp [Nat.xor_assoc]

theorem foldl_xor_congr (f g : Point → Nat) (l : List Point)
    (h : ∀ q ∈ l, f q = g q) :
    l.foldl (fun acc q => acc ^^^ f q) 0 = l.foldl (fun acc q => acc ^^^ g q) 0 := by
  induction l with
  | nil => rfl
  | cons x xs ih =>
    simp only [List.foldl_cons]
    rw [foldl_xor_shift f, foldl_xor_shift g, h x (by simp),
      ih (fun q hq => h q (by simp [hq]))]

theorem foldl_xor_update (f g : Point → Nat) (l : List Point) (hnd : l.Nodup)
    (x : Point) (hx : x ∈ l) (h : ∀ q ∈ l, q ≠ x → f q = g q) :
    l.foldl (fun acc q => acc ^^^ g q) 0 =
      (l.foldl (fun acc q => acc ^^^ f q) 0) ^^^ f x ^^^ g x := by
  induction l with
  | nil => cases hx
  | cons y ys ih =>
    simp only [List.foldl_cons, Nat.zero_xor]
    rcases List.mem_cons.mp hx with rfl | hxs
    · have hys : ∀ q ∈ ys, f q = g q := by
        intro q hq
        exact h q (by simp [hq]) (fun hqx => (List.nodup_cons.mp hnd).1 (hqx ▸ hq))
      rw [foldl_xor_shift f, foldl_xor_shift g, foldl_xor_congr f g ys hys]
      simp [Nat.xor_assoc, Nat.xor_comm, nat_xor_left_comm, nat_xor_cancel_left,
        Nat.xor_self, Nat.xor_zero, Nat.zero_xor]
    · have hy : f y = g y := h y (by simp) (fun hyx => (List.nodup_cons.mp hnd).1 (hyx ▸ hxs))
      rw [foldl_xor_shift f, foldl_xor_shift g, hy,
        ih (List.nodup_cons.mp hnd).2 hxs (fun q hq hqx => h q (by simp [hq]) hqx)]
      simp [Nat.xor_assoc, Nat.xor_comm, nat_xor_left_comm, nat_xor_cancel_left,
        Nat.xor_self, Nat.xor_zero, Nat.zero_xor]

theorem mem_all_points_list (rows cols : Nat) (p : Point) :
    p ∈ all_points_list rows cols ↔
      (1 ≤ p.row ∧ p.row ≤ rows ∧ 1 ≤ p.col ∧ p.col ≤ cols) := by
  unfold all_points_list
  simp only [List.mem_flatMap, List.mem_map, List.mem_range]
  constructor
  · rintro ⟨r, hr, c, hc, rfl⟩
    simp
    omega
  · rintro ⟨h1, h2, h3, h4⟩
    refine ⟨p.row - 1, by omega, p.col - 1, by omega, ?_⟩
    cases p with
    | mk pr pc =>
      simp only [Point.mk.injEq]
      simp only at h1 h2 h3 h4
      omega

theorem mem_all_points_iff_on_grid (b : Board) (p : Point) :
    p ∈ all_points_list b.num_rows b.num_cols ↔ b.is_on_grid p = true := by
  rw [mem_all_points_list]
  unfold Board.is_on_grid
  simp [Bool.and_eq_true, decide_eq_true_eq, and_assoc]

theorem nodup_all_points_list (rows cols : Nat) :
    (all_points_list rows cols).Nodup := by
  unfold all_points_list
  refine List.nodup_flatMap.mpr ⟨?_, ?_⟩
  · intro r _
    exact (List.nodup_range cols).map (fun a b h => by
      simpa [Point.mk.injEq] using h)
  · refine (List.nodup_range rows).imp ?_
    intro r1 r2 hne
    simp only [Function.onFun, List.Disjoint]
    intro p hp1 hp2
    simp only [List.mem_map, List.mem_range] at hp1 hp2
    obtain ⟨c1, _, rfl⟩ := hp1
    obtain ⟨c2, _, heq⟩ := hp2
    cases heq
    omega

theorem cell_code_eq_get_code (b : Board) (q : Point) :
    cell_code b q = get_code q (b.get q) := by
  unfold cell_code get_code Board.get
  cases b.grid q <;> rfl

theorem config_hash_congr (b b' : Board)
    (hr : b'.num_rows = b.num_rows) (hc : b'.num_cols = b.num_cols)
    (h : ∀ q, b.is_on_grid q = true → b'.get q = b.get q) :
    config_hash b' = config_hash b := by
  unfold config_hash
  rw [hr, hc]
  apply foldl_xor_congr
  intro q hq
  rw [cell_code_eq_get_code, cell_code_eq_get_code,
    h q ((mem_all_points_iff_on_grid b q).mp hq)]

theorem config_hash_update (b b' : Board)
    (hr : b'.num_rows = b.num_rows) (hc : b'.num_cols = b.num_cols)
    (x : Point) (hx : b.is_on_grid x = true)
    (hsame : ∀ q, q ≠ x → b'.get q = b.get q) :
    config_hash b' = config_hash b ^^^ get_code x (b.get x) ^^^ get_code x (b'.get x) := by
  unfold config_hash
  rw [hr, hc]
  have := foldl_xor_update (cell_code b) (cell_code b')
    (all_points_list b.num_rows b.num_cols) (nodup_all_points_list ..)
    x ((mem_all_points_iff_on_grid b x).mpr hx)
    (fun q _ hqx => by
      show cell_code b q = cell_code b' q
      rw [cell_code_eq_get_code, cell_code_eq_get_code, hsame q hqx])
  rw [this, cell_code_eq_get_code, cell_code_eq_get_code]
theorem replace_string_num_rows (b : Board) (ns : GoString) :
    (b.replace_string ns).num_rows = b.num_rows := rfl

theorem replace_string_num_cols (b : Board) (ns : GoString) :
    (b.replace_string ns).num_cols = b.num_cols := rfl

theorem replace_string_hash (b : Board) (ns : GoString) :
    (b.replace_string ns).hash = b.hash := rfl

theorem replace_string_grid (b : Board) (ns : GoString) (q : Point) :
    (b.replace_string ns).grid q =
      if q ∈ ns.stones then some ns else b.grid q := rfl

theorem with_liberty_stones (t : GoString) (p : Point) :
    (t.with_liberty p).stones = t.stones := rfl

theorem with_liberty_color (t : GoString) (p : Point) :
    (t.with_liberty p).color = t.color := rfl

theorem with_liberty_liberties (t : GoString) (p : Point) :
    (t.with_liberty p).liberties = insert p t.liberties := rfl

theorem without_liberty_stones (t : GoString) (p : Point) :
    (t.without_liberty p).stones = t.stones := rfl

theorem without_liberty_color (t : GoString) (p : Point) :
    (t.without_liberty p).color = t.color := rfl

theorem without_liberty_liberties (t : GoString) (p : Point) :
    (t.without_liberty p).liberties = t.liberties.erase p := rfl

theorem is_on_grid_congr (b b' : Board)
    (hr : b'.num_rows = b.num_rows) (hc : b'.num_cols = b.num_cols) (p : Point) :
    b'.is_on_grid p = b.is_on_grid p := by
  unfold Board.is_on_grid
  rw [hr, hc]

theorem neighbor_list_congr (b b' : Board)
    (hr : b'.num_rows = b.num_rows) (hc : b'.num_cols = b.num_cols) (p : Point) :
    b'.neighbor_list p = b.neighbor_list p := by
  unfold Board.neighbor_list
  congr 1
  funext q
  exact is_on_grid_congr b b' hr hc q

theorem mem_neighbor_list_symm (b : Board) (x n : Point)
    (hx : b.is_on_grid x = true) (hn : n ∈ b.neighbor_list x) :
    x ∈ b.neighbor_list n := by
  unfold Board.neighbor_list at hn ⊢
  rw [List.mem_filter] at hn ⊢
  obtain ⟨h1, h2⟩ := hn
  refine ⟨?_, hx⟩
  unfold Board.is_on_grid at h2
  simp only [Bool.and_eq_true, decide_eq_true_eq] at h2
  cases x with
  | mk r c =>
    cases n with
    | mk nr nc =>
      unfold Point.neighbors at h1 ⊢
      simp only [List.mem_cons, List.not_mem_nil, or_false, Point.mk.injEq] at h1 ⊢
      omega

/-- One iteration of the liberty-restoring neighbor loop inside
`_remove_string`, as a standalone function for the proofs. -/
theorem restore_step_inv (b0 : Board) (s : GoString) (P : Finset Point)
    (b : Board) (x : Point) (n : Point)
    (hinv : removal_inv b0 s P b)
    (hprot_n : ∀ t0 : GoString,
      (∀ x' ∈ t0.stones, ∀ m ∈ b0.neighbor_list x', m ∉ s.stones) → n ∉ t0.stones) :
    removal_inv b0 s P
      (match b.grid n with
       | none => b
       | some t => if t = s then b else b.replace_string (t.with_liberty x)) ∧
    (∀ q, (match b.grid n with
       | none => b
       | some t => if t = s then b else b.replace_string (t.with_liberty x)).get q = b.get q) ∧
    (match b.grid n with
       | none => b
       | some t => if t = s then b else b.replace_string (t.with_liberty x)).hash = b.hash := by
  obtain ⟨hr, hc, hPs, hPn, hsc, hsurv, hemp, hocc, hprot⟩ := hinv
  rcases hn : b.grid n with _ | t
  · exact ⟨⟨hr, hc, hPs, hPn, hsc, hsurv, hemp, hocc, hprot⟩, fun _ => rfl, rfl⟩
  · by_cases hts : t = s
    · simp only [hn, hts, if_pos rfl]
      exact ⟨⟨hr, hc, hPs, hPn, hsc, hsurv, hemp, hocc, hprot⟩, fun _ => rfl, rfl⟩
    · simp only [hn, if_neg hts]
      -- the cell n lies outside the stones of s
      have hns : n ∉ s.stones := by
        intro hmem
        by_cases hnP : n ∈ P
        · rw [hPn n hnP] at hn
          cases hn
        · rw [hsc n hmem hnP] at hn
          exact hts (Option.some.injEq .. ▸ hn).symm
      obtain ⟨t0, ht0, hcol, hst, hlib, hq, hdisj, hcons⟩ := hsurv n t hns hn
      have hgrid : ∀ q, (b.replace_string (t.with_liberty x)).grid q =
          if q ∈ t.stones then some (t.with_liberty x) else b.grid q := by
        intro q
        rw [replace_string_grid, with_liberty_stones]
      refine ⟨⟨hr, hc, hPs, ?_, ?_, ?_, ?_, ?_, ?_⟩, ?_, rfl⟩
      · intro q hqP
        rw [hgrid, if_neg (fun hqt => hdisj q hqt (hPs q hqP))]
        exact hPn q hqP
      · intro q hqs hqP
        rw [hgrid, if_neg (fun hqt => hdisj q hqt hqs)]
        exact hsc q hqs hqP
      · intro q u hqs hq'
        rw [hgrid] at hq'
        by_cases hqt : q ∈ t.stones
        · rw [if_pos hqt] at hq'
          obtain rfl : u = t.with_liberty x := by
            injection hq'.symm
          obtain ⟨u0, hu0, hucol, hust, hulib, _, _, _⟩ :=
            hsurv q t hqs (hcons q hqt)
          refine ⟨u0, hu0, hucol, hust, ?_, hqt, hdisj, ?_⟩
          · exact hulib.trans (fun z hz => Finset.mem_insert_of_mem hz)
          · intro r hr'
            rw [with_liberty_stones] at hr'
            rw [hgrid, if_pos hr']
        · rw [if_neg hqt] at hq'
          obtain ⟨u0, hu0, hucol, hust, hulib, hqu, hudisj, hucons⟩ :=
            hsurv q u hqs hq'
          refine ⟨u0, hu0, hucol, hust, hulib, hqu, hudisj, ?_⟩
          intro r hr'
          rw [hgrid, if_neg ?_]
          · exact hucons r hr'
          · intro hrt
            have hbt : b.grid r = some t := hcons r hrt
            rw [hucons r hr'] at hbt
            have hut : u = t := by injection hbt
            subst hut
            exact hqt hqu
      · intro q hqs hq0
        rw [hgrid, if_neg (fun hqt => by
          have := hcons q hqt
          rw [hemp q hqs hq0] at this
          cases this)]
        exact hemp q hqs hq0
      · intro q hqs hq0
        rw [hgrid]
        by_cases hqt : q ∈ t.stones
        · rw [if_pos hqt]
          rfl
        · rw [if_neg hqt]
          exact hocc q hqs hq0
      · intro q u0 hqs hq0 hpt
        rw [hgrid]
        by_cases hqt : q ∈ t.stones
        · exfalso
          have hbq : b.grid q = some t := hcons q hqt
          have hbq0 : b.grid q = some u0 := hprot q u0 hqs hq0 hpt
          rw [hbq] at hbq0
          have ht0t : t = u0 := by injection hbq0
          exact hprot_n u0 hpt (ht0t ▸ hq)
        · rw [if_neg hqt]
          exact hprot q u0 hqs hq0 hpt
      · intro q
        unfold Board.get
        rw [hgrid]
        by_cases hqt : q ∈ t.stones
        · rw [if_pos hqt, hcons q hqt]
          rfl
        · rw [if_neg hqt]
theorem restore_fold_inv (b0 : Board) (s : GoString) (P : Finset Point)
    (x : Point) :
    ∀ (l : List Point) (b : Board), removal_inv b0 s P b →
    (∀ n ∈ l, ∀ t0 : GoString,
      (∀ y ∈ t0.stones, ∀ m ∈ b0.neighbor_list y, m ∉ s.stones) → n ∉ t0.stones) →
    removal_inv b0 s P
      (l.foldl (fun bc n =>
        match bc.grid n with
        | none => bc
        | some t => if t = s then bc else bc.replace_string (t.with_liberty x)) b) ∧
    (∀ q, (l.foldl (fun bc n =>
        match bc.grid n with
        | none => bc
        | some t => if t = s then bc else bc.replace_string (t.with_liberty x)) b).get q
        = b.get q) ∧
    (l.foldl (fun bc n =>
        match bc.grid n with
        | none => bc
        | some t => if t = s then bc else bc.replace_string (t.with_liberty x)) b).hash
      = b.hash := by
  intro l
  induction l with
  | nil =>
    intro b hinv _
    exact ⟨hinv, fun _ => rfl, rfl⟩
  | cons n ns ih =>
    intro b hinv hprot_l
    simp only [List.foldl_cons]
    obtain ⟨h1, h2, h3⟩ := restore_step_inv b0 s P b x n hinv (hprot_l n (by simp))
    obtain ⟨g1, g2, g3⟩ := ih _ h1 (fun m hm => hprot_l m (by simp [hm]))
    exact ⟨g1, fun q => (g2 q).trans (h2 q), g3.trans h3⟩

theorem restore_liberties_inv (b0 : Board) (s : GoString) (P : Finset Point)
    (b : Board) (x : Point) (hinv : removal_inv b0 s P b)
    (hx : x ∈ s.stones) (hongx : b0.is_on_grid x = true) :
    removal_inv b0 s P (b.restore_liberties s x) ∧
    (∀ q, (b.restore_liberties s x).get q = b.get q) ∧
    (b.restore_liberties s x).hash = b.hash := by
  refine restore_fold_inv b0 s P x (b.neighbor_list x) b hinv ?_
  intro n hn t0 hpt hnt0
  have hn0 : n ∈ b0.neighbor_list x := by
    rw [neighbor_list_congr b0 b hinv.1 hinv.2.1 x] at hn
    exact hn
  exact hpt n hnt0 x (mem_neighbor_list_symm b0 x n hongx hn0) hx

theorem remove_stone_step_grid (b : Board) (s : GoString) (x q : Point) :
    (b.remove_stone_step s x).grid q =
      if q = x then none else (b.restore_liberties s x).grid q := rfl

theorem remove_stone_step_hash (b : Board) (s : GoString) (x : Point) :
    (b.remove_stone_step s x).hash =
      (b.restore_liberties s x).hash
        ^^^ HASH_CODE x (some s.color) ^^^ HASH_CODE x none := rfl

theorem remove_stone_step_num_rows (b : Board) (s : GoString) (x : Point) :
    (b.remove_stone_step s x).num_rows = (b.restore_liberties s x).num_rows := rfl

theorem remove_stone_step_num_cols (b : Board) (s : GoString) (x : Point) :
    (b.remove_stone_step s x).num_cols = (b.restore_liberties s x).num_cols := rfl

theorem remove_stone_step_inv (b0 : Board) (s : GoString) (P : Finset Point)
    (b : Board) (x : Point)
    (hinv : removal_inv b0 s P b) (hx : x ∈ s.stones) (hxP : x ∉ P)
    (hong : b0.is_on_grid x = true) :
    removal_inv b0 s (insert x P) (b.remove_stone_step s x) ∧
    (∀ q, q ≠ x → (b.remove_stone_step s x).get q = b.get q) ∧
    (hash_ok b → hash_ok (b.remove_stone_step s x)) := by
  obtain ⟨hfold, hget, hhash⟩ := restore_liberties_inv b0 s P b x hinv hx hong
  obtain ⟨hr, hc, hPs, hPn, hsc, hsurv, hemp, hocc, hprot⟩ := hfold
  have hbr : b.num_rows = b0.num_rows := hinv.1
  have hbc : b.num_cols = b0.num_cols := hinv.2.1
  have hxb1 : (b.restore_liberties s x).grid x = some s := hsc x hx hxP
  have hget2 : ∀ q, q ≠ x → (b.remove_stone_step s x).get q = b.get q := by
    intro q hqx
    unfold Board.get
    rw [remove_stone_step_grid, if_neg hqx]
    have := hget q
    unfold Board.get at this
    exact this
  refine ⟨⟨?_, ?_, ?_, ?_, ?_, ?_, ?_, ?_, ?_⟩, hget2, ?_⟩
  · rw [remove_stone_step_num_rows]
    exact hr
  · rw [remove_stone_step_num_cols]
    exact hc
  · intro q hq
    rcases Finset.mem_insert.mp hq with rfl | hq'
    · exact hx
    · exact hPs q hq'
  · intro q hq
    rw [remove_stone_step_grid]
    rcases Finset.mem_insert.mp hq with rfl | hq'
    · rw [if_pos rfl]
    · by_cases hqx : q = x
      · rw [if_pos hqx]
      · rw [if_neg hqx]
        exact hPn q hq'
  · intro q hqs hq
    have hqx : q ≠ x := fun h => hq (h ▸ Finset.mem_insert_self x P)
    have hqP : q ∉ P := fun h => hq (Finset.mem_insert_of_mem h)
    rw [remove_stone_step_grid, if_neg hqx]
    exact hsc q hqs hqP
  · intro q t' hqs hq'
    have hqx : q ≠ x := fun h => hqs (h ▸ hx)
    rw [remove_stone_step_grid, if_neg hqx] at hq'
    obtain ⟨t0, ht0, hcol, hst, hlib, hqt, hdisj, hcons⟩ := hsurv q t' hqs hq'
    refine ⟨t0, ht0, hcol, hst, hlib, hqt, hdisj, ?_⟩
    intro r hr'
    have hrx : r ≠ x := fun h => hdisj r hr' (h ▸ hx)
    rw [remove_stone_step_grid, if_neg hrx]
    exact hcons r hr'
  · intro q hqs hq0
    have hqx : q ≠ x := fun h => hqs (h ▸ hx)
    rw [remove_stone_step_grid, if_neg hqx]
    exact hemp q hqs hq0
  · intro q hqs hq0
    have hqx : q ≠ x := fun h => hqs (h ▸ hx)
    rw [remove_stone_step_grid, if_neg hqx]
    exact hocc q hqs hq0
  · intro q u0 hqs hq0 hpt
    have hqx : q ≠ x := fun h => hqs (h ▸ hx)
    rw [remove_stone_step_grid, if_neg hqx]
    exact hprot q u0 hqs hq0 hpt
  · intro hok
    have hgx : b.get x = some s.color := by
      have h1 := hget x
      unfold Board.get at h1
      rw [hxb1] at h1
      unfold Board.get
      exact h1.symm
    have hgx2 : (b.remove_stone_step s x).get x = none := by
      unfold Board.get
      rw [remove_stone_step_grid, if_pos rfl]
      rfl
    have hxon : b.is_on_grid x = true :=
      (is_on_grid_congr b0 b hbr hbc x).trans hong
    have hup := config_hash_update b (b.remove_stone_step s x)
      ((remove_stone_step_num_rows ..).trans hr |>.trans hbr.symm)
      ((remove_stone_step_num_cols ..).trans hc |>.trans hbc.symm)
      x hxon hget2
    unfold hash_ok at hok ⊢
    rw [remove_stone_step_hash, hhash, hup, hgx, hgx2, hok]
    unfold get_code
    simp [Nat.xor_assoc, Nat.xor_comm, nat_xor_left_comm, nat_xor_cancel_left,
      Nat.xor_self, Nat.xor_zero, Nat.zero_xor]
theorem remove_fold_inv (b0 : Board) (s : GoString)
    (hong : ∀ q ∈ s.stones, b0.is_on_grid q = true) :
    ∀ (l : List Point) (P : Finset Point) (b : Board),
      l.Nodup → (∀ y ∈ l, y ∈ s.stones ∧ y ∉ P) →
      removal_inv b0 s P b →
      removal_inv b0 s (P ∪ l.toFinset)
        (l.foldl (fun bc pt => bc.remove_stone_step s pt) b) ∧
      (hash_ok b → hash_ok (l.foldl (fun bc pt => bc.remove_stone_step s pt) b)) := by
  intro l
  induction l with
  | nil =>
    intro P b _ _ hinv
    constructor
    · simpa using hinv
    · simp only [List.foldl_nil]
      exact id
  | cons y ys ih =>
    intro P b hnd hmem hinv
    obtain ⟨hy, hyP⟩ := hmem y (by simp)
    obtain ⟨h1, _, h3⟩ := remove_stone_step_inv b0 s P b y hinv hy hyP (hong y hy)
    have hmem' : ∀ z ∈ ys, z ∈ s.stones ∧ z ∉ insert y P := by
      intro z hz
      refine ⟨(hmem z (by simp [hz])).1, ?_⟩
      intro hzin
      rcases Finset.mem_insert.mp hzin with rfl | hzP
      · exact (List.nodup_cons.mp hnd).1 hz
      · exact (hmem z (by simp [hz])).2 hzP
    obtain ⟨g1, g2⟩ := ih (insert y P) (b.remove_stone_step s y)
      (List.nodup_cons.mp hnd).2 hmem' h1
    have hPeq : insert y P ∪ ys.toFinset = P ∪ (y :: ys).toFinset := by
      ext z
      simp [Finset.mem_insert, Finset.mem_union, List.toFinset_cons]
    rw [List.foldl_cons]
    rw [hPeq] at g1
    exact ⟨g1, fun hok => g2 (h3 hok)⟩

theorem removal_inv_init (b : Board) (s : GoString)
    (hwf : b.grid_wf) (hstones : ∀ q ∈ s.stones, b.grid q = some s) :
    removal_inv b s ∅ b := by
  refine ⟨rfl, rfl, by simp, by simp, fun q hq _ => hstones q hq, ?_, fun _ _ h => h,
    fun _ _ h => h, fun _ _ _ h _ => h⟩
  intro q t' hqs hq'
  obtain ⟨hon, hqt, hcons⟩ := hwf q t' hq'
  refine ⟨t', hq', rfl, rfl, Finset.Subset.refl _, hqt, ?_, hcons⟩
  intro r hr' hrs
  have h1 : b.grid r = some t' := hcons r hr'
  have h2 : b.grid r = some s := hstones r hrs
  rw [h1] at h2
  have hts : t' = s := by injection h2
  exact hqs (hts ▸ hqt)

theorem mem_stone_filter (b : Board) (s : GoString)
    (hong : ∀ q ∈ s.stones, b.is_on_grid q = true) (q : Point) :
    q ∈ (all_points_list b.num_rows b.num_cols).filter
        (fun pt => decide (pt ∈ s.stones)) ↔ q ∈ s.stones := by
  rw [List.mem_filter]
  constructor
  · rintro ⟨_, h2⟩
    exact of_decide_eq_true h2
  · intro hq
    exact ⟨(mem_all_points_iff_on_grid b q).mpr (hong q hq), decide_eq_true hq⟩

theorem remove_string_spec (b : Board) (s : GoString)
    (hwf : b.grid_wf) (hstones : ∀ q ∈ s.stones, b.grid q = some s)
    (hong : ∀ q ∈ s.stones, b.is_on_grid q = true) :
    removal_inv b s s.stones (b.remove_string s) ∧
    (hash_ok b → hash_ok (b.remove_string s)) := by
  have hinit := removal_inv_init b s hwf hstones
  have hnd : ((all_points_list b.num_rows b.num_cols).filter
      (fun pt => decide (pt ∈ s.stones))).Nodup :=
    (nodup_all_points_list ..).filter _
  have hmem : ∀ y ∈ (all_points_list b.num_rows b.num_cols).filter
      (fun pt => decide (pt ∈ s.stones)), y ∈ s.stones ∧ y ∉ (∅ : Finset Point) := by
    intro y hy
    exact ⟨(mem_stone_filter b s hong y).mp hy, by simp⟩
  obtain ⟨h1, h2⟩ := remove_fold_inv b s hong
    ((all_points_list b.num_rows b.num_cols).filter (fun pt => decide (pt ∈ s.stones)))
    ∅ b hnd hmem hinit
  have hfin : (∅ : Finset Point) ∪ ((all_points_list b.num_rows b.num_cols).filter
      (fun pt => decide (pt ∈ s.stones))).toFinset = s.stones := by
    ext z
    simp only [Finset.empty_union, List.mem_toFinset]
    exact mem_stone_filter b s hong z
  rw [hfin] at h1
  exact ⟨h1, h2⟩
theorem mem_collect_fold (b : Board) (keep : GoString → Bool) (l : List Point)
    (acc : List GoString) (t : GoString) :
    t ∈ l.foldl (fun acc n =>
      match b.grid n with
      | none => acc
      | some s => if keep s then (if s ∈ acc then acc else acc ++ [s]) else acc) acc ↔
    (t ∈ acc ∨ (keep t = true ∧ ∃ n ∈ l, b.grid n = some t)) := by
  induction l generalizing acc with
  | nil => simp
  | cons n ns ih =>
    simp only [List.foldl_cons]
    rw [ih]
    have hiff : ∀ acc2 : List GoString,
        (match b.grid n with
         | none => acc2
         | some s => if keep s then (if s ∈ acc2 then acc2 else acc2 ++ [s]) else acc2) =
        (match b.grid n with
         | none => acc2
         | some s => if keep s then (if s ∈ acc2 then acc2 else acc2 ++ [s]) else acc2) :=
      fun _ => rfl
    clear hiff
    split
    · rename_i hn
      constructor
      · rintro (h | ⟨hk, m, hm, hgm⟩)
        · exact Or.inl h
        · exact Or.inr ⟨hk, m, by simp [hm], hgm⟩
      · rintro (h | ⟨hk, m, hm, hgm⟩)
        · exact Or.inl h
        · rcases List.mem_cons.mp hm with rfl | hm'
          · rw [hn] at hgm
            cases hgm
          · exact Or.inr ⟨hk, m, hm', hgm⟩
    · rename_i s hn
      by_cases hk : keep s = true
      · rw [if_pos hk]
        by_cases hsa : s ∈ acc
        · rw [if_pos hsa]
          constructor
          · rintro (h | ⟨hk', m, hm, hgm⟩)
            · exact Or.inl h
            · exact Or.inr ⟨hk', m, by simp [hm], hgm⟩
          · rintro (h | ⟨hk', m, hm, hgm⟩)
            · exact Or.inl h
            · rcases List.mem_cons.mp hm with rfl | hm'
              · rw [hn] at hgm
                obtain rfl : s = t := by injection hgm
                exact Or.inl hsa
              · exact Or.inr ⟨hk', m, hm', hgm⟩
        · rw [if_neg hsa]
          constructor
          · rintro (h | ⟨hk', m, hm, hgm⟩)
            · rcases List.mem_append.mp h with h' | h'
              · exact Or.inl h'
              · obtain rfl : t = s := by simpa using h'
                exact Or.inr ⟨hk, n, by simp, hn⟩
            · exact Or.inr ⟨hk', m, by simp [hm], hgm⟩
          · rintro (h | ⟨hk', m, hm, hgm⟩)
            · exact Or.inl (List.mem_append.mpr (Or.inl h))
            · rcases List.mem_cons.mp hm with rfl | hm'
              · rw [hn] at hgm
                obtain rfl : s = t := by injection hgm
                exact Or.inl (List.mem_append.mpr (Or.inr (by simp)))
              · exact Or.inr ⟨hk', m, hm', hgm⟩
      · rw [if_neg hk]
        constructor
        · rintro (h | ⟨hk', m, hm, hgm⟩)
          · exact Or.inl h
          · exact Or.inr ⟨hk', m, by simp [hm], hgm⟩
        · rintro (h | ⟨hk', m, hm, hgm⟩)
          · exact Or.inl h
          · rcases List.mem_cons.mp hm with rfl | hm'
            · rw [hn] at hgm
              obtain rfl : s = t := by injection hgm
              exact absurd hk' hk
            · exact Or.inr ⟨hk', m, hm', hgm⟩

theorem mem_collect_adjacent (b : Board) (point : Point) (keep : GoString → Bool)
    (t : GoString) :
    t ∈ b.collect_adjacent point keep ↔
      (keep t = true ∧ ∃ n ∈ b.neighbor_list point, b.grid n = some t) := by
  unfold Board.collect_adjacent
  rw [mem_collect_fold]
  simp

theorem nodup_collect_fold (b : Board) (keep : GoString → Bool) (l : List Point)
    (acc : List GoString) (hacc : acc.Nodup) :
    (l.foldl (fun acc n =>
      match b.grid n with
      | none => acc
      | some s => if keep s then (if s ∈ acc then acc else acc ++ [s]) else acc) acc).Nodup := by
  induction l generalizing acc with
  | nil => exact hacc
  | cons n ns ih =>
    simp only [List.foldl_cons]
    refine ih _ ?_
    split
    · exact hacc
    · rename_i s hn
      by_cases hk : keep s = true
      · rw [if_pos hk]
        by_cases hsa : s ∈ acc
        · rw [if_pos hsa]
          exact hacc
        · rw [if_neg hsa]
          rw [List.nodup_append]
          exact ⟨hacc, List.nodup_singleton s, by simpa using fun h => hsa h⟩
      · rw [if_neg hk]
        exact hacc

theorem nodup_collect_adjacent (b : Board) (point : Point) (keep : GoString → Bool) :
    (b.collect_adjacent point keep).Nodup :=
  nodup_collect_fold b keep _ [] (List.nodup_nil)

theorem merge_fold_color (g : GoString) (l : List GoString) :
    (l.foldl GoString.merged_with g).color = g.color := by
  induction l generalizing g with
  | nil => rfl
  | cons t ts ih => exact (ih (g.merged_with t)).trans rfl

theorem merge_fold_mem_stones (g : GoString) (l : List GoString) (q : Point) :
    q ∈ (l.foldl GoString.merged_with g).stones ↔
      q ∈ g.stones ∨ ∃ t ∈ l, q ∈ t.stones := by
  induction l generalizing g with
  | nil => simp
  | cons t ts ih =>
    simp only [List.foldl_cons]
    rw [ih]
    constructor
    · rintro (h | ⟨u, hu, hq⟩)
      · rcases Finset.mem_union.mp h with h' | h'
        · exact Or.inl h'
        · exact Or.inr ⟨t, by simp, h'⟩
      · exact Or.inr ⟨u, by simp [hu], hq⟩
    · rintro (h | ⟨u, hu, hq⟩)
      · exact Or.inl (Finset.mem_union_left _ h)
      · rcases List.mem_cons.mp hu with rfl | hu'
        · exact Or.inl (Finset.mem_union_right _ hq)
        · exact Or.inr ⟨u, hu', hq⟩

theorem merge_fold_mem_liberties (g : GoString) (l : List GoString) (q : Point)
    (hg : ∀ r ∈ g.liberties, r ∉ g.stones) :
    q ∈ (l.foldl GoString.merged_with g).liberties ↔
      ((q ∈ g.liberties ∨ ∃ t ∈ l, q ∈ t.liberties) ∧
        q ∉ (l.foldl GoString.merged_with g).stones) := by
  induction l generalizing g with
  | nil =>
    simp only [List.foldl_nil, List.not_mem_nil, false_and, exists_false, or_false]
    exact ⟨fun h => ⟨h, hg q h⟩, fun h => h.1⟩
  | cons t ts ih =>
    simp only [List.foldl_cons]
    have hg' : ∀ r ∈ (g.merged_with t).liberties, r ∉ (g.merged_with t).stones := by
      intro r hr
      exact (Finset.mem_sdiff.mp hr).2
    rw [ih _ hg']
    have hsub : ∀ r, r ∈ (g.merged_with t).stones →
        r ∈ (ts.foldl GoString.merged_with (g.merged_with t)).stones := by
      intro r hr
      rw [merge_fold_mem_stones]
      exact Or.inl hr
    constructor
    · rintro ⟨h1, h2⟩
      refine ⟨?_, h2⟩
      rcases h1 with h1 | ⟨u, hu, hq⟩
      · have := Finset.mem_sdiff.mp h1
        rcases Finset.mem_union.mp this.1 with h' | h'
        · exact Or.inl h'
        · exact Or.inr ⟨t, by simp, h'⟩
      · exact Or.inr ⟨u, by simp [hu], hq⟩
    · rintro ⟨h1, h2⟩
      refine ⟨?_, h2⟩
      have hqm : q ∉ (g.merged_with t).stones := fun h => h2 (hsub q h)
      rcases h1 with h1 | ⟨u, hu, hq⟩
      · exact Or.inl (Finset.mem_sdiff.mpr ⟨Finset.mem_union_left _ h1, hqm⟩)
      · rcases List.mem_cons.mp hu with rfl | hu'
        · exact Or.inl (Finset.mem_sdiff.mpr ⟨Finset.mem_union_right _ hq, hqm⟩)
        · exact Or.inr ⟨u, hu', hq⟩

theorem self_not_mem_neighbor_list (b : Board) (p : Point) :
    p ∉ b.neighbor_list p := by
  intro hmem
  unfold Board.neighbor_list at hmem
  rw [List.mem_filter] at hmem
  obtain ⟨h1, h2⟩ := hmem
  unfold Board.is_on_grid at h2
  simp only [Bool.and_eq_true, decide_eq_true_eq] at h2
  unfold Point.neighbors at h1
  cases p with
  | mk pr pc =>
    simp only [List.mem_cons, List.not_mem_nil, or_false, Point.mk.injEq] at h1
    simp only at h2
    omega

theorem new_string_color (b : Board) (player : Player) (point : Point) :
    (b.new_string player point).color = player := by
  unfold Board.new_string
  rw [merge_fold_color]

theorem new_string_mem_stones (b : Board) (player : Player) (point : Point) (q : Point) :
    q ∈ (b.new_string player point).stones ↔
      q = point ∨ ∃ t ∈ b.adjacent_same_color player point, q ∈ t.stones := by
  unfold Board.new_string
  rw [merge_fold_mem_stones]
  simp

theorem new_string_point_mem (b : Board) (player : Player) (point : Point) :
    point ∈ (b.new_string player point).stones :=
  (new_string_mem_stones ..).mpr (Or.inl rfl)

theorem new_string_mem_liberties (b : Board) (player : Player) (point : Point) (q : Point) :
    q ∈ (b.new_string player point).liberties ↔
      ((q ∈ b.liberty_neighbors point ∨
          ∃ t ∈ b.adjacent_same_color player point, q ∈ t.liberties) ∧
        q ∉ (b.new_string player point).stones) := by
  unfold Board.new_string
  rw [merge_fold_mem_liberties]
  · simp [List.mem_toFinset]
  · intro r hr
    simp only [List.mem_toFinset] at hr
    simp only [Finset.mem_singleton]
    intro hrp
    rw [hrp] at hr
    unfold Board.liberty_neighbors at hr
    exact self_not_mem_neighbor_list b point (List.mem_of_mem_filter hr)
theorem merge_board_num_rows (b : Board) (player : Player) (point : Point) :
    (b.merge_board player point).num_rows = b.num_rows := rfl

theorem merge_board_num_cols (b : Board) (player : Player) (point : Point) :
    (b.merge_board player point).num_cols = b.num_cols := rfl

theorem merge_board_hash (b : Board) (player : Player) (point : Point) :
    (b.merge_board player point).hash =
      b.hash ^^^ HASH_CODE point none ^^^ HASH_CODE point (some player) := rfl

theorem merge_board_grid (b : Board) (player : Player) (point : Point) (q : Point) :
    (b.merge_board player point).grid q =
      if q ∈ (b.new_string player point).stones
        then some (b.new_string player point) else b.grid q := rfl

theorem place_stone_eq_capture_fold (b : Board) (player : Player) (point : Point) :
    b.place_stone player point =
      capture_fold point (b.adjacent_opposite_color player point)
        (b.merge_board player point) := rfl

theorem mem_adjacent_same_color (b : Board) (player : Player) (point : Point)
    (t : GoString) :
    t ∈ b.adjacent_same_color player point ↔
      t.color = player ∧ ∃ n ∈ b.neighbor_list point, b.grid n = some t := by
  unfold Board.adjacent_same_color
  rw [mem_collect_adjacent]
  simp [beq_iff_eq]

theorem mem_adjacent_opposite_color (b : Board) (player : Player) (point : Point)
    (t : GoString) :
    t ∈ b.adjacent_opposite_color player point ↔
      t.color ≠ player ∧ ∃ n ∈ b.neighbor_list point, b.grid n = some t := by
  unfold Board.adjacent_opposite_color
  rw [mem_collect_adjacent]
  simp [bne_iff_ne]

theorem player_eq_of_both_ne (c d p : Player) (hc : c ≠ p) (hd : d ≠ p) : c = d := by
  cases c <;> cases d <;> cases p <;> simp_all

theorem new_string_stone_cells (b : Board) (player : Player) (point : Point)
    (hwf : b.grid_wf) :
    ∀ q ∈ (b.new_string player point).stones, q ≠ point →
      ∃ t, t ∈ b.adjacent_same_color player point ∧ q ∈ t.stones ∧
        b.grid q = some t := by
  intro q hq hqp
  rcases (new_string_mem_stones b player point q).mp hq with rfl | ⟨t, ht, hqt⟩
  · exact absurd rfl hqp
  · obtain ⟨_, n, _, hgn⟩ := (mem_adjacent_same_color b player point t).mp ht
    exact ⟨t, ht, hqt, (hwf n t hgn).2.2 q hqt⟩

theorem new_string_stones_on_grid (b : Board) (player : Player) (point : Point)
    (hwf : b.grid_wf) (hon : b.is_on_grid point = true) :
    ∀ q ∈ (b.new_string player point).stones, b.is_on_grid q = true := by
  intro q hq
  by_cases hqp : q = point
  · exact hqp ▸ hon
  · obtain ⟨t, _, _, hgq⟩ := new_string_stone_cells b player point hwf q hq hqp
    exact (hwf q t hgq).1

theorem stones_sub_new_string (b : Board) (player : Player) (point : Point)
    (t : GoString) (ht : t ∈ b.adjacent_same_color player point) :
    ∀ q ∈ t.stones, q ∈ (b.new_string player point).stones := fun q hq =>
  (new_string_mem_stones b player point q).mpr (Or.inr ⟨t, ht, hq⟩)

theorem merge_board_grid_wf (b : Board) (player : Player) (point : Point)
    (hwf : b.grid_wf) (hon : b.is_on_grid point = true)
    (hemp : b.grid point = none) :
    (b.merge_board player point).grid_wf := by
  intro q u hq
  rw [merge_board_grid] at hq
  by_cases hqs : q ∈ (b.new_string player point).stones
  · rw [if_pos hqs] at hq
    injection hq with hq'
    subst hq'
    refine ⟨new_string_stones_on_grid b player point hwf hon q hqs, hqs, ?_⟩
    intro r hr
    rw [merge_board_grid, if_pos hr]
  · rw [if_neg hqs] at hq
    obtain ⟨hong, hqu, hcons⟩ := hwf q u hq
    refine ⟨hong, hqu, ?_⟩
    intro r hr
    rw [merge_board_grid, if_neg ?_]
    · exact hcons r hr
    · intro hrs
      have hgr : b.grid r = some u := hcons r hr
      by_cases hrp : r = point
      · rw [hrp, hemp] at hgr
        cases hgr
      · obtain ⟨t, ht, _, hgrt⟩ := new_string_stone_cells b player point hwf r hrs hrp
        rw [hgr] at hgrt
        injection hgrt with hut
        subst hut
        exact hqs (stones_sub_new_string b player point u ht q hqu)

theorem merge_board_get (b : Board) (player : Player) (point : Point)
    (hwf : b.grid_wf) :
    ∀ q, q ≠ point → (b.merge_board player point).get q = b.get q := by
  intro q hqp
  unfold Board.get
  rw [merge_board_grid]
  by_cases hqs : q ∈ (b.new_string player point).stones
  · rw [if_pos hqs]
    obtain ⟨t, ht, _, hgq⟩ := new_string_stone_cells b player point hwf q hqs hqp
    rw [hgq]
    have h1 : (b.new_string player point).color = player := new_string_color b player point
    have h2 : t.color = player := ((mem_adjacent_same_color b player point t).mp ht).1
    simp [h1, h2]
  · rw [if_neg hqs]

theorem merge_board_get_point (b : Board) (player : Player) (point : Point) :
    (b.merge_board player point).get point = some player := by
  unfold Board.get
  rw [merge_board_grid, if_pos (new_string_point_mem b player point)]
  simp [new_string_color]

theorem merge_board_hash_ok (b : Board) (player : Player) (point : Point)
    (hwf : b.grid_wf) (hon : b.is_on_grid point = true)
    (hemp : b.grid point = none) (hok : hash_ok b) :
    hash_ok (b.merge_board player point) := by
  have hup := config_hash_update b (b.merge_board player point) rfl rfl point hon
    (merge_board_get b player point hwf)
  have hg : b.get point = none := by
    unfold Board.get
    rw [hemp]
    rfl
  unfold hash_ok at hok ⊢
  rw [merge_board_hash, hup, hok, merge_board_get_point, hg]
  simp [get_code, Nat.xor_assoc, Nat.xor_comm, nat_xor_left_comm, nat_xor_cancel_left,
    Nat.xor_self, Nat.xor_zero, Nat.zero_xor]

theorem merge_board_opposite_pristine (b : Board) (player : Player) (point : Point)
    (hwf : b.grid_wf) (hemp : b.grid point = none) :
    ∀ q t, b.grid q = some t → t.color ≠ player →
      (b.merge_board player point).grid q = some t := by
  intro q t hq htc
  rw [merge_board_grid, if_neg ?_]
  · exact hq
  · intro hqs
    by_cases hqp : q = point
    · rw [hqp, hemp] at hq
      cases hq
    · obtain ⟨u, hu, _, hgu⟩ := new_string_stone_cells b player point hwf q hqs hqp
      rw [hq] at hgu
      injection hgu with htu
      refine htc ?_
      rw [htu]
      exact ((mem_adjacent_same_color b player point u).mp hu).1

theorem merge_board_sep_wf (b : Board) (player : Player) (point : Point)
    (hwf : b.grid_wf) (hsep : b.sep_wf) (hon : b.is_on_grid point = true)
    (hemp : b.grid point = none) :
    (b.merge_board player point).sep_wf := by
  intro q u hq x hx n hn t ht htc
  rw [merge_board_grid] at hq ht
  rw [neighbor_list_congr b (b.merge_board player point) rfl rfl x] at hn
  by_cases hqs : q ∈ (b.new_string player point).stones
  · rw [if_pos hqs] at hq
    injection hq with hq'
    subst hq'
    by_cases hns : n ∈ (b.new_string player point).stones
    · rw [if_pos hns] at ht
      injection ht with ht'
      exact ht'.symm
    · rw [if_neg hns] at ht
      exfalso
      have htc' : t.color = player := by
        rw [htc]
        exact new_string_color b player point
      rcases eq_or_ne x point with rfl | hxp
      · have ht2 : t ∈ b.adjacent_same_color player x :=
          (mem_adjacent_same_color b player x t).mpr ⟨htc', n, hn, ht⟩
        exact hns (stones_sub_new_string b player x t ht2 n (hwf n t ht).2.1)
      · obtain ⟨f, hf, hxf, hgx⟩ := new_string_stone_cells b player point hwf x hx hxp
        have hff : f.color = player := ((mem_adjacent_same_color b player point f).mp hf).1
        have htf : t = f := hsep x f hgx x (hwf x f hgx).2.1 n hn t ht (by rw [htc', hff])
        refine hns (stones_sub_new_string b player point f hf n ?_)
        rw [← htf]
        exact (hwf n t ht).2.1
  · rw [if_neg hqs] at hq
    by_cases hns : n ∈ (b.new_string player point).stones
    · rw [if_pos hns] at ht
      injection ht with ht'
      exfalso
      have huc : u.color = player := by
        rw [← htc, ← ht']
        exact new_string_color b player point
      have hgx : b.grid x = some u := (hwf q u hq).2.2 x hx
      by_cases hnp : n = point
      · subst hnp
        have hu2 : u ∈ b.adjacent_same_color player n :=
          (mem_adjacent_same_color b player n u).mpr
            ⟨huc, x, mem_neighbor_list_symm b x n (hwf x u hgx).1 hn, hgx⟩
        exact hqs (stones_sub_new_string b player n u hu2 q (hwf q u hq).2.1)
      · obtain ⟨f, hf, hnf, hgn⟩ := new_string_stone_cells b player point hwf n hns hnp
        have hff : f.color = player := ((mem_adjacent_same_color b player point f).mp hf).1
        have hfu : f = u := hsep q u hq x hx n hn f hgn (by rw [hff, huc])
        refine hqs (stones_sub_new_string b player point f hf q ?_)
        rw [hfu]
        exact (hwf q u hq).2.1
    · rw [if_neg hns] at ht
      exact hsep q u hq x hx n hn t ht htc
theorem capture_fold_nil (point : Point) (bc : Board) :
    capture_fold point [] bc = bc := rfl

theorem capture_fold_cons (point : Point) (s : GoString) (ts : List GoString)
    (bc : Board) :
    capture_fold point (s :: ts) bc =
      capture_fold point ts
        (if (s.without_liberty point).num_liberties ≠ 0 then
          bc.replace_string (s.without_liberty point)
        else bc.remove_string s) := rfl

theorem replace_string_grid_wf (b : Board) (t t' : GoString) (hwf : b.grid_wf)
    (hcells : ∀ q ∈ t.stones, b.grid q = some t) (hst : t'.stones = t.stones) :
    (b.replace_string t').grid_wf := by
  intro q u hq
  rw [replace_string_grid] at hq
  by_cases hqs : q ∈ t'.stones
  · rw [if_pos hqs] at hq
    injection hq with hq'
    subst hq'
    refine ⟨?_, hqs, fun r hr => by rw [replace_string_grid, if_pos hr]⟩
    rw [is_on_grid_congr b (b.replace_string t') rfl rfl q]
    rw [hst] at hqs
    exact (hwf q t (hcells q hqs)).1
  · rw [if_neg hqs] at hq
    obtain ⟨hong, hqu, hcons⟩ := hwf q u hq
    refine ⟨by rw [is_on_grid_congr b (b.replace_string t') rfl rfl q]; exact hong, hqu, ?_⟩
    intro r hr
    rw [replace_string_grid, if_neg ?_]
    · exact hcons r hr
    · intro hrs
      rw [hst] at hrs hqs
      have h1 : b.grid r = some t := hcells r hrs
      have h2 : b.grid r = some u := hcons r hr
      rw [h1] at h2
      injection h2 with h3
      refine hqs ?_
      rw [h3]
      exact hqu

theorem removal_grid_wf (b0 : Board) (s : GoString) (b' : Board)
    (hinv : removal_inv b0 s s.stones b') (hwf : b0.grid_wf) : b'.grid_wf := by
  obtain ⟨hr, hc, _, hPn, _, hsurv, _, _, _⟩ := hinv
  intro q u hq
  by_cases hqs : q ∈ s.stones
  · rw [hPn q hqs] at hq
    cases hq
  · obtain ⟨t0, ht0, _, _, _, hqu, _, hcons⟩ := hsurv q u hqs hq
    exact ⟨by rw [is_on_grid_congr b0 b' hr hc q]; exact (hwf q t0 ht0).1, hqu, hcons⟩

theorem capture_fold_spec (player : Player) (point : Point) :
    ∀ (l : List GoString) (bc : Board),
      bc.grid_wf →
      (∀ s ∈ l, s.color ≠ player) →
      (∀ s ∈ l, ∀ q ∈ s.stones, bc.grid q = some s) →
      (∀ s ∈ l, ∀ x ∈ s.stones, ∀ n ∈ bc.neighbor_list x, ∀ t, bc.grid n = some t →
        t.color = s.color → t = s) →
      l.Nodup →
      (capture_fold point l bc).num_rows = bc.num_rows ∧
      (capture_fold point l bc).num_cols = bc.num_cols ∧
      (capture_fold point l bc).grid_wf ∧
      (hash_ok bc → hash_ok (capture_fold point l bc)) ∧
      (∀ s ∈ l, (s.without_liberty point).num_liberties = 0 →
        ∀ q ∈ s.stones, (capture_fold point l bc).grid q = none) ∧
      (∀ q, (capture_fold point l bc).grid q = none →
        bc.grid q = none ∨
          ∃ s ∈ l, (s.without_liberty point).num_liberties = 0 ∧ q ∈ s.stones) ∧
      (∀ q t', (capture_fold point l bc).grid q = some t' →
        ∃ t0, bc.grid q = some t0 ∧ t'.color = t0.color ∧ t'.stones = t0.stones ∧
          (t0.color = player → t0.liberties ⊆ t'.liberties)) ∧
      (∀ q, bc.grid q = none → (capture_fold point l bc).grid q = none) ∧
      ((∀ s ∈ l, (s.without_liberty point).num_liberties ≠ 0) →
        ∀ q t0, bc.grid q = some t0 → (∀ s ∈ l, t0 ≠ s) →
          (capture_fold point l bc).grid q = some t0) := by
  intro l
  induction l with
  | nil =>
    intro bc Hwf _ _ _ _
    exact ⟨rfl, rfl, Hwf, id, by simp, fun q h => Or.inl h,
      fun q t' h => ⟨t', h, rfl, rfl, fun _ => Finset.Subset.refl _⟩,
      fun q h => h, fun _ q t0 h _ => h⟩
  | cons s ts ih =>
    intro bc Hwf Hcol Hcells Hsep Hnd
    have hcellsS : ∀ q ∈ s.stones, bc.grid q = some s :=
      Hcells s (List.mem_cons_self s ts)
    have hSne : s ∉ ts := (List.nodup_cons.mp Hnd).1
    have hdisj : ∀ sk ∈ ts, ∀ q ∈ sk.stones, q ∉ s.stones := by
      intro sk hsk q hq hqs
      have h1 : bc.grid q = some sk := Hcells sk (List.mem_cons_of_mem s hsk) q hq
      have h2 : bc.grid q = some s := hcellsS q hqs
      rw [h1] at h2
      injection h2 with h3
      refine hSne ?_
      rw [← h3]
      exact hsk
    have Hcol' : ∀ sk ∈ ts, sk.color ≠ player :=
      fun sk hsk => Hcol sk (List.mem_cons_of_mem s hsk)
    have Hnd' : ts.Nodup := (List.nodup_cons.mp Hnd).2
    by_cases hc0 : (s.without_liberty point).num_liberties ≠ 0
    · rw [capture_fold_cons, if_pos hc0]
      have hgrid' : ∀ q, (bc.replace_string (s.without_liberty point)).grid q =
          if q ∈ s.stones then some (s.without_liberty point) else bc.grid q := by
        intro q
        rw [replace_string_grid, without_liberty_stones]
      have Hwf' : (bc.replace_string (s.without_liberty point)).grid_wf :=
        replace_string_grid_wf bc s (s.without_liberty point) Hwf hcellsS
          (without_liberty_stones s point)
      have Hcells' : ∀ sk ∈ ts, ∀ q ∈ sk.stones,
          (bc.replace_string (s.without_liberty point)).grid q = some sk := by
        intro sk hsk q hq
        rw [hgrid', if_neg (hdisj sk hsk q hq)]
        exact Hcells sk (List.mem_cons_of_mem s hsk) q hq
      have Hsep' : ∀ sk ∈ ts, ∀ x ∈ sk.stones,
          ∀ n ∈ (bc.replace_string (s.without_liberty point)).neighbor_list x,
          ∀ t, (bc.replace_string (s.without_liberty point)).grid n = some t →
          t.color = sk.color → t = sk := by
        intro sk hsk x hx n hn t ht htc
        rw [neighbor_list_congr bc (bc.replace_string (s.without_liberty point))
          rfl rfl x] at hn
        rw [hgrid'] at ht
        by_cases hns : n ∈ s.stones
        · rw [if_pos hns] at ht
          injection ht with ht'
          exfalso
          have hsc : s.color = sk.color := by
            rw [← htc, ← ht']
            rfl
          have hgn : bc.grid n = some s := hcellsS n hns
          have hssk : s = sk := Hsep sk (List.mem_cons_of_mem s hsk) x hx n hn s hgn hsc
          refine hSne ?_
          rw [hssk]
          exact hsk
        · rw [if_neg hns] at ht
          exact Hsep sk (List.mem_cons_of_mem s hsk) x hx n hn t ht htc
      obtain ⟨Q1, Q2, Q3, Q4, Q5, Q6, Q7, Q8, Q9⟩ :=
        ih (bc.replace_string (s.without_liberty point)) Hwf' Hcol' Hcells' Hsep' Hnd'
      refine ⟨Q1, Q2, Q3, ?_, ?_, ?_, ?_, ?_, ?_⟩
      · intro hok
        refine Q4 ?_
        unfold hash_ok at hok ⊢
        rw [replace_string_hash]
        rw [config_hash_congr bc (bc.replace_string (s.without_liberty point)) rfl rfl ?_]
        · exact hok
        · intro q _
          unfold Board.get
          rw [hgrid']
          by_cases hqs : q ∈ s.stones
          · rw [if_pos hqs, hcellsS q hqs]
            rfl
          · rw [if_neg hqs]
      · intro sk hsk h0 q hq
        rcases List.mem_cons.mp hsk with rfl | hsk'
        · exact absurd h0 hc0
        · exact Q5 sk hsk' h0 q hq
      · intro q hq
        rcases Q6 q hq with h | ⟨sk, hsk, h0, hqk⟩
        · rw [hgrid'] at h
          by_cases hqs : q ∈ s.stones
          · rw [if_pos hqs] at h
            cases h
          · rw [if_neg hqs] at h
            exact Or.inl h
        · exact Or.inr ⟨sk, List.mem_cons_of_mem s hsk, h0, hqk⟩
      · intro q t' hq
        obtain ⟨t1, hbc1, hcol1, hst1, himp1⟩ := Q7 q t' hq
        rw [hgrid'] at hbc1
        by_cases hqs : q ∈ s.stones
        · rw [if_pos hqs] at hbc1
          injection hbc1 with h1
          refine ⟨s, hcellsS q hqs, ?_, ?_, ?_⟩
          · rw [hcol1, ← h1]
            rfl
          · rw [hst1, ← h1]
            rfl
          · intro hcolS
            exact absurd hcolS (Hcol s (List.mem_cons_self s ts))
        · rw [if_neg hqs] at hbc1
          exact ⟨t1, hbc1, hcol1, hst1, himp1⟩
      · intro q hq
        refine Q8 q ?_
        rw [hgrid', if_neg ?_]
        · exact hq
        · intro hqs
          rw [hcellsS q hqs] at hq
          cases hq
      · intro hall q t0 hq hne
        refine Q9 (fun sk hsk => hall sk (List.mem_cons_of_mem s hsk)) q t0 ?_
          (fun sk hsk => hne sk (List.mem_cons_of_mem s hsk))
        rw [hgrid', if_neg ?_]
        · exact hq
        · intro hqs
          have h2 := hcellsS q hqs
          rw [hq] at h2
          injection h2 with h3
          exact hne s (List.mem_cons_self s ts) h3
    · have h0 : (s.without_liberty point).num_liberties = 0 := not_not.mp hc0
      rw [capture_fold_cons, if_neg hc0]
      have hongS : ∀ q ∈ s.stones, bc.is_on_grid q = true :=
        fun q hq => (Hwf q s (hcellsS q hq)).1
      obtain ⟨hri, hhok⟩ := remove_string_spec bc s Hwf hcellsS hongS
      have Hwf' : (bc.remove_string s).grid_wf :=
        removal_grid_wf bc s (bc.remove_string s) hri Hwf
      obtain ⟨hr, hcdim, _, hPn, _, hsurv, hempP, hoccP, hprot⟩ := hri
      have hprotk : ∀ sk ∈ ts, ∀ x ∈ sk.stones, ∀ m ∈ bc.neighbor_list x,
          m ∉ s.stones := by
        intro sk hsk x hx m hm hms
        have hgm : bc.grid m = some s := hcellsS m hms
        have hcc : s.color = sk.color :=
          player_eq_of_both_ne s.color sk.color player
            (Hcol s (List.mem_cons_self s ts)) (Hcol' sk hsk)
        have heq : s = sk := Hsep sk (List.mem_cons_of_mem s hsk) x hx m hm s hgm hcc
        refine hSne ?_
        rw [heq]
        exact hsk
      have Hcells' : ∀ sk ∈ ts, ∀ q ∈ sk.stones,
          (bc.remove_string s).grid q = some sk := by
        intro sk hsk q hq
        exact hprot q sk (hdisj sk hsk q hq)
          (Hcells sk (List.mem_cons_of_mem s hsk) q hq) (hprotk sk hsk)
      have Hsep' : ∀ sk ∈ ts, ∀ x ∈ sk.stones,
          ∀ n ∈ (bc.remove_string s).neighbor_list x,
          ∀ t, (bc.remove_string s).grid n = some t → t.color = sk.color → t = sk := by
        intro sk hsk x hx n hn t ht htc
        rw [neighbor_list_congr bc (bc.remove_string s) hr hcdim x] at hn
        by_cases hns : n ∈ s.stones
        · rw [hPn n hns] at ht
          cases ht
        · obtain ⟨t0, hbn, hcol0, hst0, _, hnt, _, _⟩ := hsurv n t hns ht
          have ht0k : t0 = sk := Hsep sk (List.mem_cons_of_mem s hsk) x hx n hn t0 hbn
            (by rw [← hcol0]; exact htc)
          have hnk : n ∈ sk.stones := by
            rw [← ht0k, ← hst0]
            exact hnt
          have hex := Hcells' sk hsk n hnk
          rw [ht] at hex
          exact Option.some_injective _ hex
      obtain ⟨Q1, Q2, Q3, Q4, Q5, Q6, Q7, Q8, Q9⟩ :=
        ih (bc.remove_string s) Hwf' Hcol' Hcells' Hsep' Hnd'
      refine ⟨Q1.trans hr, Q2.trans hcdim, Q3, ?_, ?_, ?_, ?_, ?_, ?_⟩
      · exact fun hok => Q4 (hhok hok)
      · intro sk hsk h0' q hq
        rcases List.mem_cons.mp hsk with rfl | hsk'
        · exact Q8 q (hPn q hq)
        · exact Q5 sk hsk' h0' q hq
      · intro q hq
        rcases Q6 q hq with h | ⟨sk, hsk, h0', hqk⟩
        · by_cases hqs : q ∈ s.stones
          · exact Or.inr ⟨s, List.mem_cons_self s ts, h0, hqs⟩
          · rcases hg : bc.grid q with _ | u
            · exact Or.inl rfl
            · exfalso
              have hiso : ((bc.remove_string s).grid q).isSome = true :=
                hoccP q hqs (by rw [hg]; rfl)
              rw [h] at hiso
              cases hiso
        · exact Or.inr ⟨sk, List.mem_cons_of_mem s hsk, h0', hqk⟩
      · intro q t' hq
        obtain ⟨t1, h1, hcol1, hst1, himp1⟩ := Q7 q t' hq
        by_cases hqs : q ∈ s.stones
        · rw [hPn q hqs] at h1
          cases h1
        · obtain ⟨t0, h0b, hcol0, hst0, hlib0, _, _, _⟩ := hsurv q t1 hqs h1
          refine ⟨t0, h0b, hcol1.trans hcol0, hst1.trans hst0, ?_⟩
          intro hp
          have hp1 : t1.color = player := by
            rw [hcol0]
            exact hp
          exact hlib0.trans (himp1 hp1)
      · intro q hq
        refine Q8 q ?_
        by_cases hqs : q ∈ s.stones
        · exact hPn q hqs
        · exact hempP q hqs hq
      · intro hall q t0 hq hne
        exact absurd h0 (hall s (List.mem_cons_self s ts))
theorem opposite_cells (b : Board) (player : Player) (point : Point)
    (hwf : b.grid_wf) :
    ∀ s ∈ b.adjacent_opposite_color player point, ∀ q ∈ s.stones,
      b.grid q = some s := by
  intro s hs q hq
  obtain ⟨_, n, _, hgn⟩ := (mem_adjacent_opposite_color b player point s).mp hs
  exact (hwf n s hgn).2.2 q hq

theorem place_stone_phase2 (b : Board) (player : Player) (point : Point)
    (hwf : b.grid_wf) (hsep : b.sep_wf) (hon : b.is_on_grid point = true)
    (hemp : b.grid point = none) :
    (b.place_stone player point).num_rows = b.num_rows ∧
    (b.place_stone player point).num_cols = b.num_cols ∧
    (b.place_stone player point).grid_wf ∧
    (hash_ok (b.merge_board player point) → hash_ok (b.place_stone player point)) ∧
    (∀ s ∈ b.adjacent_opposite_color player point,
      (s.without_liberty point).num_liberties = 0 →
      ∀ q ∈ s.stones, (b.place_stone player point).grid q = none) ∧
    (∀ q, (b.place_stone player point).grid q = none →
      (b.merge_board player point).grid q = none ∨
        ∃ s ∈ b.adjacent_opposite_color player point,
          (s.without_liberty point).num_liberties = 0 ∧ q ∈ s.stones) ∧
    (∀ q t', (b.place_stone player point).grid q = some t' →
      ∃ t0, (b.merge_board player point).grid q = some t0 ∧ t'.color = t0.color ∧
        t'.stones = t0.stones ∧ (t0.color = player → t0.liberties ⊆ t'.liberties)) ∧
    (∀ q, (b.merge_board player point).grid q = none →
      (b.place_stone player point).grid q = none) ∧
    ((∀ s ∈ b.adjacent_opposite_color player point,
        (s.without_liberty point).num_liberties ≠ 0) →
      ∀ q t0, (b.merge_board player point).grid q = some t0 →
        (∀ s ∈ b.adjacent_opposite_color player point, t0 ≠ s) →
        (b.place_stone player point).grid q = some t0) := by
  have Hcol : ∀ s ∈ b.adjacent_opposite_color player point, s.color ≠ player :=
    fun s hs => ((mem_adjacent_opposite_color b player point s).mp hs).1
  have Hcells : ∀ s ∈ b.adjacent_opposite_color player point, ∀ q ∈ s.stones,
      (b.merge_board player point).grid q = some s :=
    fun s hs q hq => merge_board_opposite_pristine b player point hwf hemp q s
      (opposite_cells b player point hwf s hs q hq) (Hcol s hs)
  have Hsep : ∀ s ∈ b.adjacent_opposite_color player point, ∀ x ∈ s.stones,
      ∀ n ∈ (b.merge_board player point).neighbor_list x, ∀ t,
      (b.merge_board player point).grid n = some t → t.color = s.color → t = s := by
    intro s hs x hx n hn t ht htc
    exact merge_board_sep_wf b player point hwf hsep hon hemp x s
      (Hcells s hs x hx) x hx n hn t ht htc
  exact capture_fold_spec player point (b.adjacent_opposite_color player point)
    (b.merge_board player point)
    (merge_board_grid_wf b player point hwf hon hemp) Hcol Hcells Hsep
    (nodup_collect_adjacent b point _)

theorem place_stone_master (b : Board) (player : Player) (point : Point)
    (hwf : b.grid_wf) (hsep : b.sep_wf) (hon : b.is_on_grid point = true)
    (hemp : b.grid point = none) :
    (b.place_stone player point).num_rows = b.num_rows ∧
    (b.place_stone player point).num_cols = b.num_cols ∧
    (b.place_stone player point).grid_wf ∧
    (b.place_stone player point).sep_wf ∧
    (hash_ok b → hash_ok (b.place_stone player point)) := by
  obtain ⟨P1, P2, P3, P4, _, _, P7, _, _⟩ :=
    place_stone_phase2 b player point hwf hsep hon hemp
  refine ⟨P1, P2, P3, ?_,
    fun hok => P4 (merge_board_hash_ok b player point hwf hon hemp hok)⟩
  intro q u hq x hx n hn t ht htc
  have hnm : n ∈ (b.merge_board player point).neighbor_list x := by
    rw [neighbor_list_congr (b.merge_board player point) (b.place_stone player point)
      P1 P2 x] at hn
    exact hn
  obtain ⟨u0, hqm, hcolu, hstu, _⟩ := P7 q u hq
  obtain ⟨t0, hnm2, hcolt, hstt, _⟩ := P7 n t ht
  have ht0u0 : t0 = u0 :=
    merge_board_sep_wf b player point hwf hsep hon hemp q u0 hqm x
      (by rw [← hstu]; exact hx) n hnm t0 hnm2 (by rw [← hcolt, htc, hcolu])
  have hqt : q ∈ t.stones := by
    rw [hstt, ht0u0, ← hstu]
    exact (P3 q u hq).2.1
  have hcq := (P3 n t ht).2.2 q hqt
  rw [hq] at hcq
  exact (Option.some_injective _ hcq).symm

theorem config_hash_of_all_empty (b : Board) (h : ∀ q, b.grid q = none) :
    config_hash b = 0 := by
  unfold config_hash
  have hgen : ∀ (l : List Point) (a : Nat),
      l.foldl (fun a q => a ^^^ cell_code b q) a = a := by
    intro l
    induction l with
    | nil => intro a; rfl
    | cons x xs ih =>
      intro a
      rw [List.foldl_cons, show cell_code b x = 0 from by unfold cell_code; rw [h x],
        Nat.xor_zero]
      exact ih a
  exact hgen _ 0

theorem reached_master (rows cols : Nat) (b : Board) (h : ReachedBoard rows cols b) :
    b.num_rows = rows ∧ b.num_cols = cols ∧ b.grid_wf ∧ b.sep_wf ∧ hash_ok b := by
  induction h with
  | init =>
    refine ⟨rfl, rfl, ?_, ?_, ?_⟩
    · intro q s hq
      simp [Board.empty] at hq
    · intro q s hq
      simp [Board.empty] at hq
    · unfold hash_ok
      rw [config_hash_of_all_empty _ (fun _ => rfl), Nat.xor_zero]
      rfl
  | step b player p hb hon hemp ih =>
    obtain ⟨hr, hc, hwf, hsep, hok⟩ := ih
    obtain ⟨P1, P2, P3, P4, P5⟩ := place_stone_master b player p hwf hsep hon hemp
    exact ⟨P1.trans hr, P2.trans hc, P3, P4, P5 hok⟩

/-- C4: the specification's literal hash formula (empty-board constant
xored with the occupant code of each occupied point) does not match the
implementation, which xors in both the empty code and the occupant code
of every occupied point: the two values already differ on a board with
one stone. -/
theorem c4_counterexample :
    oneStoneBoard.zobrist_hash ≠ claimed_position_hash oneStoneBoard := by
  decide

/-- C4 (amended): for every board reached by a sequence of
`place_stone` calls satisfying the source's asserts, the incrementally
maintained `zobrist_hash` equals the empty-board constant xored with
the per-point contribution of every occupied point, where each occupied
point contributes the xor of its empty code and its occupant code; in
particular any two reached boards with the same final stone
configuration have equal hashes, independent of placement order. -/
theorem c4_amended (rows cols : Nat) (b b2 : Board)
    (h : ReachedBoard rows cols b) (h2 : ReachedBoard rows cols b2)
    (hsame : ∀ q ∈ all_points_list rows cols, b.get q = b2.get q) :
    b.zobrist_hash = EMPTY_BOARD ^^^ config_hash b ∧
    b.zobrist_hash = b2.zobrist_hash := by
  obtain ⟨hr1, hc1, _, _, hok1⟩ := reached_master rows cols b h
  obtain ⟨hr2, hc2, _, _, hok2⟩ := reached_master rows cols b2 h2
  unfold hash_ok at hok1 hok2
  refine ⟨hok1, ?_⟩
  unfold Board.zobrist_hash
  rw [hok1, hok2]
  congr 1
  unfold config_hash
  rw [hr1, hc1, hr2, hc2]
  apply foldl_xor_congr
  intro q hq
  rw [cell_code_eq_get_code, cell_code_eq_get_code, hsame q hq]

/-- Witness for C4 (amended): the same two-stone position built in the
two possible orders satisfies the hash formula and yields equal hashes. -/
theorem c4_amended_witness :
    orderBoardA.zobrist_hash = EMPTY_BOARD ^^^ config_hash orderBoardA ∧
    orderBoardA.zobrist_hash = orderBoardB.zobrist_hash := by
  have hA : ReachedBoard 2 2 orderBoardA :=
    .step _ .white ⟨2, 2⟩ (.step _ .black ⟨1, 1⟩ .init (by decide) rfl)
      (by decide) (by decide)
  have hB : ReachedBoard 2 2 orderBoardB :=
    .step _ .black ⟨1, 1⟩ (.step _ .white ⟨2, 2⟩ .init (by decide) rfl)
      (by decide) (by decide)
  exact c4_amended 2 2 orderBoardA orderBoardB hA hB (by decide)
theorem is_self_capture_eq (b : Board) (player : Player) (point : Point) :
    b.is_self_capture player point =
      (if (b.neighbor_list point).any (fun n => (b.grid n).isNone) then false
       else if (b.neighbor_list point).any (fun n =>
          match b.grid n with
          | some t => (t.color != player) && (t.num_liberties == 1)
          | none => false) then false
       else ((b.neighbor_list point).filterMap (fun n =>
          match b.grid n with
          | some t => if t.color = player then some t else none
          | none => none)).all (fun t => t.num_liberties == 1)) := rfl

theorem is_self_capture_iff (b : Board) (player : Player) (point : Point) :
    b.is_self_capture player point = true ↔
      ((∀ n ∈ b.neighbor_list point, b.grid n ≠ none) ∧
       (∀ n ∈ b.neighbor_list point, ∀ t, b.grid n = some t →
          t.color ≠ player → t.num_liberties ≠ 1) ∧
       (∀ n ∈ b.neighbor_list point, ∀ t, b.grid n = some t → t.color = player →
          t.num_liberties = 1)) := by
  rw [is_self_capture_eq]
  by_cases hE : ((b.neighbor_list point).any (fun n => (b.grid n).isNone)) = true
  · rw [if_pos hE]
    constructor
    · intro h
      cases h
    · rintro ⟨h1, _, _⟩
      obtain ⟨n, hn, hno⟩ := List.any_eq_true.mp hE
      exact absurd (Option.isNone_iff_eq_none.mp hno) (h1 n hn)
  · rw [if_neg hE]
    have hE' : ∀ n ∈ b.neighbor_list point, b.grid n ≠ none := by
      intro n hn hgn
      exact hE (List.any_eq_true.mpr ⟨n, hn, by rw [hgn]; rfl⟩)
    by_cases hA : ((b.neighbor_list point).any (fun n =>
        match b.grid n with
        | some t => (t.color != player) && (t.num_liberties == 1)
        | none => false)) = true
    · rw [if_pos hA]
      constructor
      · intro h
        cases h
      · rintro ⟨_, h2, _⟩
        obtain ⟨n, hn, hAB⟩ := List.any_eq_true.mp hA
        rcases hg : b.grid n with _ | t
        · simp [hg] at hAB
        · simp [hg] at hAB
          exact absurd hAB.2 (h2 n hn t hg hAB.1)
    · rw [if_neg hA]
      have hA' : ∀ n ∈ b.neighbor_list point, ∀ t, b.grid n = some t →
          t.color ≠ player → t.num_liberties ≠ 1 := by
        intro n hn t hg hc h1
        refine hA (List.any_eq_true.mpr ⟨n, hn, ?_⟩)
        simp [hg, hc, h1]
      rw [List.all_eq_true]
      constructor
      · intro hF
        refine ⟨hE', hA', ?_⟩
        intro n hn t hg htc
        have hmem : t ∈ (b.neighbor_list point).filterMap (fun n =>
            match b.grid n with
            | some t => if t.color = player then some t else none
            | none => none) :=
          List.mem_filterMap.mpr ⟨n, hn, by simp [hg, htc]⟩
        simpa using hF t hmem
      · rintro ⟨_, _, h3⟩
        intro t hmem
        obtain ⟨n, hn, hfn⟩ := List.mem_filterMap.mp hmem
        rcases hg : b.grid n with _ | u
        · simp [hg] at hfn
        · simp [hg] at hfn
          obtain ⟨hcu, rfl⟩ := hfn
          simpa using h3 n hn u hg hcu

theorem will_capture_iff (b : Board) (player : Player) (point : Point) :
    b.will_capture player point = true ↔
      ∃ n ∈ b.neighbor_list point, ∃ t, b.grid n = some t ∧
        t.color ≠ player ∧ t.num_liberties = 1 := by
  unfold Board.will_capture
  rw [List.any_eq_true]
  constructor
  · rintro ⟨n, hn, hp⟩
    rcases hg : b.grid n with _ | t
    · simp [hg] at hp
    · simp [hg] at hp
      exact ⟨n, hn, t, hg, hp.1, hp.2⟩
  · rintro ⟨n, hn, t, hg, hc, h1⟩
    exact ⟨n, hn, by simp [hg, hc, h1]⟩

theorem adjacent_has_point_liberty (b : Board) (point : Point)
    (hwf : b.grid_wf) (hlib : b.lib_wf) (hon : b.is_on_grid point = true)
    (hemp : b.grid point = none) :
    ∀ n ∈ b.neighbor_list point, ∀ t, b.grid n = some t → point ∈ t.liberties := by
  intro n hn t hg
  rw [hlib n t hg point]
  exact ⟨hon, hemp, n, (hwf n t hg).2.1,
    List.mem_of_mem_filter (mem_neighbor_list_symm b point n hon hn)⟩

theorem new_string_liberties_empty (b : Board) (player : Player) (point : Point)
    (hwf : b.grid_wf) (hlib : b.lib_wf) (hon : b.is_on_grid point = true)
    (hemp : b.grid point = none)
    (hE : ∀ n ∈ b.neighbor_list point, b.grid n ≠ none)
    (hF : ∀ n ∈ b.neighbor_list point, ∀ t, b.grid n = some t → t.color = player →
      t.num_liberties = 1) :
    (b.new_string player point).liberties = ∅ := by
  apply Finset.eq_empty_iff_forall_not_mem.mpr
  intro m hm
  rw [new_string_mem_liberties] at hm
  obtain ⟨hsrc, hnotst⟩ := hm
  rcases hsrc with hln | ⟨t, ht, hmt⟩
  · unfold Board.liberty_neighbors at hln
    rw [List.mem_filter] at hln
    exact hE m hln.1 (Option.isNone_iff_eq_none.mp hln.2)
  · obtain ⟨htc, n, hn, hgn⟩ := (mem_adjacent_same_color b player point t).mp ht
    have hpt : point ∈ t.liberties :=
      adjacent_has_point_liberty b point hwf hlib hon hemp n hn t hgn
    have h1 : t.num_liberties = 1 := hF n hn t hgn htc
    unfold GoString.num_liberties at h1
    obtain ⟨a, ha⟩ := Finset.card_eq_one.mp h1
    rw [ha, Finset.mem_singleton] at hpt hmt
    refine hnotst ?_
    rw [hmt, ← hpt]
    exact new_string_point_mem b player point

/-- C5: under the data-model invariants, for an empty on-grid point the
`is_self_capture` test returns true exactly when the placement would
leave the merged group at the point with an empty liberty set while
emptying no occupied cell; in particular the test returns false
whenever some adjacent opposite-color string has exactly one liberty
(the play would capture). -/
theorem c5_self_capture (b : Board) (player : Player) (point : Point)
    (hwf : b.grid_wf) (hsep : b.sep_wf) (hlib : b.lib_wf)
    (hon : b.is_on_grid point = true) (hemp : b.grid point = none) :
    (b.is_self_capture player point = true ↔
      (leaves_no_liberty b player point ∧ captures_nothing b player point)) ∧
    (b.will_capture player point = true →
      b.is_self_capture player point = false) := by
  obtain ⟨Prow, Pcol, Pwf, Phash, Prem, Pnonechar, Psurv, Pnonepres, Pexact⟩ :=
    place_stone_phase2 b player point hwf hsep hon hemp
  have hmergept : (b.merge_board player point).grid point =
      some (b.new_string player point) := by
    rw [merge_board_grid, if_pos (new_string_point_mem b player point)]
  constructor
  · rw [is_self_capture_iff]
    constructor
    · rintro ⟨h1, h2, h3⟩
      have hnorem : ∀ s ∈ b.adjacent_opposite_color player point,
          (s.without_liberty point).num_liberties ≠ 0 := by
        intro s hs
        obtain ⟨hsc, n, hn, hgn⟩ := (mem_adjacent_opposite_color b player point s).mp hs
        have hpt : point ∈ s.liberties :=
          adjacent_has_point_liberty b point hwf hlib hon hemp n hn s hgn
        have hge1 : 0 < s.liberties.card := Finset.card_pos.mpr ⟨point, hpt⟩
        have hne1 : s.num_liberties ≠ 1 := h2 n hn s hgn hsc
        have hcard : (s.without_liberty point).num_liberties = s.liberties.card - 1 := by
          unfold GoString.num_liberties
          rw [without_liberty_liberties, Finset.card_erase_of_mem hpt]
        unfold GoString.num_liberties at hne1
        rw [hcard]
        omega
      have hcap : captures_nothing b player point := by
        intro q hq
        rcases hres : (b.place_stone player point).grid q with _ | u
        · exfalso
          rcases Pnonechar q hres with hmn | ⟨s, hs, h0, _⟩
          · rw [merge_board_grid] at hmn
            by_cases hqns : q ∈ (b.new_string player point).stones
            · rw [if_pos hqns] at hmn
              cases hmn
            · rw [if_neg hqns] at hmn
              rw [hmn] at hq
              cases hq
          · exact hnorem s hs h0
        · rfl
      have hnsnotin : ∀ s ∈ b.adjacent_opposite_color player point,
          b.new_string player point ≠ s := by
        intro s hs heq
        have hc1 : (b.new_string player point).color = player :=
          new_string_color b player point
        rw [heq] at hc1
        exact ((mem_adjacent_opposite_color b player point s).mp hs).1 hc1
      refine ⟨⟨b.new_string player point,
        Pexact hnorem point _ hmergept hnsnotin,
        new_string_liberties_empty b player point hwf hlib hon hemp h1 h3⟩, hcap⟩
    · rintro ⟨hleav, hcapn⟩
      obtain ⟨s, hres, hlibs⟩ := hleav
      obtain ⟨t0, hm0, _, _, himp0⟩ := Psurv point s hres
      rw [hmergept] at hm0
      injection hm0 with h0eq
      have hsub : (b.new_string player point).liberties ⊆ s.liberties := by
        rw [h0eq]
        refine himp0 ?_
        rw [← h0eq]
        exact new_string_color b player point
      refine ⟨?_, ?_, ?_⟩
      · intro n hn hgn
        have hne : n ∈ (b.new_string player point).liberties := by
          rw [new_string_mem_liberties]
          refine ⟨Or.inl ?_, ?_⟩
          · unfold Board.liberty_neighbors
            rw [List.mem_filter]
            exact ⟨hn, by rw [hgn]; rfl⟩
          · intro hns
            by_cases hnp : n = point
            · exact self_not_mem_neighbor_list b point (hnp ▸ hn)
            · obtain ⟨t, _, _, hgt⟩ := new_string_stone_cells b player point hwf n hns hnp
              rw [hgn] at hgt
              cases hgt
        exact Finset.not_mem_empty n (hlibs ▸ hsub hne)
      · intro n hn t hgt htc h1t
        have htadj : t ∈ b.adjacent_opposite_color player point :=
          (mem_adjacent_opposite_color b player point t).mpr ⟨htc, n, hn, hgt⟩
        have hpt : point ∈ t.liberties :=
          adjacent_has_point_liberty b point hwf hlib hon hemp n hn t hgt
        have h0 : (t.without_liberty point).num_liberties = 0 := by
          unfold GoString.num_liberties
          rw [without_liberty_liberties, Finset.card_erase_of_mem hpt]
          unfold GoString.num_liberties at h1t
          omega
        have hng : (b.place_stone player point).grid n = none :=
          Prem t htadj h0 n (hwf n t hgt).2.1
        have hqs := hcapn n (by rw [hgt]; rfl)
        rw [hng] at hqs
        cases hqs
      · intro n hn t hgt htc
        by_contra hne1
        have hpt : point ∈ t.liberties :=
          adjacent_has_point_liberty b point hwf hlib hon hemp n hn t hgt
        have hge : 0 < t.liberties.card := Finset.card_pos.mpr ⟨point, hpt⟩
        have hgt2 : 1 < t.liberties.card := by
          unfold GoString.num_liberties at hne1
          omega
        obtain ⟨m, hm, hmp⟩ := Finset.exists_ne_of_one_lt_card hgt2 point
        have hmns : m ∈ (b.new_string player point).liberties := by
          rw [new_string_mem_liberties]
          refine ⟨Or.inr ⟨t,
            (mem_adjacent_same_color b player point t).mpr ⟨htc, n, hn, hgt⟩, hm⟩, ?_⟩
          have hgm : b.grid m = none := ((hlib n t hgt m).mp hm).2.1
          intro hms
          by_cases hmp2 : m = point
          · exact hmp hmp2
          · obtain ⟨u, _, _, hgu⟩ := new_string_stone_cells b player point hwf m hms hmp2
            rw [hgm] at hgu
            cases hgu
        exact Finset.not_mem_empty m (hlibs ▸ hsub hmns)
  · intro hwc
    obtain ⟨n, hn, t, hg, hc1, h11⟩ := (will_capture_iff b player point).mp hwc
    cases hsc : b.is_self_capture player point
    · rfl
    · exfalso
      obtain ⟨_, h2, _⟩ := (is_self_capture_iff b player point).mp hsc
      exact h2 n hn t hg hc1 h11

/-- Witness for C5: applying the characterization on a 1x1 board, whose
only point has no on-grid neighbors, so the play is a self-capture. -/
theorem c5_witness :
    leaves_no_liberty (Board.empty 1 1) .black ⟨1, 1⟩ ∧
    captures_nothing (Board.empty 1 1) .black ⟨1, 1⟩ := by
  have hwf : (Board.empty 1 1).grid_wf := by
    intro q s hq
    simp [Board.empty] at hq
  have hsep : (Board.empty 1 1).sep_wf := by
    intro q s hq
    simp [Board.empty] at hq
  have hlib : (Board.empty 1 1).lib_wf := by
    intro q s hq
    simp [Board.empty] at hq
  exact ((c5_self_capture (Board.empty 1 1) .black ⟨1, 1⟩ hwf hsep hlib
    (by decide) rfl).1).mp (by decide)
theorem collect_region_zero (b : Board) (p : Point) (V : Finset Point) :
    collect_region b 0 p V = ([], ∅, V) := rfl

theorem collect_region_succ (b : Board) (fuel : Nat) (p : Point) (V : Finset Point) :
    collect_region b (fuel + 1) p V =
      if !(b.is_on_grid p) || p ∈ V then ([], ∅, V)
      else
        region_step b (b.get p) (collect_region b fuel) ⟨p.row, p.col + 1⟩
          (region_step b (b.get p) (collect_region b fuel) ⟨p.row, p.col - 1⟩
            (region_step b (b.get p) (collect_region b fuel) ⟨p.row + 1, p.col⟩
              (region_step b (b.get p) (collect_region b fuel) ⟨p.row - 1, p.col⟩
                ([p], ∅, insert p V)))) := rfl

theorem mem_grid_points (b : Board) (q : Point) :
    q ∈ grid_points b ↔ b.is_on_grid q = true := by
  unfold grid_points
  rw [List.mem_toFinset]
  exact mem_all_points_iff_on_grid b q

theorem reach_mono (b : Board) (here : Option Player) (V V' : Finset Point)
    (h : V ⊆ V') (x y : Point) (hr : region_reach_avoid b here V' x y) :
    region_reach_avoid b here V x y :=
  Relation.ReflTransGen.mono
    (fun _ _ hs => ⟨hs.1, fun hm => hs.2.1 (h hm), fun hm => hs.2.2 (h hm)⟩) hr

theorem region_step_ok (b : Board) (fuel : Nat) (p : Point) (V : Finset Point)
    (hIH : ∀ (x : Point) (W : Finset Point), (grid_points b \ W).card ≤ fuel →
      ((b.is_on_grid x = true ∧ x ∉ W) →
        collect_region_ok b x W (collect_region b fuel x W)) ∧
      (¬(b.is_on_grid x = true ∧ x ∉ W) →
        collect_region b fuel x W = ([], ∅, W)))
    (hcard : (grid_points b \ V).card ≤ fuel + 1)
    (hon : b.is_on_grid p = true) (hpV : p ∉ V)
    (n : Point) (hn : n ∈ p.neighbors)
    (a : List Point × Finset (Option Player) × Finset Point)
    (hW : a.2.2 = V ∪ a.1.toFinset)
    (hpm : p ∈ a.1)
    (hsound : ∀ q ∈ a.1, region_reach_avoid b (b.get p) V p q)
    (hbord : ∀ v ∈ a.2.1, ∃ x ∈ a.1, ∃ m ∈ x.neighbors, b.is_on_grid m = true ∧
      b.get m = v ∧ v ≠ b.get p)
    (hsubcl : ∀ x ∈ a.1, x ≠ p → ∀ m ∈ x.neighbors, b.is_on_grid m = true →
      b.get m = b.get p → m ∈ a.2.2)
    (hsubbd : ∀ x ∈ a.1, x ≠ p → ∀ m ∈ x.neighbors, b.is_on_grid m = true →
      b.get m ≠ b.get p → b.get m ∈ a.2.1)
    (a' : List Point × Finset (Option Player) × Finset Point)
    (ha' : a' = region_step b (b.get p) (collect_region b fuel) n a) :
    a'.2.2 = V ∪ a'.1.toFinset ∧
    p ∈ a'.1 ∧
    (∀ q ∈ a'.1, region_reach_avoid b (b.get p) V p q) ∧
    (∀ v ∈ a'.2.1, ∃ x ∈ a'.1, ∃ m ∈ x.neighbors, b.is_on_grid m = true ∧
      b.get m = v ∧ v ≠ b.get p) ∧
    (∀ x ∈ a'.1, x ≠ p → ∀ m ∈ x.neighbors, b.is_on_grid m = true →
      b.get m = b.get p → m ∈ a'.2.2) ∧
    (∀ x ∈ a'.1, x ≠ p → ∀ m ∈ x.neighbors, b.is_on_grid m = true →
      b.get m ≠ b.get p → b.get m ∈ a'.2.1) ∧
    (∀ q ∈ a.1, q ∈ a'.1) ∧
    (∀ v ∈ a.2.1, v ∈ a'.2.1) ∧
    a.2.2 ⊆ a'.2.2 ∧
    (b.is_on_grid n = true → b.get n = b.get p → n ∈ a'.2.2) ∧
    (b.is_on_grid n = true → b.get n ≠ b.get p → b.get n ∈ a'.2.1) := by
  by_cases hgn : b.is_on_grid n = true
  · by_cases hv : b.get n = b.get p
    · have ha'2 : a' = (a.1 ++ (collect_region b fuel n a.2.2).1,
          a.2.1 ∪ (collect_region b fuel n a.2.2).2.1,
          (collect_region b fuel n a.2.2).2.2) := by
        rw [ha']
        unfold region_step
        rw [if_pos hgn, if_pos hv]
      have hsubV : insert p V ⊆ a.2.2 := by
        rw [hW]
        intro z hz
        rcases Finset.mem_insert.mp hz with rfl | hzV
        · exact Finset.mem_union_right _ (List.mem_toFinset.mpr hpm)
        · exact Finset.mem_union_left _ hzV
      have hVsub : V ⊆ a.2.2 := fun z hz => hsubV (Finset.mem_insert_of_mem hz)
      have hpgV : p ∈ grid_points b \ V :=
        Finset.mem_sdiff.mpr ⟨(mem_grid_points b p).mpr hon, hpV⟩
      have hcard' : (grid_points b \ a.2.2).card ≤ fuel := by
        have hsub2 : grid_points b \ a.2.2 ⊆ (grid_points b \ V).erase p := by
          intro z hz
          obtain ⟨hzg, hza⟩ := Finset.mem_sdiff.mp hz
          refine Finset.mem_erase.mpr ⟨?_, Finset.mem_sdiff.mpr ⟨hzg, ?_⟩⟩
          · intro hzp
            exact hza (hsubV (hzp ▸ Finset.mem_insert_self p V))
          · intro hzV
            exact hza (hVsub hzV)
        have h1 := Finset.card_le_card hsub2
        rw [Finset.card_erase_of_mem hpgV] at h1
        omega
      rcases hIH n a.2.2 hcard' with ⟨hok, hfail⟩
      by_cases hnV : n ∈ a.2.2
      · have heq : collect_region b fuel n a.2.2 = ([], ∅, a.2.2) :=
          hfail (fun hcon => hcon.2 hnV)
        rw [heq] at ha'2
        have ha4 : a' = a := by
          rw [ha'2]
          simp
        subst ha4
        refine ⟨hW, hpm, hsound, hbord, hsubcl, hsubbd, fun q h => h, fun v h => h,
          Finset.Subset.refl _, ?_, ?_⟩
        · intro _ _
          exact hnV
        · intro _ hvne
          exact absurd hv hvne
      · obtain ⟨sW, smem, ssound, sclos, sbord, sbordc⟩ := hok ⟨hgn, hnV⟩
        rw [hv] at ssound sclos sbord sbordc
        have hedge : ∀ q, region_reach_avoid b (b.get p) a.2.2 n q →
            region_reach_avoid b (b.get p) V p q := by
          intro q hq
          refine Relation.ReflTransGen.head ⟨⟨hon, hgn, hn, rfl, hv⟩, hpV, ?_⟩
            (reach_mono b _ V a.2.2 hVsub n q hq)
          exact fun hnV2 => hnV (hVsub hnV2)
        rw [ha'2]
        refine ⟨?_, List.mem_append_left _ hpm, ?_, ?_, ?_, ?_, ?_, ?_, ?_, ?_, ?_⟩
        · show (collect_region b fuel n a.2.2).2.2 = _
          rw [sW, hW, List.toFinset_append, Finset.union_assoc]
        · intro q hq
          rcases List.mem_append.mp hq with h | h
          · exact hsound q h
          · exact hedge q (ssound q h)
        · intro v hv2
          rcases Finset.mem_union.mp hv2 with h | h
          · obtain ⟨x, hx, m, hm, ho, hg, hne⟩ := hbord v h
            exact ⟨x, List.mem_append_left _ hx, m, hm, ho, hg, hne⟩
          · obtain ⟨x, hx, m, hm, ho, hg, hne⟩ := sbord v h
            exact ⟨x, List.mem_append_right _ hx, m, hm, ho, hg, hne⟩
        · intro x hx hxp m hm ho hg
          show m ∈ (collect_region b fuel n a.2.2).2.2
          rcases List.mem_append.mp hx with h | h
          · rw [sW]
            exact Finset.mem_union_left _ (hsubcl x h hxp m hm ho hg)
          · exact sclos x h m hm ho hg
        · intro x hx hxp m hm ho hg
          show b.get m ∈ a.2.1 ∪ (collect_region b fuel n a.2.2).2.1
          rcases List.mem_append.mp hx with h | h
          · exact Finset.mem_union_left _ (hsubbd x h hxp m hm ho hg)
          · exact Finset.mem_union_right _ (sbordc x h m hm ho hg)
        · intro q hq
          exact List.mem_append_left _ hq
        · intro v hv2
          exact Finset.mem_union_left _ hv2
        · show a.2.2 ⊆ (collect_region b fuel n a.2.2).2.2
          rw [sW]
          exact Finset.subset_union_left
        · intro _ _
          show n ∈ (collect_region b fuel n a.2.2).2.2
          rw [sW]
          exact Finset.mem_union_right _ (List.mem_toFinset.mpr smem)
        · intro _ hne
          exact absurd hv hne
    · have ha'2 : a' = (a.1, insert (b.get n) a.2.1, a.2.2) := by
        rw [ha']
        unfold region_step
        rw [if_pos hgn, if_neg hv]
      rw [ha'2]
      refine ⟨hW, hpm, hsound, ?_, hsubcl,
        fun x hx hxp m hm ho hg => Finset.mem_insert_of_mem (hsubbd x hx hxp m hm ho hg),
        fun q h => h,
        fun v hv2 => Finset.mem_insert_of_mem hv2, Finset.Subset.refl _, ?_, ?_⟩
      · intro v hv2
        rcases Finset.mem_insert.mp hv2 with rfl | hv3
        · exact ⟨p, hpm, n, hn, hgn, rfl, hv⟩
        · exact hbord v hv3
      · intro _ hsame
        exact absurd hsame hv
      · intro _ _
        exact Finset.mem_insert_self _ _
  · have ha'2 : a' = a := by
      rw [ha']
      unfold region_step
      rw [if_neg hgn]
    subst ha'2
    exact ⟨hW, hpm, hsound, hbord, hsubcl, hsubbd, fun q h => h, fun v h => h,
      Finset.Subset.refl _, fun hgn2 _ => absurd hgn2 hgn,
      fun hgn2 _ => absurd hgn2 hgn⟩
theorem collect_region_spec (b : Board) : ∀ (fuel : Nat) (p : Point) (V : Finset Point),
    (grid_points b \ V).card ≤ fuel →
    ((b.is_on_grid p = true ∧ p ∉ V) →
      collect_region_ok b p V (collect_region b fuel p V)) ∧
    (¬(b.is_on_grid p = true ∧ p ∉ V) → collect_region b fuel p V = ([], ∅, V)) := by
  intro fuel
  induction fuel with
  | zero =>
    intro p V hcard
    constructor
    · rintro ⟨hon, hpV⟩
      exfalso
      have hmem : p ∈ grid_points b \ V :=
        Finset.mem_sdiff.mpr ⟨(mem_grid_points b p).mpr hon, hpV⟩
      have hpos := Finset.card_pos.mpr ⟨p, hmem⟩
      omega
    · intro _
      rfl
  | succ fuel ih =>
    intro p V hcard
    constructor
    · rintro ⟨hon, hpV⟩
      rw [collect_region_succ, if_neg (by simp [hon, hpV])]
      have hW0 : (insert p V : Finset Point) = V ∪ ([p] : List Point).toFinset := by
        ext z
        simp [or_comm]
      have hpm0 : p ∈ ([p] : List Point) := by simp
      have hsound0 : ∀ q ∈ ([p] : List Point),
          region_reach_avoid b (b.get p) V p q := by
        intro q hq
        obtain rfl : q = p := by simpa using hq
        exact Relation.ReflTransGen.refl
      have hbord0 : ∀ v ∈ (∅ : Finset (Option Player)), ∃ x ∈ ([p] : List Point),
          ∃ m ∈ x.neighbors, b.is_on_grid m = true ∧ b.get m = v ∧ v ≠ b.get p := by
        intro v hv
        cases hv
      have hsubcl0 : ∀ x ∈ ([p] : List Point), x ≠ p → ∀ m ∈ x.neighbors,
          b.is_on_grid m = true → b.get m = b.get p → m ∈ (insert p V : Finset Point) := by
        intro x hx hxp
        obtain rfl : x = p := by simpa using hx
        exact absurd rfl hxp
      have hsubbd0 : ∀ x ∈ ([p] : List Point), x ≠ p → ∀ m ∈ x.neighbors,
          b.is_on_grid m = true → b.get m ≠ b.get p →
          b.get m ∈ (∅ : Finset (Option Player)) := by
        intro x hx hxp
        obtain rfl : x = p := by simpa using hx
        exact absurd rfl hxp
      obtain ⟨W1, P1, S1, Bo1, Cl1, Bd1, L1, Q1, V1, Rs1, Rd1⟩ :=
        region_step_ok b fuel p V ih hcard hon hpV ⟨p.row - 1, p.col⟩
          (by simp [Point.neighbors]) ([p], ∅, insert p V)
          hW0 hpm0 hsound0 hbord0 hsubcl0 hsubbd0 _ rfl
      obtain ⟨W2, P2, S2, Bo2, Cl2, Bd2, L2, Q2, V2, Rs2, Rd2⟩ :=
        region_step_ok b fuel p V ih hcard hon hpV ⟨p.row + 1, p.col⟩
          (by simp [Point.neighbors]) _ W1 P1 S1 Bo1 Cl1 Bd1 _ rfl
      obtain ⟨W3, P3, S3, Bo3, Cl3, Bd3, L3, Q3, V3, Rs3, Rd3⟩ :=
        region_step_ok b fuel p V ih hcard hon hpV ⟨p.row, p.col - 1⟩
          (by simp [Point.neighbors]) _ W2 P2 S2 Bo2 Cl2 Bd2 _ rfl
      obtain ⟨W4, P4, S4, Bo4, Cl4, Bd4, L4, Q4, V4, Rs4, Rd4⟩ :=
        region_step_ok b fuel p V ih hcard hon hpV ⟨p.row, p.col + 1⟩
          (by simp [Point.neighbors]) _ W3 P3 S3 Bo3 Cl3 Bd3 _ rfl
      refine ⟨W4, P4, S4, ?_, Bo4, ?_⟩
      · intro x hx m hm ho hg
        by_cases hxp : x = p
        · subst hxp
          simp only [Point.neighbors, List.mem_cons, List.not_mem_nil, or_false] at hm
          rcases hm with rfl | rfl | rfl | rfl
          · exact V4 (V3 (V2 (Rs1 ho hg)))
          · exact V4 (V3 (Rs2 ho hg))
          · exact V4 (Rs3 ho hg)
          · exact Rs4 ho hg
        · exact Cl4 x hx hxp m hm ho hg
      · intro x hx m hm ho hg
        by_cases hxp : x = p
        · subst hxp
          simp only [Point.neighbors, List.mem_cons, List.not_mem_nil, or_false] at hm
          rcases hm with rfl | rfl | rfl | rfl
          · exact Q4 _ (Q3 _ (Q2 _ (Rd1 ho hg)))
          · exact Q4 _ (Q3 _ (Rd2 ho hg))
          · exact Q4 _ (Rd3 ho hg)
          · exact Rd4 ho hg
        · exact Bd4 x hx hxp m hm ho hg
    · intro hcon
      rw [collect_region_succ, if_pos ?_]
      by_cases hon : b.is_on_grid p = true
      · have hpV : p ∈ V := by
          by_contra hc
          exact hcon ⟨hon, hc⟩
        simp [hpV]
      · have hfalse : b.is_on_grid p = false := by
          revert hon
          cases b.is_on_grid p <;> simp
        simp [hfalse]

theorem collect_region_chars (b : Board) (fuel : Nat) (p : Point) (V : Finset Point)
    (hcard : (grid_points b \ V).card ≤ fuel)
    (hon : b.is_on_grid p = true) (hpV : p ∉ V) :
    (∀ q, q ∈ (collect_region b fuel p V).1 ↔
      region_reach_avoid b (b.get p) V p q) ∧
    (∀ v, v ∈ (collect_region b fuel p V).2.1 ↔
      ∃ x, region_reach_avoid b (b.get p) V p x ∧ ∃ m ∈ x.neighbors,
        b.is_on_grid m = true ∧ b.get m = v ∧ v ≠ b.get p) := by
  obtain ⟨hok, _⟩ := collect_region_spec b fuel p V hcard
  obtain ⟨hW, hpm, hsound, hclos, hbord, hbordc⟩ := hok ⟨hon, hpV⟩
  have hcompl : ∀ q, region_reach_avoid b (b.get p) V p q →
      q ∈ (collect_region b fuel p V).1 := by
    intro q hq
    induction hq with
    | refl => exact hpm
    | tail _ hstep ih =>
      obtain ⟨⟨_, hoy, hyn, _, hgy⟩, _, hyV⟩ := hstep
      have hmem := hclos _ ih _ hyn hoy hgy
      rw [hW] at hmem
      rcases Finset.mem_union.mp hmem with h | h
      · exact absurd h hyV
      · exact List.mem_toFinset.mp h
  constructor
  · intro q
    exact ⟨fun h => hsound q h, hcompl q⟩
  · intro v
    constructor
    · intro hv
      obtain ⟨x, hx, m, hm, ho, hg, hne⟩ := hbord v hv
      exact ⟨x, hsound x hx, m, hm, ho, hg, hne⟩
    · rintro ⟨x, hx, m, hm, ho, hg, hne⟩
      have hres := hbordc x (hcompl x hx) m hm ho (by rw [hg]; exact hne)
      rw [hg] at hres
      exact hres

theorem region_adj_symm (b : Board) (here : Option Player) (x y : Point)
    (h : region_adj b here x y) : region_adj b here y x := by
  obtain ⟨hox, hoy, hyn, hgx, hgy⟩ := h
  refine ⟨hoy, hox, ?_, hgy, hgx⟩
  have h1 : y ∈ b.neighbor_list x := by
    unfold Board.neighbor_list
    rw [List.mem_filter]
    exact ⟨hyn, hoy⟩
  exact List.mem_of_mem_filter (mem_neighbor_list_symm b x y hox h1)

theorem empty_conn_refl (b : Board) (x : Point) : empty_conn b x x :=
  Relation.ReflTransGen.refl

theorem empty_conn_symm (b : Board) (x y : Point) (h : empty_conn b x y) :
    empty_conn b y x :=
  Relation.ReflTransGen.symmetric
    (fun u v huv => ⟨region_adj_symm b none u v huv.1, huv.2.2, huv.2.1⟩) h

theorem empty_conn_trans (b : Board) (x y z : Point) (h1 : empty_conn b x y)
    (h2 : empty_conn b y z) : empty_conn b x z :=
  Relation.ReflTransGen.trans h1 h2

theorem length_all_points_list (rows cols : Nat) :
    (all_points_list rows cols).length = rows * cols := by
  unfold all_points_list
  induction rows with
  | zero => simp
  | succ k ih =>
    rw [List.range_succ, List.flatMap_append, List.length_append, ih]
    simp [Nat.succ_mul]

theorem card_grid_points (b : Board) :
    (grid_points b).card ≤ b.num_rows * b.num_cols := by
  unfold grid_points
  calc (all_points_list b.num_rows b.num_cols).toFinset.card
      ≤ (all_points_list b.num_rows b.num_cols).length := List.toFinset_card_le _
    _ = b.num_rows * b.num_cols := length_all_points_list _ _
theorem reach_target (b : Board) (here : Option Player) (V : Finset Point)
    (x y : Point) (h : region_reach_avoid b here V x y) :
    y = x ∨ (b.is_on_grid y = true ∧ b.get y = here) := by
  induction h with
  | refl => exact Or.inl rfl
  | tail _ hstep _ =>
    obtain ⟨⟨_, hoy, _, _, hgy⟩, _, _⟩ := hstep
    exact Or.inr ⟨hoy, hgy⟩

theorem lookup_append (l1 l2 : List (Point × TerrStatus)) (q : Point) :
    (l1 ++ l2).lookup q = ((l1.lookup q).or (l2.lookup q)) := by
  induction l1 with
  | nil => simp [List.lookup]
  | cons e l ih =>
    rcases e with ⟨k, v⟩
    cases hk : (q == k)
    · simp [List.lookup, hk, ih]
    · simp [List.lookup, hk]

theorem lookup_map_const (l : List Point) (st : TerrStatus) (q : Point) :
    (l.map (fun x => (x, st))).lookup q = if q ∈ l then some st else none := by
  induction l with
  | nil => simp
  | cons x xs ih =>
    simp only [List.map_cons]
    cases hx : (q == x)
    · have hne : ¬(q = x) := by
        intro h
        rw [h] at hx
        simp at hx
      simp [List.lookup, hx, ih, hne]
    · have heq : q = x := by simpa using hx
      subst heq
      simp [List.lookup, hx]

theorem evaluate_territory_status_eq (b : Board) :
    evaluate_territory_status b =
      (all_points_list b.num_rows b.num_cols).foldl (fun status p =>
        if (status.lookup p).isSome then status
        else
          match b.get p with
          | some c => status ++ [(p, TerrStatus.occupied c)]
          | none =>
            status ++ (collect_region b (b.num_rows * b.num_cols) p ∅).1.map
              (fun q => (q, territory_fill
                (collect_region b (b.num_rows * b.num_cols) p ∅).2.1))) [] := rfl

theorem territory_fold_spec (b : Board) :
    ∀ (rest : List Point), ∀ (processed : List Point)
      (status : List (Point × TerrStatus)),
    (∀ q ∈ rest, b.is_on_grid q = true) →
    (∀ q c, b.get q = some c → q ∈ processed →
      status.lookup q = some (.occupied c)) →
    (∀ q, b.is_on_grid q = true → b.get q = none →
      (∃ x ∈ processed, b.is_on_grid x = true ∧ b.get x = none ∧ empty_conn b x q) →
      ∃ B : Finset (Option Player),
        (∀ v, v ∈ B ↔ ∃ x, empty_conn b q x ∧ ∃ m ∈ x.neighbors,
          b.is_on_grid m = true ∧ b.get m = v ∧ v ≠ none) ∧
        status.lookup q = some (territory_fill B)) →
    (∀ q, (status.lookup q).isSome = true →
      ((∃ c, b.get q = some c ∧ q ∈ processed) ∨
       (b.is_on_grid q = true ∧ b.get q = none ∧
         ∃ x ∈ processed, b.is_on_grid x = true ∧ b.get x = none ∧
           empty_conn b x q))) →
    ((∀ q c, b.get q = some c → q ∈ processed ++ rest →
       (rest.foldl (fun status p =>
         if (status.lookup p).isSome then status
         else
           match b.get p with
           | some c => status ++ [(p, TerrStatus.occupied c)]
           | none =>
             status ++ (collect_region b (b.num_rows * b.num_cols) p ∅).1.map
               (fun q => (q, territory_fill
                 (collect_region b (b.num_rows * b.num_cols) p ∅).2.1))) status).lookup q
         = some (.occupied c)) ∧
     (∀ q, b.is_on_grid q = true → b.get q = none →
       (∃ x ∈ processed ++ rest, b.is_on_grid x = true ∧ b.get x = none ∧
         empty_conn b x q) →
       ∃ B : Finset (Option Player),
         (∀ v, v ∈ B ↔ ∃ x, empty_conn b q x ∧ ∃ m ∈ x.neighbors,
           b.is_on_grid m = true ∧ b.get m = v ∧ v ≠ none) ∧
         (rest.foldl (fun status p =>
           if (status.lookup p).isSome then status
           else
             match b.get p with
             | some c => status ++ [(p, TerrStatus.occupied c)]
             | none =>
               status ++ (collect_region b (b.num_rows * b.num_cols) p ∅).1.map
                 (fun q => (q, territory_fill
                   (collect_region b (b.num_rows * b.num_cols) p ∅).2.1))) status).lookup q
           = some (territory_fill B)) ∧
     (∀ q, ((rest.foldl (fun status p =>
         if (status.lookup p).isSome then status
         else
           match b.get p with
           | some c => status ++ [(p, TerrStatus.occupied c)]
           | none =>
             status ++ (collect_region b (b.num_rows * b.num_cols) p ∅).1.map
               (fun q => (q, territory_fill
                 (collect_region b (b.num_rows * b.num_cols) p ∅).2.1))) status).lookup q).isSome
         = true →
       ((∃ c, b.get q = some c ∧ q ∈ processed ++ rest) ∨
        (b.is_on_grid q = true ∧ b.get q = none ∧
          ∃ x ∈ processed ++ rest, b.is_on_grid x = true ∧ b.get x = none ∧
            empty_conn b x q)))) := by
  intro rest
  induction rest with
  | nil =>
    intro processed status _ h1 h2 h3
    simp only [List.foldl_nil, List.append_nil]
    exact ⟨h1, h2, h3⟩
  | cons p ps ih =>
    intro processed status hrest h1 h2 h3
    rw [List.foldl_cons]
    have hpon : b.is_on_grid p = true := hrest p (List.mem_cons_self p ps)
    have hmemconv : ∀ z : Point,
        z ∈ processed ++ p :: ps ↔ z ∈ (processed ++ [p]) ++ ps := by
      intro z
      simp
    by_cases hlk : (status.lookup p).isSome = true
    · rw [if_pos hlk]
      have h1' : ∀ q c, b.get q = some c → q ∈ processed ++ [p] →
          status.lookup q = some (.occupied c) := by
        intro q c hq hqp
        rcases List.mem_append.mp hqp with h | h
        · exact h1 q c hq h
        · obtain rfl : q = p := by simpa using h
          rcases h3 q hlk with ⟨c', hc', hproc⟩ | ⟨_, hnone, _⟩
          · exact h1 q c hq hproc
          · rw [hq] at hnone
            cases hnone
      have h2' : ∀ q, b.is_on_grid q = true → b.get q = none →
          (∃ x ∈ processed ++ [p], b.is_on_grid x = true ∧ b.get x = none ∧
            empty_conn b x q) →
          ∃ B : Finset (Option Player),
            (∀ v, v ∈ B ↔ ∃ x, empty_conn b q x ∧ ∃ m ∈ x.neighbors,
              b.is_on_grid m = true ∧ b.get m = v ∧ v ≠ none) ∧
            status.lookup q = some (territory_fill B) := by
        rintro q hong hgq ⟨x, hx, hxon, hxnone, hconn⟩
        rcases List.mem_append.mp hx with h | h
        · exact h2 q hong hgq ⟨x, h, hxon, hxnone, hconn⟩
        · obtain rfl : x = p := by simpa using h
          rcases h3 x hlk with ⟨c', hc', _⟩ | ⟨_, _, x0, hx0, hx0on, hx0none, hconn0⟩
          · rw [hxnone] at hc'
            cases hc'
          · exact h2 q hong hgq ⟨x0, hx0, hx0on, hx0none,
              empty_conn_trans b x0 x q hconn0 hconn⟩
      have h3' : ∀ q, (status.lookup q).isSome = true →
          ((∃ c, b.get q = some c ∧ q ∈ processed ++ [p]) ∨
           (b.is_on_grid q = true ∧ b.get q = none ∧
             ∃ x ∈ processed ++ [p], b.is_on_grid x = true ∧ b.get x = none ∧
               empty_conn b x q)) := by
        intro q hq
        rcases h3 q hq with ⟨c, hc, hproc⟩ | ⟨hong, hnone, x0, hx0, hx0on, hx0none, hc0⟩
        · exact Or.inl ⟨c, hc, List.mem_append_left _ hproc⟩
        · exact Or.inr ⟨hong, hnone, x0, List.mem_append_left _ hx0, hx0on, hx0none, hc0⟩
      obtain ⟨hA, hB2, hC⟩ := ih (processed ++ [p]) status
        (fun q hq => hrest q (List.mem_cons_of_mem p hq)) h1' h2' h3'
      refine ⟨?_, ?_, ?_⟩
      · intro q c hg hq
        exact hA q c hg ((hmemconv q).mp hq)
      · rintro q hong hgq ⟨x, hx, hxp⟩
        exact hB2 q hong hgq ⟨x, (hmemconv x).mp hx, hxp⟩
      · intro q hq
        rcases hC q hq with ⟨c, hc, hm⟩ | ⟨hong, hnone, x, hx, hxr⟩
        · exact Or.inl ⟨c, hc, (hmemconv q).mpr hm⟩
        · exact Or.inr ⟨hong, hnone, x, (hmemconv x).mpr hx, hxr⟩
    · rw [if_neg hlk]
      have hlknone : status.lookup p = none := by
        revert hlk
        cases status.lookup p <;> simp
      rcases hg : b.get p with _ | c
      · -- empty point: flood its fresh region
        simp only [hg]
        have hcards : (grid_points b \ (∅ : Finset Point)).card ≤
            b.num_rows * b.num_cols := by
          rw [Finset.sdiff_empty]
          exact card_grid_points b
        obtain ⟨hmemr, hBchar⟩ := collect_region_chars b (b.num_rows * b.num_cols) p ∅
          hcards hpon (Finset.not_mem_empty p)
        rw [hg] at hmemr hBchar
        have hmembers : ∀ q, q ∈ (collect_region b (b.num_rows * b.num_cols) p ∅).1 →
            b.is_on_grid q = true ∧ b.get q = none := by
          intro q hq
          rcases reach_target b none ∅ p q ((hmemr q).mp hq) with rfl | h
          · exact ⟨hpon, hg⟩
          · exact h
        have hfresh : ∀ q, q ∈ (collect_region b (b.num_rows * b.num_cols) p ∅).1 →
            status.lookup q = none := by
          intro q hq
          by_cases hqs : (status.lookup q).isSome = true
          · exfalso
            obtain ⟨hqon, hqnone⟩ := hmembers q hq
            have hconnpq : empty_conn b p q := (hmemr q).mp hq
            rcases h3 q hqs with ⟨c', hc', _⟩ |
              ⟨_, _, x0, hx0, hx0on, hx0none, hconn0⟩
            · rw [hqnone] at hc'
              cases hc'
            · have hconn0p : empty_conn b x0 p :=
                empty_conn_trans b x0 q p hconn0 (empty_conn_symm b p q hconnpq)
              obtain ⟨_, _, hlookp⟩ := h2 p hpon hg ⟨x0, hx0, hx0on, hx0none, hconn0p⟩
              rw [hlknone] at hlookp
              cases hlookp
          · revert hqs
            cases status.lookup q <;> simp
        have hlook' : ∀ q,
            (status ++ (collect_region b (b.num_rows * b.num_cols) p ∅).1.map
              (fun x => (x, territory_fill
                (collect_region b (b.num_rows * b.num_cols) p ∅).2.1))).lookup q =
            ((status.lookup q).or
              (if q ∈ (collect_region b (b.num_rows * b.num_cols) p ∅).1 then
                some (territory_fill
                  (collect_region b (b.num_rows * b.num_cols) p ∅).2.1)
               else none)) := by
          intro q
          rw [lookup_append, lookup_map_const]
        have h1' : ∀ q c, b.get q = some c → q ∈ processed ++ [p] →
            (status ++ (collect_region b (b.num_rows * b.num_cols) p ∅).1.map
              (fun x => (x, territory_fill
                (collect_region b (b.num_rows * b.num_cols) p ∅).2.1))).lookup q =
            some (.occupied c) := by
          intro q c hq hqp
          rcases List.mem_append.mp hqp with h | h
          · rw [hlook', h1 q c hq h]
            rfl
          · obtain rfl : q = p := by simpa using h
            rw [hq] at hg
            cases hg
        have h2' : ∀ q, b.is_on_grid q = true → b.get q = none →
            (∃ x ∈ processed ++ [p], b.is_on_grid x = true ∧ b.get x = none ∧
              empty_conn b x q) →
            ∃ B : Finset (Option Player),
              (∀ v, v ∈ B ↔ ∃ x, empty_conn b q x ∧ ∃ m ∈ x.neighbors,
                b.is_on_grid m = true ∧ b.get m = v ∧ v ≠ none) ∧
              (status ++ (collect_region b (b.num_rows * b.num_cols) p ∅).1.map
                (fun x => (x, territory_fill
                  (collect_region b (b.num_rows * b.num_cols) p ∅).2.1))).lookup q =
              some (territory_fill B) := by
          rintro q hong hgq ⟨x, hx, hxon, hxnone, hconn⟩
          rcases List.mem_append.mp hx with h | h
          · obtain ⟨B, hB, hlook⟩ := h2 q hong hgq ⟨x, h, hxon, hxnone, hconn⟩
            refine ⟨B, hB, ?_⟩
            rw [hlook', hlook]
            rfl
          · obtain rfl : p = x := (show x = p by simpa using h).symm
            have hqL : q ∈ (collect_region b (b.num_rows * b.num_cols) p ∅).1 :=
              (hmemr q).mpr hconn
            refine ⟨(collect_region b (b.num_rows * b.num_cols) p ∅).2.1, ?_, ?_⟩
            · intro v
              rw [hBchar v]
              constructor
              · rintro ⟨x', hx', hrest'⟩
                exact ⟨x', empty_conn_trans b q p x'
                  (empty_conn_symm b p q hconn) hx', hrest'⟩
              · rintro ⟨x', hx', hrest'⟩
                exact ⟨x', empty_conn_trans b p q x' hconn hx', hrest'⟩
            · rw [hlook', hfresh q hqL, if_pos hqL]
              rfl
        have h3' : ∀ q,
            ((status ++ (collect_region b (b.num_rows * b.num_cols) p ∅).1.map
              (fun x => (x, territory_fill
                (collect_region b (b.num_rows * b.num_cols) p ∅).2.1))).lookup q).isSome
              = true →
            ((∃ c, b.get q = some c ∧ q ∈ processed ++ [p]) ∨
             (b.is_on_grid q = true ∧ b.get q = none ∧
               ∃ x ∈ processed ++ [p], b.is_on_grid x = true ∧ b.get x = none ∧
                 empty_conn b x q)) := by
          intro q hq
          rw [hlook'] at hq
          rcases hsq : status.lookup q with _ | st
          · rw [hsq] at hq
            by_cases hqL : q ∈ (collect_region b (b.num_rows * b.num_cols) p ∅).1
            · obtain ⟨hqon, hqnone⟩ := hmembers q hqL
              exact Or.inr ⟨hqon, hqnone, p, List.mem_append_right _ (by simp),
                hpon, hg, (hmemr q).mp hqL⟩
            · rw [if_neg hqL] at hq
              simp at hq
          · have hqs : (status.lookup q).isSome = true := by
              rw [hsq]
              rfl
            rcases h3 q hqs with ⟨c, hc, hm⟩ |
              ⟨hong, hnone, x0, hx0, hx0on, hx0none, hc0⟩
            · exact Or.inl ⟨c, hc, List.mem_append_left _ hm⟩
            · exact Or.inr ⟨hong, hnone, x0, List.mem_append_left _ hx0, hx0on,
                hx0none, hc0⟩
        obtain ⟨hA, hB2, hC⟩ := ih (processed ++ [p])
          (status ++ (collect_region b (b.num_rows * b.num_cols) p ∅).1.map
            (fun x => (x, territory_fill
              (collect_region b (b.num_rows * b.num_cols) p ∅).2.1)))
          (fun q hq => hrest q (List.mem_cons_of_mem p hq)) h1' h2' h3'
        refine ⟨?_, ?_, ?_⟩
        · intro q c hgq hq
          exact hA q c hgq ((hmemconv q).mp hq)
        · rintro q hong hgq ⟨x, hx, hxp⟩
          exact hB2 q hong hgq ⟨x, (hmemconv x).mp hx, hxp⟩
        · intro q hq
          rcases hC q hq with ⟨c, hc, hm⟩ | ⟨hong, hnone, x, hx, hxr⟩
          · exact Or.inl ⟨c, hc, (hmemconv q).mpr hm⟩
          · exact Or.inr ⟨hong, hnone, x, (hmemconv x).mpr hx, hxr⟩
      · -- stone point
        simp only [hg]
        have h1' : ∀ q c', b.get q = some c' → q ∈ processed ++ [p] →
            (status ++ [(p, TerrStatus.occupied c)]).lookup q =
              some (.occupied c') := by
          intro q c' hq hqp
          rcases List.mem_append.mp hqp with h | h
          · rw [lookup_append, h1 q c' hq h]
            rfl
          · obtain rfl : q = p := by simpa using h
            rw [hq] at hg
            injection hg with hcc
            subst hcc
            rw [lookup_append, hlknone]
            simp [List.lookup]
        have h2' : ∀ q, b.is_on_grid q = true → b.get q = none →
            (∃ x ∈ processed ++ [p], b.is_on_grid x = true ∧ b.get x = none ∧
              empty_conn b x q) →
            ∃ B : Finset (Option Player),
              (∀ v, v ∈ B ↔ ∃ x, empty_conn b q x ∧ ∃ m ∈ x.neighbors,
                b.is_on_grid m = true ∧ b.get m = v ∧ v ≠ none) ∧
              (status ++ [(p, TerrStatus.occupied c)]).lookup q =
                some (territory_fill B) := by
          rintro q hong hgq ⟨x, hx, hxon, hxnone, hconn⟩
          rcases List.mem_append.mp hx with h | h
          · obtain ⟨B, hB, hlook⟩ := h2 q hong hgq ⟨x, h, hxon, hxnone, hconn⟩
            refine ⟨B, hB, ?_⟩
            rw [lookup_append, hlook]
            rfl
          · obtain rfl : x = p := by simpa using h
            rw [hg] at hxnone
            cases hxnone
        have h3' : ∀ q,
            ((status ++ [(p, TerrStatus.occupied c)]).lookup q).isSome = true →
            ((∃ c', b.get q = some c' ∧ q ∈ processed ++ [p]) ∨
             (b.is_on_grid q = true ∧ b.get q = none ∧
               ∃ x ∈ processed ++ [p], b.is_on_grid x = true ∧ b.get x = none ∧
                 empty_conn b x q)) := by
          intro q hq
          rw [lookup_append] at hq
          rcases hsq : status.lookup q with _ | st
          · rw [hsq] at hq
            by_cases hqp : p = q
            · subst hqp
              exact Or.inl ⟨c, hg, List.mem_append_right _ (by simp)⟩
            · have hbeq : (q == p) = false :=
                beq_eq_false_iff_ne.mpr (fun h => hqp h.symm)
              rw [show ([(p, TerrStatus.occupied c)].lookup q) = none from by
                simp [List.lookup, hbeq]] at hq
              simp at hq
          · have hqs : (status.lookup q).isSome = true := by
              rw [hsq]
              rfl
            rcases h3 q hqs with ⟨c', hc', hm⟩ |
              ⟨hong, hnone, x0, hx0, hx0on, hx0none, hc0⟩
            · exact Or.inl ⟨c', hc', List.mem_append_left _ hm⟩
            · exact Or.inr ⟨hong, hnone, x0, List.mem_append_left _ hx0, hx0on,
                hx0none, hc0⟩
        obtain ⟨hA, hB2, hC⟩ := ih (processed ++ [p])
          (status ++ [(p, TerrStatus.occupied c)])
          (fun q hq => hrest q (List.mem_cons_of_mem p hq)) h1' h2' h3'
        refine ⟨?_, ?_, ?_⟩
        · intro q c' hgq hq
          exact hA q c' hgq ((hmemconv q).mp hq)
        · rintro q hong hgq ⟨x, hx, hxp⟩
          exact hB2 q hong hgq ⟨x, (hmemconv x).mp hx, hxp⟩
        · intro q hq
          rcases hC q hq with ⟨c', hc', hm⟩ | ⟨hong, hnone, x, hx, hxr⟩
          · exact Or.inl ⟨c', hc', (hmemconv q).mpr hm⟩
          · exact Or.inr ⟨hong, hnone, x, (hmemconv x).mpr hx, hxr⟩

theorem status_of_spec (b : Board) :
    (∀ q c, b.get q = some c → b.is_on_grid q = true →
      status_of b q = some (.occupied c)) ∧
    (∀ q, b.is_on_grid q = true → b.get q = none →
      ∃ B : Finset (Option Player),
        (∀ v, v ∈ B ↔ ∃ x, empty_conn b q x ∧ ∃ m ∈ x.neighbors,
          b.is_on_grid m = true ∧ b.get m = v ∧ v ≠ none) ∧
        status_of b q = some (territory_fill B)) := by
  obtain ⟨hA, hB, _⟩ := territory_fold_spec b
    (all_points_list b.num_rows b.num_cols) [] []
    (fun q hq => (mem_all_points_iff_on_grid b q).mp hq)
    (fun q c _ hq => absurd hq (List.not_mem_nil q))
    (fun q _ _ hx => absurd hx.choose_spec.1 (List.not_mem_nil _))
    (fun q hq => by cases hq)
  constructor
  · intro q c hg hon
    have hq : q ∈ ([] : List Point) ++ all_points_list b.num_rows b.num_cols := by
      simpa using (mem_all_points_iff_on_grid b q).mpr hon
    unfold status_of
    rw [evaluate_territory_status_eq]
    exact hA q c hg hq
  · intro q hon hg
    have hq : q ∈ ([] : List Point) ++ all_points_list b.num_rows b.num_cols := by
      simpa using (mem_all_points_iff_on_grid b q).mpr hon
    obtain ⟨B, hBc, hlk⟩ := hB q hon hg ⟨q, hq, hon, hg, empty_conn_refl b q⟩
    refine ⟨B, hBc, ?_⟩
    unfold status_of
    rw [evaluate_territory_status_eq]
    exact hlk
set_option maxRecDepth 10000

/-- C8: the territory evaluation classifies every on-grid point: stones
keep their occupant; an empty point whose maximal 4-connected empty
region borders stones of exactly one color is marked as that color's
territory, and an empty point whose region borders both colors or no
stone at all is marked dame; on the entirely empty 9x9 board all 81
points are dame and every stone and territory count is zero. -/
theorem c8_territory (b : Board) :
    (∀ p c, b.get p = some c → b.is_on_grid p = true →
      status_of b p = some (.occupied c)) ∧
    (∀ p, b.is_on_grid p = true → b.get p = none →
      ((status_of b p = some .territory_b ↔
          region_border_colors b p = {Player.black}) ∧
       (status_of b p = some .territory_w ↔
          region_border_colors b p = {Player.white}) ∧
       (status_of b p = some .dame ↔
          (region_border_colors b p = (∅ : Set Player) ∨
           region_border_colors b p = {Player.black, Player.white})))) ∧
    ((evaluate_territory (Board.empty 9 9)).num_dame = 81 ∧
     (evaluate_territory (Board.empty 9 9)).num_black_stones = 0 ∧
     (evaluate_territory (Board.empty 9 9)).num_white_stones = 0 ∧
     (evaluate_territory (Board.empty 9 9)).num_black_territory = 0 ∧
     (evaluate_territory (Board.empty 9 9)).num_white_territory = 0) := by
  obtain ⟨hocc, hterr⟩ := status_of_spec b
  refine ⟨hocc, ?_, by decide⟩
  intro p hon hg
  obtain ⟨B, hB, hstat⟩ := hterr p hon hg
  have hnone : (none : Option Player) ∉ B := by
    intro h
    obtain ⟨_, _, _, _, _, _, hne⟩ := (hB none).mp h
    exact hne rfl
  have hRBC : ∀ c : Player, c ∈ region_border_colors b p ↔ some c ∈ B := by
    intro c
    rw [hB (some c)]
    constructor
    · intro hc
      obtain ⟨q, hq, n, hn, hon', hg'⟩ := hc
      exact ⟨q, hq, n, hn, hon', hg', by simp⟩
    · rintro ⟨q, hq, n, hn, hon', hg', _⟩
      exact ⟨q, hq, n, hn, hon', hg'⟩
  rw [hstat]
  by_cases hb : some Player.black ∈ B <;> by_cases hw : some Player.white ∈ B
  · have hBeq : B = {some Player.black, some Player.white} := by
      ext v
      simp only [Finset.mem_insert, Finset.mem_singleton]
      constructor
      · intro hv
        rcases v with _ | c
        · exact absurd hv hnone
        · cases c
          · exact Or.inl rfl
          · exact Or.inr rfl
      · rintro (rfl | rfl)
        · exact hb
        · exact hw
    have hfill : territory_fill B = .dame := by
      rw [hBeq]
      decide
    have hset : region_border_colors b p = {Player.black, Player.white} := by
      ext c
      simp only [Set.mem_insert_iff, Set.mem_singleton_iff]
      constructor
      · intro _
        cases c
        · exact Or.inl rfl
        · exact Or.inr rfl
      · rintro (rfl | rfl)
        · exact (hRBC _).mpr hb
        · exact (hRBC _).mpr hw
    rw [hfill]
    refine ⟨⟨fun h => absurd h (by decide), fun heq => ?_⟩,
      ⟨fun h => absurd h (by decide), fun heq => ?_⟩,
      ⟨fun _ => Or.inr hset, fun _ => rfl⟩⟩
    · exfalso
      have hwmem : Player.white ∈ region_border_colors b p := (hRBC _).mpr hw
      rw [heq] at hwmem
      simp at hwmem
    · exfalso
      have hbmem : Player.black ∈ region_border_colors b p := (hRBC _).mpr hb
      rw [heq] at hbmem
      simp at hbmem
  · have hBeq : B = {some Player.black} := by
      ext v
      simp only [Finset.mem_singleton]
      constructor
      · intro hv
        rcases v with _ | c
        · exact absurd hv hnone
        · cases c
          · rfl
          · exact absurd hv hw
      · rintro rfl
        exact hb
    have hfill : territory_fill B = .territory_b := by
      rw [hBeq]
      decide
    have hset : region_border_colors b p = {Player.black} := by
      ext c
      simp only [Set.mem_singleton_iff]
      constructor
      · intro hc
        cases c
        · rfl
        · exact absurd ((hRBC _).mp hc) hw
      · rintro rfl
        exact (hRBC _).mpr hb
    rw [hfill]
    refine ⟨⟨fun _ => hset, fun _ => rfl⟩,
      ⟨fun h => absurd h (by decide), fun heq => ?_⟩,
      ⟨fun h => absurd h (by decide), fun hor => ?_⟩⟩
    · exfalso
      have hbmem : Player.black ∈ region_border_colors b p := (hRBC _).mpr hb
      rw [heq] at hbmem
      simp at hbmem
    · exfalso
      have hbmem : Player.black ∈ region_border_colors b p := (hRBC _).mpr hb
      rcases hor with heq | heq
      · rw [heq] at hbmem
        exact hbmem
      · rw [heq] at hbmem
        rcases hbmem with h | h
        · -- black ∈ {black, white} is fine; contradiction must come from white side
          have hwmem : Player.white ∈ region_border_colors b p := by
            rw [heq]
            exact Or.inr rfl
          exact hw ((hRBC _).mp hwmem)
        · have hwmem : Player.white ∈ region_border_colors b p := by
            rw [heq]
            exact Or.inr rfl
          exact hw ((hRBC _).mp hwmem)
  · have hBeq : B = {some Player.white} := by
      ext v
      simp only [Finset.mem_singleton]
      constructor
      · intro hv
        rcases v with _ | c
        · exact absurd hv hnone
        · cases c
          · exact absurd hv hb
          · rfl
      · rintro rfl
        exact hw
    have hfill : territory_fill B = .territory_w := by
      rw [hBeq]
      decide
    have hset : region_border_colors b p = {Player.white} := by
      ext c
      simp only [Set.mem_singleton_iff]
      constructor
      · intro hc
        cases c
        · exact absurd ((hRBC _).mp hc) hb
        · rfl
      · rintro rfl
        exact (hRBC _).mpr hw
    rw [hfill]
    refine ⟨⟨fun h => absurd h (by decide), fun heq => ?_⟩,
      ⟨fun _ => hset, fun _ => rfl⟩,
      ⟨fun h => absurd h (by decide), fun hor => ?_⟩⟩
    · exfalso
      have hwmem : Player.white ∈ region_border_colors b p := (hRBC _).mpr hw
      rw [heq] at hwmem
      simp at hwmem
    · exfalso
      have hwmem : Player.white ∈ region_border_colors b p := (hRBC _).mpr hw
      rcases hor with heq | heq
      · rw [heq] at hwmem
        exact hwmem
      · have hbmem : Player.black ∈ region_border_colors b p := by
          rw [heq]
          exact Or.inl rfl
        exact hb ((hRBC _).mp hbmem)
  · have hfill : territory_fill B = .dame := by
      unfold territory_fill
      have hcard : B.card ≠ 1 := by
        intro hcard
        obtain ⟨v, hv⟩ := Finset.card_eq_one.mp hcard
        have hvmem : v ∈ B := by
          rw [hv]
          exact Finset.mem_singleton_self v
        rcases v with _ | c
        · exact hnone hvmem
        · cases c
          · exact hb hvmem
          · exact hw hvmem
      rw [if_neg hcard]
    have hset : region_border_colors b p = (∅ : Set Player) := by
      ext c
      simp only [Set.mem_empty_iff_false, iff_false]
      intro hc
      cases c
      · exact hb ((hRBC _).mp hc)
      · exact hw ((hRBC _).mp hc)
    rw [hfill]
    refine ⟨⟨fun h => absurd h (by decide), fun heq => ?_⟩,
      ⟨fun h => absurd h (by decide), fun heq => ?_⟩,
      ⟨fun _ => Or.inl hset, fun _ => rfl⟩⟩
    · exfalso
      have hbmem : Player.black ∈ region_border_colors b p := by
        rw [heq]
        rfl
      rw [hset] at hbmem
      exact hbmem
    · exfalso
      have hwmem : Player.white ∈ region_border_colors b p := by
        rw [heq]
        rfl
      rw [hset] at hwmem
      exact hwmem

/-- Witness for C8: a stone keeps its occupant status, and the corner
point of an empty 2x2 board is dame because its region borders no
stones. -/
theorem c8_witness :
    status_of oneStoneBoard ⟨1, 1⟩ = some (.occupied .black) ∧
    status_of (Board.empty 2 2) ⟨1, 1⟩ = some .dame := by
  constructor
  · exact (c8_territory oneStoneBoard).1 ⟨1, 1⟩ .black (by decide) (by decide)
  · have hempty : region_border_colors (Board.empty 2 2) ⟨1, 1⟩ = (∅ : Set Player) := by
      ext c
      simp only [Set.mem_empty_iff_false, iff_false]
      intro h
      obtain ⟨q, _, n, _, _, hg⟩ := h
      simp [Board.get, Board.empty] at hg
    exact (((c8_territory (Board.empty 2 2)).2.1 ⟨1, 1⟩ (by decide) rfl).2.2).mpr
      (Or.inl hempty)
